import Mathlib

/-!
Verification development for the TrafficSimulator repository.

The definitions below are a shallow embedding of the Python sources:
`traffic_simulator/entity/OrderEntity.py`, `traffic_simulator/entity/TaxiEntity.py`,
`traffic_simulator/manager/OrderManager.py`, `traffic_simulator/manager/FleetManager.py`,
`traffic_simulator/manager/RoadNetworkManager.py`,
`traffic_simulator/strategy/OrderMatchStrategy.py`,
`traffic_simulator/strategy/TaxiRepositionStrategy.py` and `traffic_simulator/Simulator.py`.

Python objects become Lean structures; in-place mutation becomes explicit state
passing (an operation on an entity returns the updated entity, an operation on a
manager returns the updated manager).  Python `dict`s keyed by integer ids are
modelled as lists in insertion order; mutating the object stored under a key is
modelled as mapping over the list and replacing the entries whose id matches
(identical to the dict semantics because ids are unique).  `None` becomes
`Option.none`, `float('inf')` becomes `(⊤ : WithTop Nat)`, and Python integers
become `Int` (simulation times) or `Nat` (ids and node labels).
-/

namespace TrafficSim

/-- Order lifecycle status, `OrderEntity.status` (a Python string). -/
inductive OrderStatus where
  | waiting
  | assigned
  | picked_up
  | completed
  | cancelled
deriving DecidableEq, Repr

/-- Taxi status, `TaxiEntity.status` (a Python string). -/
inductive TaxiStatus where
  | idle
  | enroute_pickup
  | occupied
  | repositioning
deriving DecidableEq, Repr

/-- `OrderEntity` (entity/OrderEntity.py).  `cancel_time` is the attribute that
`OrderManager.get_waiting_orders` adds dynamically when it cancels an order. -/
structure OrderEntity where
  order_id : Nat
  pickup_node : Nat
  dropoff_node : Nat
  request_time : Int
  assigned_taxi : Option Nat := none
  assigned_time : Option Int := none
  pickup_time : Option Int := none
  dropoff_time : Option Int := none
  cancel_time : Option Int := none
  status : OrderStatus := OrderStatus.waiting
deriving DecidableEq, Repr

namespace OrderEntity

/-- `OrderEntity.assign_taxi`: succeeds only from `waiting`; sets
`assigned_taxi`, `assigned_time` and moves the status to `assigned`. -/
def assign_taxi (o : OrderEntity) (taxi_id : Nat) (current_time : Int) :
    Bool × OrderEntity :=
  if o.status ≠ OrderStatus.waiting then (false, o)
  else (true, { o with
    assigned_taxi := some taxi_id
    assigned_time := some current_time
    status := OrderStatus.assigned })

/-- `OrderEntity.pickup_passenger`: succeeds only from `assigned`; sets
`pickup_time` and moves the status to `picked_up`. -/
def pickup_passenger (o : OrderEntity) (current_time : Int) :
    Bool × OrderEntity :=
  if o.status ≠ OrderStatus.assigned then (false, o)
  else (true, { o with
    pickup_time := some current_time
    status := OrderStatus.picked_up })

/-- `OrderEntity.complete_order`: succeeds only from `picked_up`; sets
`dropoff_time` and moves the status to `completed`. -/
def complete_order (o : OrderEntity) (current_time : Int) :
    Bool × OrderEntity :=
  if o.status ≠ OrderStatus.picked_up then (false, o)
  else (true, { o with
    dropoff_time := some current_time
    status := OrderStatus.completed })

end OrderEntity

/-- One event produced by `TaxiEntity.update_position`: the Python tuple
`(order_id, order_status, order_time)`.  `order_id` is `None` when the taxi had
no current order; `order_time` is always an integer when the tuple is built. -/
structure OrderEvent where
  oid : Option Nat
  st : OrderStatus
  time : Int
deriving DecidableEq, Repr

/-- `OrderManager` (manager/OrderManager.py): all orders in insertion order of
the `self.orders` dict, together with the cancellation threshold
(`self.waiting_threshold`, 300 by default). -/
structure OrderManager where
  orders : List OrderEntity
  waiting_threshold : Int := 300
deriving Repr

namespace OrderManager

/-- The filter used twice by `get_waiting_orders`:
`order.status == "waiting" and order.request_time <= current_time`. -/
def isWaitingAt (current_time : Int) (o : OrderEntity) : Bool :=
  o.status = OrderStatus.waiting && o.request_time ≤ current_time

/-- The body of the cancellation pass of `get_waiting_orders`: cancel the order
when `current_time - order.request_time > self.waiting_threshold`. -/
def cancelIfTimedOut (threshold current_time : Int) (o : OrderEntity) : OrderEntity :=
  if current_time - o.request_time > threshold then
    { o with status := OrderStatus.cancelled, cancel_time := some current_time }
  else o

/-- `OrderManager.get_waiting_orders(current_time)`.  The Python code first
collects the waiting orders whose request time has passed, then mutates (in
place) every collected order that has waited beyond the threshold, and returns
the collected orders that are still `waiting`.  Because the collected list
shares its objects with `self.orders`, the mutation is modelled as a guarded map
over the manager's whole list.  Returns the returned list and the manager's
post-call state. -/
def get_waiting_orders (m : OrderManager) (current_time : Int) :
    List OrderEntity × OrderManager :=
  let returned :=
    ((m.orders.filter (isWaitingAt current_time)).map
        (cancelIfTimedOut m.waiting_threshold current_time)).filter
      (fun o => o.status = OrderStatus.waiting)
  let orders' := m.orders.map (fun o =>
    if isWaitingAt current_time o then
      cancelIfTimedOut m.waiting_threshold current_time o
    else o)
  (returned, { m with orders := orders' })

/-- `OrderManager.assign_order(order_id, taxi_id, current_time)`: transitions
the stored order to `assigned` when it exists and is `waiting`. -/
def assign_order (m : OrderManager) (order_id taxi_id : Nat) (current_time : Int) :
    OrderManager :=
  { m with orders := m.orders.map (fun o =>
      if o.order_id = order_id ∧ o.status = OrderStatus.waiting then
        { o with
          status := OrderStatus.assigned
          assigned_taxi := some taxi_id
          assigned_time := some current_time }
      else o) }

/-- `OrderManager.get_order(order_id)` (`self.orders.get(order_id)`). -/
def get_order (m : OrderManager) (order_id : Nat) : Option OrderEntity :=
  m.orders.find? (fun o => o.order_id = order_id)

/-- Application of one event of `OrderManager.change_orders_status` to one
stored order. -/
def applyEvent (e : OrderEvent) (o : OrderEntity) : OrderEntity :=
  if some o.order_id = e.oid then
    { o with
      status := e.st
      pickup_time := if e.st = OrderStatus.picked_up then some e.time else o.pickup_time
      dropoff_time := if e.st = OrderStatus.completed then some e.time else o.dropoff_time }
  else o

/-- `OrderManager.change_orders_status(order_list)`: for each
`(order_id, order_status, order_time)`, when the id is a known key the order's
status is overwritten unconditionally and the matching timestamp is set;
unknown ids (including `None`) are skipped. -/
def change_orders_status (m : OrderManager) (events : List OrderEvent) :
    OrderManager :=
  events.foldl (fun acc e =>
    { acc with orders := acc.orders.map (applyEvent e) }) m

end OrderManager

/-- `TaxiEntity` (entity/TaxiEntity.py).  `position_node` is an `Option`
because `_complete_order` / `_complete_repositioning` copy
`current_destination` (which can be `None`) into it. -/
structure TaxiEntity where
  taxi_id : Nat
  driver_preference : String := ""
  status : TaxiStatus := TaxiStatus.idle
  position_node : Option Nat
  current_order : Option Nat := none
  current_destination : Option Nat := none
  current_route : Option (List (Nat × Int)) := none
  order_history : List Nat := []
  route_history : List (Nat × Int) := []
deriving DecidableEq, Repr

namespace TaxiEntity

/-- `TaxiEntity.assign_order(order_id, pickup_node, route)`: requires `idle`;
moves to `enroute_pickup`, records the order and route, and appends to both
histories. -/
def assign_order (v : TaxiEntity) (order_id pickup_node : Nat)
    (route : List (Nat × Int)) : Bool × TaxiEntity :=
  if v.status ≠ TaxiStatus.idle then (false, v)
  else (true, { v with
    status := TaxiStatus.enroute_pickup
    current_order := some order_id
    current_destination := some pickup_node
    current_route := some route
    order_history := v.order_history ++ [order_id]
    route_history := v.route_history ++ route })

/-- `TaxiEntity.start_repositioning(destination_node, route)`: requires `idle`;
moves to `repositioning` and appends the route to `route_history`. -/
def start_repositioning (v : TaxiEntity) (destination_node : Nat)
    (route : List (Nat × Int)) : Bool × TaxiEntity :=
  if v.status ≠ TaxiStatus.idle then (false, v)
  else (true, { v with
    status := TaxiStatus.repositioning
    current_destination := some destination_node
    current_route := some route
    route_history := v.route_history ++ route })

/-- Intermediate state of the `enroute_pickup` loop in
`TaxiEntity.update_position`: the local variables `new_position`,
`order_status`, `order_time` plus the object fields the loop can mutate through
`_arrive_at_pickup`. -/
structure LoopState where
  new_position : Option Nat
  st : TaxiStatus
  position_node : Option Nat
  current_destination : Option Nat
  order_status : Option OrderStatus
  order_time : Option Int
deriving DecidableEq, Repr

/-- The `enroute_pickup` branch of the position loop.  `lastNode` is
`self.current_route[-1][0]`, which `_arrive_at_pickup` installs as the new
destination.  The loop breaks at the first arrival time above `current_time`;
otherwise it advances `new_position` and, when the position equals the current
destination, records a pickup and applies `_arrive_at_pickup` (which only acts
when the status is still `enroute_pickup`). -/
def enrouteLoop (lastNode : Nat) (current_time : Int) :
    List (Nat × Int) → LoopState → LoopState
  | [], s => s
  | (node, arrival) :: rest, s =>
    if arrival > current_time then s
    else
      let s1 := { s with new_position := some node }
      let s2 :=
        if (some node : Option Nat) = s1.current_destination then
          let s' := { s1 with
            order_status := some OrderStatus.picked_up
            order_time := some arrival }
          if s'.st = TaxiStatus.enroute_pickup then
            { s' with
              st := TaxiStatus.occupied
              position_node := s'.current_destination
              current_destination := some lastNode }
          else s'
        else s1
      enrouteLoop lastNode current_time rest s2

/-- The non-`enroute_pickup` branch of the position loop: the last route node
whose arrival time is not in the future (`None` when even the first one is). -/
def plainLoop (current_time : Int) : List (Nat × Int) → Option Nat → Option Nat
  | [], acc => acc
  | (node, arrival) :: rest, acc =>
    if arrival > current_time then acc
    else plainLoop current_time rest (some node)

/-- Whether the walked prefix of the route (the nodes before the first arrival
time above `current_time`) contains the destination — i.e. whether the pickup
transition of `update_position` fires.  Depends only on the route, the time
and the destination. -/
def enrouteHits (current_time : Int) (dest : Option Nat) :
    List (Nat × Int) → Bool
  | [] => false
  | (node, arrival) :: rest =>
    if arrival > current_time then false
    else if some node = dest then true
    else enrouteHits current_time dest rest

/-- The position after the `new_position` write-back: the last reached route
node, or the old position when no node was reached. -/
def posAfter (v : TaxiEntity) (t : Int) (route : List (Nat × Int)) : Option Nat :=
  match plainLoop t route none with
  | some p => some p
  | none => v.position_node

/-- Result of `TaxiEntity.update_position`: Python returns `False` when the
taxi has no route or is not in a moving status, `None` when it moved without an
order transition, and an event tuple otherwise. -/
inductive UpdateResult where
  | notMoving
  | noEvent
  | changed (e : OrderEvent)
deriving DecidableEq, Repr

/-- Body of `TaxiEntity.update_position(current_time)` past its guard.
Mirrors the source: one of the two loops, the `new_position` write-back, then
the end-of-route check which completes an `occupied` or `repositioning` trip
via `_complete_order` / `_complete_repositioning`. -/
def updateMoving (v : TaxiEntity) (current_time : Int)
    (route : List (Nat × Int)) : TaxiEntity × UpdateResult :=
  let order_id := v.current_order
  -- the caller guarantees `route` is non-empty, so the default of `getD`
  -- is never used
  let lastPair := route.getLast?.getD (0 : Nat × Int)
  let s0 : LoopState := {
    new_position := none
    st := v.status
    position_node := v.position_node
    current_destination := v.current_destination
    order_status := none
    order_time := none }
  let s :=
    if v.status = TaxiStatus.enroute_pickup then
      enrouteLoop lastPair.1 current_time route s0
    else
      { s0 with new_position := plainLoop current_time route none }
  -- `if new_position is not None: self.position_node = new_position`
  let pos1 :=
    match s.new_position with
    | some p => some p
    | none => s.position_node
  let v1 : TaxiEntity := { v with
    status := s.st
    position_node := pos1
    current_destination := s.current_destination }
  let v2 :=
    if current_time ≥ lastPair.2 then
      let va := { v1 with position_node := some lastPair.1 }
      if va.status = TaxiStatus.occupied then
        -- `_complete_order`
        { va with
          status := TaxiStatus.idle
          position_node := va.current_destination
          current_order := none
          current_destination := none
          current_route := none }
      else if va.status = TaxiStatus.repositioning then
        -- `_complete_repositioning`
        { va with
          status := TaxiStatus.idle
          position_node := va.current_destination
          current_destination := none
          current_route := none }
      else va
    else v1
  let finalStatus :=
    if current_time ≥ lastPair.2 ∧ s.st = TaxiStatus.occupied then
      some OrderStatus.completed
    else s.order_status
  let finalTime :=
    if current_time ≥ lastPair.2 ∧ s.st = TaxiStatus.occupied then
      some lastPair.2
    else s.order_time
  match finalStatus with
  | some st => (v2, UpdateResult.changed ⟨order_id, st, finalTime.getD 0⟩)
  | none => (v2, UpdateResult.noEvent)

/-- `TaxiEntity.update_position(current_time)`: the guard (`False` when there
is no route or the taxi is not in a moving status), then the moving body. -/
def update_position (v : TaxiEntity) (current_time : Int) :
    TaxiEntity × UpdateResult :=
  match v.current_route with
  | none => (v, UpdateResult.notMoving)
  | some route =>
    if route = [] ∨
        (v.status ≠ TaxiStatus.enroute_pickup ∧ v.status ≠ TaxiStatus.occupied ∧
          v.status ≠ TaxiStatus.repositioning) then
      (v, UpdateResult.notMoving)
    else updateMoving v current_time route

end TaxiEntity

/-- `FleetManager` (manager/FleetManager.py): the taxis in insertion order of
the `self.taxis` dict. -/
structure FleetManager where
  taxis : List TaxiEntity
deriving Repr

namespace FleetManager

/-- `FleetManager.__init__` / `_initialize_fleet_with_positions`: one taxi per
initial position, sequential ids starting at 1. -/
def init (taxi_init_positions : List Nat) : FleetManager :=
  { taxis := (taxi_init_positions.enum).map (fun p =>
      { taxi_id := p.1 + 1, position_node := some p.2 }) }

/-- `FleetManager.get_taxi(taxi_id)` (dict access). -/
def get_taxi (fm : FleetManager) (taxi_id : Nat) : Option TaxiEntity :=
  fm.taxis.find? (fun v => v.taxi_id = taxi_id)

/-- `FleetManager.get_idle_taxis()`. -/
def get_idle_taxis (fm : FleetManager) : List TaxiEntity :=
  fm.taxis.filter (fun v => v.status = TaxiStatus.idle)

/-- `FleetManager.assign_order_to_taxi(taxi_id, order_id, pickup_node, route)`:
delegates to the taxi's `assign_order`; unknown ids are a no-op. -/
def assign_order_to_taxi (fm : FleetManager) (taxi_id order_id pickup_node : Nat)
    (route : List (Nat × Int)) : FleetManager :=
  { fm with taxis := fm.taxis.map (fun v =>
      if v.taxi_id = taxi_id then
        (v.assign_order order_id pickup_node route).2
      else v) }

/-- `FleetManager.update_taxis_position(current_time)`: updates every taxi in
dict order and collects the truthy return values (the event tuples). -/
def update_taxis_position (fm : FleetManager) (current_time : Int) :
    FleetManager × List OrderEvent :=
  let step := fun (acc : List TaxiEntity × List OrderEvent) (v : TaxiEntity) =>
    let (v', r) := v.update_position current_time
    match r with
    | TaxiEntity.UpdateResult.changed e => (acc.1 ++ [v'], acc.2 ++ [e])
    | _ => (acc.1 ++ [v'], acc.2)
  let out := fm.taxis.foldl step ([], [])
  ({ fm with taxis := out.1 }, out.2)

/-- One entry of a repositioning plan: `(taxi_id, destination_node, route)`. -/
abbrev PlanEntry := Nat × Nat × List (Nat × Int)

/-- `FleetManager.reposition_idle_taxis(strategy_list)`.  For each entry the
source skips unknown ids and non-idle taxis and otherwise sets the status,
destination and route fields inline (it does not call `start_repositioning`,
so `route_history` is left untouched). -/
def reposition_idle_taxis (fm : FleetManager) (strategy_list : List PlanEntry) :
    FleetManager :=
  strategy_list.foldl (fun acc entry =>
    { acc with taxis := acc.taxis.map (fun v =>
        if v.taxi_id = entry.1 ∧ v.status = TaxiStatus.idle then
          { v with
            status := TaxiStatus.repositioning
            current_destination := some entry.2.1
            current_route := some entry.2.2 }
        else v) }) fm

end FleetManager

/-- The road network (an undirected `networkx` graph): the node list and the
edge list, each edge carrying its `time` attribute. -/
structure RoadGraph where
  nodes : List Nat
  edges : List (Nat × Nat × Nat)
deriving Repr

namespace RoadNetworkManager

/-- Lookup in a distance table, `⊤` for absent nodes. -/
def lookupDist (d : List (Nat × WithTop Nat)) (n : Nat) : WithTop Nat :=
  ((d.find? (fun p => p.1 = n)).map Prod.snd).getD ⊤

/-- Initial distance table for a single-source shortest-path computation. -/
def distInit (nodes : List Nat) (s : Nat) : List (Nat × WithTop Nat) :=
  nodes.map (fun n => (n, if n = s then (0 : WithTop Nat) else ⊤))

/-- One relaxation pass over every (undirected) edge. -/
def relaxOnce (edges : List (Nat × Nat × Nat)) (d : List (Nat × WithTop Nat)) :
    List (Nat × WithTop Nat) :=
  d.map (fun p =>
    (p.1, edges.foldl (fun best e =>
      let b1 := if e.2.1 = p.1 then
          min best (lookupDist d e.1 + (e.2.2 : WithTop Nat)) else best
      if e.1 = p.1 then
        min b1 (lookupDist d e.2.1 + (e.2.2 : WithTop Nat))
      else b1) p.2))

/-- `RoadNetworkManager.calculate_shortest_travel_time(source, target)`:
the weight of a lightest path under the edge `time` attribute (the source
delegates to `networkx.shortest_path_length`, a Dijkstra; iterated full
relaxation computes the same distances), and `+∞` — here `⊤` — when no path
exists or a node is missing (`NetworkXNoPath` / `NodeNotFound` are caught). -/
def calculate_shortest_travel_time (g : RoadGraph) (source target : Nat) :
    WithTop Nat :=
  if source ∈ g.nodes ∧ target ∈ g.nodes then
    lookupDist ((relaxOnce g.edges)^[g.nodes.length] (distInit g.nodes source)) target
  else ⊤

/-- The travel-time call made while building the cost matrix; the taxi position
can be `None`, which makes `networkx` raise `NodeNotFound`, which the source
catches by returning `float('inf')`. -/
def travelTimeFrom (g : RoadGraph) (source : Option Nat) (target : Nat) :
    WithTop Nat :=
  match source with
  | some s => calculate_shortest_travel_time g s target
  | none => ⊤

end RoadNetworkManager

/-- One row of the cost matrix: a taxi's dict `{order_id: cost, ...}` in
insertion order. -/
abbrev CostRow := List (Nat × WithTop Nat)

/-- The cost matrix `{taxi_id: {order_id: cost, ...}, ...}` in insertion
order. -/
abbrev CostMatrix := List (Nat × CostRow)

/-- Row of a cost matrix for a taxi id (dict lookup). -/
def cmRow (cm : CostMatrix) (taxi_id : Nat) : Option CostRow :=
  (cm.find? (fun p => p.1 = taxi_id)).map Prod.snd

/-- Cost stored in a row for an order id (dict lookup). -/
def rowFind (row : CostRow) (order_id : Nat) : Option (WithTop Nat) :=
  (row.find? (fun p => p.1 = order_id)).map Prod.snd

/-- Entry of a cost matrix for a (taxi, order) pair. -/
def cmEntry (cm : CostMatrix) (taxi_id order_id : Nat) : Option (WithTop Nat) :=
  (cmRow cm taxi_id).bind (fun row => rowFind row order_id)

/-- The cost-matrix construction of `TrafficSimulator._match_and_assign_orders`:
for every idle taxi, a row holding — for every waiting order, with no
omission — the shortest travel time from the taxi's position to the order's
pickup node. -/
def build_cost_matrix (g : RoadGraph) (idle_taxis : List TaxiEntity)
    (waiting_orders : List OrderEntity) : CostMatrix :=
  idle_taxis.map (fun v =>
    (v.taxi_id, waiting_orders.map (fun o =>
      (o.order_id, RoadNetworkManager.travelTimeFrom g v.position_node o.pickup_node))))

/-- Python's `str.lower()` on the ASCII strategy names: lower-case every
character. -/
def pyLower (s : String) : String := ⟨s.data.map Char.toLower⟩

namespace TaxiMatchingStrategy

/-- The `MAX_TRAVEL_TIME = 300` constant of `_nearest_taxi_matching`. -/
def MAX_TRAVEL_TIME : WithTop Nat := (300 : Nat)

/-- `list(cost_matrix.keys())`. -/
def taxiIds (cm : CostMatrix) : List Nat := cm.map Prod.fst

/-- `list(cost_matrix[taxi_ids[0]].keys())` (empty when the matrix is). -/
def orderIds (cm : CostMatrix) : List Nat :=
  match cm with
  | [] => []
  | r :: _ => r.2.map Prod.fst

/-- Inner loop of `_random_matching`: the first order id that is not yet
assigned and has an entry in the taxi's row. -/
def findOrderFor (cm : CostMatrix) (taxi_id : Nat) (assignedOrders : List Nat) :
    List Nat → Option Nat
  | [] => none
  | oid :: rest =>
    if oid ∈ assignedOrders then findOrderFor cm taxi_id assignedOrders rest
    else
      match cmEntry cm taxi_id oid with
      | some _ => some oid
      | none => findOrderFor cm taxi_id assignedOrders rest

/-- Accumulator of the matching loops:
`(assigned_taxis, assigned_orders, matches)`. -/
abbrev MatchAcc := List Nat × List Nat × List (Nat × Nat)

/-- Body of the taxi loop of `_random_matching`. -/
def randomStep (cm : CostMatrix) (op : List Nat) (acc : MatchAcc) (tid : Nat) :
    MatchAcc :=
  if tid ∈ acc.1 then acc
  else
    match findOrderFor cm tid acc.2.1 op with
    | some oid => (tid :: acc.1, oid :: acc.2.1, acc.2.2 ++ [(tid, oid)])
    | none => acc

/-- `_random_matching(cost_matrix)` after the two `random.shuffle` calls:
`tp` is the shuffled taxi-id list and `op` the shuffled order-id list (the
shuffles are modelled as permutation parameters; every run of the Python
function equals this function at some pair of permutations).  Each taxi takes
the first still-unassigned order present in its row — the stored cost is never
inspected. -/
def random_matching (cm : CostMatrix) (tp op : List Nat) : List (Nat × Nat) :=
  if cm = [] then []
  else if op = [] then []
  else (tp.foldl (randomStep cm op) ([], [], [])).2.2

/-- Body of the taxi loop of `_nearest_taxi_matching`: the accumulator is
`(best_taxi, min_cost)`; a taxi replaces it when it is unassigned, has an
entry for the order, and that cost is both `≤ MAX_TRAVEL_TIME` and strictly
below the minimum so far. -/
def bestStep (assignedTaxis : List Nat) (oid : Nat)
    (acc : Option Nat × WithTop Nat) (entry : Nat × CostRow) :
    Option Nat × WithTop Nat :=
  if entry.1 ∈ assignedTaxis then acc
  else
    match rowFind entry.2 oid with
    | none => acc
    | some cost =>
      if cost ≤ MAX_TRAVEL_TIME ∧ cost < acc.2 then (some entry.1, cost)
      else acc

/-- Inner loop of `_nearest_taxi_matching`, starting from
`(None, float('inf'))`. -/
def findBestTaxi (cm : CostMatrix) (assignedTaxis : List Nat) (oid : Nat) :
    Option Nat × WithTop Nat :=
  cm.foldl (bestStep assignedTaxis oid) (none, ⊤)

/-- Body of the order loop of `_nearest_taxi_matching`.  Note the
`if best_taxi:` truthiness test of the source: a best taxi whose id is `0` is
treated like `None` and produces no match. -/
def nearestStep (cm : CostMatrix) (acc : MatchAcc) (oid : Nat) : MatchAcc :=
  if oid ∈ acc.2.1 then acc
  else
    match (findBestTaxi cm acc.1 oid).1 with
    | some tid =>
      if tid ≠ 0 then (tid :: acc.1, oid :: acc.2.1, acc.2.2 ++ [(tid, oid)])
      else acc
    | none => acc

/-- `_nearest_taxi_matching(cost_matrix)`. -/
def nearest_matching (cm : CostMatrix) : List (Nat × Nat) :=
  match cm with
  | [] => []
  | first :: _ =>
    if first.2 = [] then []
    else ((first.2.map Prod.fst).foldl (nearestStep cm) ([], [], [])).2.2

/-- `_batch_matching(cost_matrix)`: the source prints a warning and delegates
to `_nearest_taxi_matching`. -/
def batch_matching (cm : CostMatrix) : List (Nat × Nat) :=
  nearest_matching cm

/-- The strategy keys accepted by `TaxiMatchingStrategy.__init__`. -/
def strategyKeys : List String := ["random", "nearest", "batch"]

/-- State built by `TaxiMatchingStrategy.__init__`: the lower-cased name,
falling back to `"random"` for unknown names. -/
structure State where
  strategy_name : String
deriving DecidableEq, Repr

/-- `TaxiMatchingStrategy.__init__(strategy_name)`. -/
def init (strategy_name : String) : State :=
  let n := pyLower strategy_name
  { strategy_name := if strategyKeys.contains n then n else "random" }

end TaxiMatchingStrategy

namespace TaxiRepositionStrategy

/-- The strategy keys accepted by `TaxiRepositionStrategy.__init__`. -/
def strategyKeys : List String := ["random", "llm", "cluster", "demand", "balanced"]

/-- State built by `TaxiRepositionStrategy.__init__`: `max_travel_time = 60`
and the lower-cased name, falling back to `"random"` for unknown names. -/
structure State where
  max_travel_time : Nat
  strategy_name : String
deriving DecidableEq, Repr

/-- `TaxiRepositionStrategy.__init__(strategy_name)`. -/
def init (strategy_name : String) : State :=
  let n := pyLower strategy_name
  { max_travel_time := 60
    strategy_name := if strategyKeys.contains n then n else "random" }

end TaxiRepositionStrategy

/-- The two strategy objects a `TrafficSimulator` owns. -/
structure SimulatorStrategies where
  matching : TaxiMatchingStrategy.State
  repositioning : TaxiRepositionStrategy.State
deriving DecidableEq, Repr

/-- The strategy construction performed by `TrafficSimulator.__init__`: the
matching strategy is built from the `order_match_strategy` argument, but the
repositioning strategy is built from the literal `"random"` — the
`taxi_reposition_strategy` argument is never read (Simulator.py line 27). -/
def simulator_init_strategies (order_match_strategy taxi_reposition_strategy : String) :
    SimulatorStrategies :=
  { matching := TaxiMatchingStrategy.init order_match_strategy
    repositioning := TaxiRepositionStrategy.init "random" }

namespace TaxiMatchingStrategy

/-- Specification-side helper (from the amended C4 wording): the qualifying
vehicles for an order — not yet assigned, an entry present in their row, and
its cost within `MAX_TRAVEL_TIME` — listed in matrix key order with their
costs. -/
def qualifyingTaxis (cm : CostMatrix) (assignedTaxis : List Nat) (oid : Nat) :
    List (Nat × WithTop Nat) :=
  cm.filterMap (fun e =>
    if e.1 ∈ assignedTaxis then none
    else
      match rowFind e.2 oid with
      | none => none
      | some c => if c ≤ MAX_TRAVEL_TIME then some (e.1, c) else none)

/-- Specification-side helper: the minimum cost in a candidate list. -/
def minCost (l : List (Nat × WithTop Nat)) : WithTop Nat :=
  l.foldr (fun p m => min p.2 m) ⊤

/-- Specification-side helper: the earliest candidate attaining the minimum
cost. -/
def firstMinTaxi (l : List (Nat × WithTop Nat)) : Option Nat :=
  (l.find? (fun p => p.2 = minCost l)).map Prod.fst

/-- One step of the claim-side nearest strategy. -/
def claimStep (cm : CostMatrix) (acc : MatchAcc) (oid : Nat) : MatchAcc :=
  if oid ∈ acc.2.1 then acc
  else
    match firstMinTaxi (qualifyingTaxis cm acc.1 oid) with
    | some tid =>
      if tid ≠ 0 then (tid :: acc.1, oid :: acc.2.1, acc.2.2 ++ [(tid, oid)])
      else acc
    | none => acc

/-- The nearest strategy written from the amended C4 wording: each order of
the first row, in key order, goes to the minimum-cost qualifying vehicle
(earliest in key order on ties) — except that a selected vehicle with id `0`
produces no match and no fallback. -/
def nearest_matching_claim (cm : CostMatrix) : List (Nat × Nat) :=
  match cm with
  | [] => []
  | first :: _ =>
    if first.2 = [] then []
    else ((first.2.map Prod.fst).foldl (claimStep cm) ([], [], [])).2.2

end TaxiMatchingStrategy

/-! ### Concrete instances used by witnesses and counterexamples -/

/-- A concrete freshly loaded order, used as witness input. -/
def sampleOrder : OrderEntity :=
  { order_id := 1001, pickup_node := 0, dropoff_node := 6, request_time := 0 }

/-- A concrete idle taxi at node 0. -/
def sampleIdleTaxi : TaxiEntity := { taxi_id := 1, position_node := some 0 }

/-- A concrete two-leg route. -/
def sampleRoute : List (Nat × Int) := [(0, 0), (5, 3)]

/-- A two-node road graph with no edges: node 1 is unreachable from node 0. -/
def discGraph : RoadGraph := { nodes := [0, 1], edges := [] }

/-- An order whose pickup node is the unreachable node of `discGraph`. -/
def discOrder : OrderEntity :=
  { order_id := 10, pickup_node := 1, dropoff_node := 0, request_time := 0 }

/-- The cost matrix the simulator builds for `sampleIdleTaxi` and `discOrder`
over `discGraph`: a fully disconnected vehicle/order pair. -/
def discMatrix : CostMatrix := build_cost_matrix discGraph [sampleIdleTaxi] [discOrder]

/-! ### The simulator tick loop (Simulator.py `step`) as a transition system -/

/-- The mutable state of `TrafficSimulator` that `step` reads and writes: the
fleet, the order manager and the clock. -/
structure SimState where
  fleet : FleetManager
  order_manager : OrderManager
  current_time : Int
  time_window : Int

/-- The behaviour of the configured `TaxiMatchingStrategy.match` call in one
tick.  For the `random` strategy the two `random.shuffle` results are carried
as explicit lists (every run of the Python function is this function at some
pair of permutations of the key lists, see `MatchChoice.valid`). -/
inductive MatchChoice where
  | nearestPick
  | batchPick
  | randomPick (tp op : List Nat)

/-- `TaxiMatchingStrategy.match(cost_matrix)` under a given choice. -/
def MatchChoice.matches (c : MatchChoice) (cm : CostMatrix) : List (Nat × Nat) :=
  match c with
  | .nearestPick => TaxiMatchingStrategy.nearest_matching cm
  | .batchPick => TaxiMatchingStrategy.batch_matching cm
  | .randomPick tp op => TaxiMatchingStrategy.random_matching cm tp op

/-- Validity of a matching choice for the matrix it is run on: the modelled
`random.shuffle` results must be permutations of the key lists they shuffle. -/
def MatchChoice.valid (c : MatchChoice) (cm : CostMatrix) : Prop :=
  match c with
  | .randomPick tp op =>
      tp.Perm (TaxiMatchingStrategy.taxiIds cm) ∧
      op.Perm (TaxiMatchingStrategy.orderIds cm)
  | _ => True

/-- The per-tick environment of `TrafficSimulator.step`: the matching
strategy's behaviour, the two `calculate_shortest_path` results used when a
match is assigned (taxi position → pickup node, then pickup → dropoff node),
and the repositioning plan returned by `TaxiRepositionStrategy.reposition`.
The routes and the plan are universally quantified oracles: the order-status
development below holds for every value, in particular for the ones the road
network and the random repositioning strategy actually produce. -/
structure TickOracle where
  mc : MatchChoice
  leg1 : Option Nat → Nat → Int → List (Nat × Int)
  leg2 : Nat → Nat → Int → List (Nat × Int)
  plan : List FleetManager.PlanEntry

/-- Steps 1–2 of `TrafficSimulator.step`: advance the clock by one window,
update every taxi's position and apply the returned lifecycle events to the
order manager. -/
def simUpdatePhase (s : SimState) : SimState :=
  let t := s.current_time + s.time_window
  let fe := s.fleet.update_taxis_position t
  { s with
    fleet := fe.1
    order_manager := s.order_manager.change_orders_status fe.2
    current_time := t }

/-- One iteration of the assignment loop of `_match_and_assign_orders` on a
match `(taxi_id, order_id)`: `assign_order` on the order manager first, then —
when both the order and the taxi exist — the two route legs are computed and
the taxi receives the order.  (`route_1[-1][1]` is modelled by `getLast?` with
a default, covering the source's crash on an empty first leg by a value.) -/
def simAssignOne (leg1 : Option Nat → Nat → Int → List (Nat × Int))
    (leg2 : Nat → Nat → Int → List (Nat × Int)) (s : SimState) (m : Nat × Nat) :
    SimState :=
  let om1 := s.order_manager.assign_order m.2 m.1 s.current_time
  match om1.get_order m.2, s.fleet.get_taxi m.1 with
  | some o, some taxi =>
    let r1 := leg1 taxi.position_node o.pickup_node s.current_time
    let r2 := leg2 o.pickup_node o.dropoff_node ((r1.getLast?.getD (0 : Nat × Int)).2)
    { s with
      order_manager := om1
      fleet := s.fleet.assign_order_to_taxi m.1 o.order_id o.pickup_node (r1 ++ r2) }
  | _, _ => { s with order_manager := om1 }

/-- Step 3 of `TrafficSimulator.step` (`_match_and_assign_orders`): collect the
idle taxis and the still-waiting orders (cancelling the timed-out ones as a
side effect), and when both lists are non-empty build the cost matrix, run the
matching strategy and assign every produced match. -/
def simMatchPhase (g : RoadGraph) (mc : MatchChoice)
    (leg1 : Option Nat → Nat → Int → List (Nat × Int))
    (leg2 : Nat → Nat → Int → List (Nat × Int)) (s : SimState) : SimState :=
  let idle := s.fleet.get_idle_taxis
  let wo := s.order_manager.get_waiting_orders s.current_time
  let s1 : SimState := { s with order_manager := wo.2 }
  if idle = [] ∨ wo.1 = [] then s1
  else (MatchChoice.matches mc (build_cost_matrix g idle wo.1)).foldl
    (simAssignOne leg1 leg2) s1

/-- The cost matrix one tick builds (its value is irrelevant when the early
return of `_match_and_assign_orders` fires). -/
def simTickMatrix (g : RoadGraph) (s : SimState) : CostMatrix :=
  let s1 := simUpdatePhase s
  build_cost_matrix g s1.fleet.get_idle_taxis
    (s1.order_manager.get_waiting_orders s1.current_time).1

/-- Step 4 of `TrafficSimulator.step` (`_reposition_idle_taxis`): when idle
taxis remain, apply the repositioning plan to the fleet. -/
def simRepositionPhase (plan : List FleetManager.PlanEntry) (s : SimState) :
    SimState :=
  if s.fleet.get_idle_taxis = [] then s
  else { s with fleet := s.fleet.reposition_idle_taxis plan }

/-- `TrafficSimulator.step()` under a tick environment. -/
def simStep (g : RoadGraph) (ora : TickOracle) (s : SimState) : SimState :=
  simRepositionPhase ora.plan
    (simMatchPhase g ora.mc ora.leg1 ora.leg2 (simUpdatePhase s))

/-- The tick transition relation on the road network `g`: one `step()` call
under some environment whose matching choice is valid for the cost matrix that
tick builds. -/
def SimStepRel (g : RoadGraph) (s s' : SimState) : Prop :=
  ∃ ora : TickOracle, MatchChoice.valid ora.mc (simTickMatrix g s) ∧
    s' = simStep g ora s

/-- Reachability by the tick loop. -/
def SimReach (g : RoadGraph) : SimState → SimState → Prop :=
  Relation.ReflTransGen (SimStepRel g)

/-- One row of `orders_df`: `(id, pickup_node, dropoff_node, ot)`. -/
abbrev OrderRow := Nat × Nat × Nat × Int

/-- Insertion into the `self.orders` dict keyed by `order_id`: overwriting an
existing key keeps its position, a fresh key is appended. -/
def ordersInsert (l : List OrderEntity) (o : OrderEntity) : List OrderEntity :=
  if l.any (fun x => x.order_id = o.order_id) then
    l.map (fun x => if x.order_id = o.order_id then o else x)
  else l ++ [o]

/-- `OrderManager.__init__` / `_init_from_dataframe`: rows whose `ot` is before
`start_time` are skipped; every other row becomes a fresh `waiting` order
keyed by its id. -/
def OrderManager.init (rows : List OrderRow) (start_time : Int) : OrderManager :=
  { orders := rows.foldl (fun acc r =>
      if r.2.2.2 < start_time then acc
      else ordersInsert acc
        { order_id := r.1
          pickup_node := r.2.1
          dropoff_node := r.2.2.1
          request_time := r.2.2.2 }) []
    waiting_threshold := 300 }

/-- The simulator state right after `TrafficSimulator.__init__`: the fleet from
the generated initial positions, the orders loaded from the dataframe, and the
clock at `start_time`. -/
def simInit (rows : List OrderRow) (start_time time_window : Int)
    (taxi_init_positions : List Nat) : SimState :=
  { fleet := FleetManager.init taxi_init_positions
    order_manager := OrderManager.init rows start_time
    current_time := start_time
    time_window := time_window }

/-- The forward order on order statuses described by the spec: stay put, leave
`waiting` for anywhere, `assigned → picked_up → completed` along the service
chain.  `completed` and `cancelled` are maximal, hence terminal. -/
def statusLe (a b : OrderStatus) : Bool :=
  a = b || a = OrderStatus.waiting ||
    (a = OrderStatus.assigned &&
      (b = OrderStatus.picked_up || b = OrderStatus.completed)) ||
    (a = OrderStatus.picked_up && b = OrderStatus.completed)

/-- Pointwise forward motion of the order list (the managers hold the same
orders, in the same dict order, with statuses only moving forward). -/
def ordersLe (m m' : OrderManager) : Prop :=
  List.Forall₂ (fun o o' => statusLe o.status o'.status = true) m.orders m'.orders

/-- The order ids currently held by the fleet's taxis, in fleet order. -/
def heldOrders (fm : FleetManager) : List Nat :=
  fm.taxis.filterMap (fun v => v.current_order)

/-- The inductive invariant of the tick loop that makes the unconditional
status writes of `change_orders_status` safe: order and taxi ids are unique,
idle or repositioning taxis hold no order, a taxi heading to a pickup holds an
`assigned` order, an occupied taxi holds a `picked_up` order, and no two taxis
hold the same order. -/
structure SimInv (s : SimState) : Prop where
  order_ids_nodup : (s.order_manager.orders.map (fun o => o.order_id)).Nodup
  taxi_ids_nodup : (s.fleet.taxis.map (fun v => v.taxi_id)).Nodup
  idle_free : ∀ v ∈ s.fleet.taxis,
    v.status = TaxiStatus.idle ∨ v.status = TaxiStatus.repositioning →
    v.current_order = none
  enroute_assigned : ∀ v ∈ s.fleet.taxis,
    v.status = TaxiStatus.enroute_pickup →
    ∃ oid, v.current_order = some oid ∧
      ∀ o ∈ s.order_manager.orders, o.order_id = oid →
        o.status = OrderStatus.assigned
  occupied_picked : ∀ v ∈ s.fleet.taxis,
    v.status = TaxiStatus.occupied →
    ∃ oid, v.current_order = some oid ∧
      ∀ o ∈ s.order_manager.orders, o.order_id = oid →
        o.status = OrderStatus.picked_up
  held_nodup : (heldOrders s.fleet).Nodup

/-- The per-order effect of `OrderManager.change_orders_status`: the event
list folded over a single stored order (the batch is a fold of maps, hence a
map of per-order folds). -/
def OrderManager.applyEventsTo (o : OrderEntity) (events : List OrderEvent) :
    OrderEntity :=
  events.foldl (fun acc e => OrderManager.applyEvent e acc) o

/-- The event one taxi's `update_position` call contributes to the batch
(`if change_order: order_list.append(change_order)`). -/
def TaxiEntity.eventOf (v : TaxiEntity) (t : Int) : Option OrderEvent :=
  match (v.update_position t).2 with
  | TaxiEntity.UpdateResult.changed e => some e
  | _ => none

/-! ## Theorems -/

/-- C1: the repositioning strategy selected at construction.  The claim states
that `TrafficSimulator.__init__` called with `taxi_reposition_strategy = s`
yields a simulator whose repositioning strategy is the one keyed by `s`; in
fact the constructor passes the literal `"random"` and ignores the argument,
so for `s = "cluster"` (likewise `"demand"`, `"balanced"`) the installed
strategy is `"random"`, not the strategy keyed by `s`. -/
theorem C1_reposition_strategy_argument_ignored :
    (∀ m s : String,
      (simulator_init_strategies m s).repositioning.strategy_name = "random") ∧
    (simulator_init_strategies "nearest" "cluster").repositioning.strategy_name
      ≠ "cluster" := by
  refine ⟨fun m s => rfl, ?_⟩
  decide

/-- C9: `assign_taxi`, `pickup_passenger` and `complete_order` succeed exactly
from their required source status (`waiting`, `assigned`, `picked_up`), set the
corresponding fields, and on a failed precondition return `false` leaving the
order unchanged. -/
theorem C9_order_transition_guards (o : OrderEntity) (tid : Nat) (t : Int) :
    ((o.assign_taxi tid t).1 = true ↔ o.status = OrderStatus.waiting) ∧
    (o.status = OrderStatus.waiting →
      (o.assign_taxi tid t).2 = { o with
        status := OrderStatus.assigned
        assigned_taxi := some tid
        assigned_time := some t }) ∧
    (o.status ≠ OrderStatus.waiting → o.assign_taxi tid t = (false, o)) ∧
    ((o.pickup_passenger t).1 = true ↔ o.status = OrderStatus.assigned) ∧
    (o.status = OrderStatus.assigned →
      (o.pickup_passenger t).2 = { o with
        status := OrderStatus.picked_up
        pickup_time := some t }) ∧
    (o.status ≠ OrderStatus.assigned → o.pickup_passenger t = (false, o)) ∧
    ((o.complete_order t).1 = true ↔ o.status = OrderStatus.picked_up) ∧
    (o.status = OrderStatus.picked_up →
      (o.complete_order t).2 = { o with
        status := OrderStatus.completed
        dropoff_time := some t }) ∧
    (o.status ≠ OrderStatus.picked_up → o.complete_order t = (false, o)) := by
  simp only [OrderEntity.assign_taxi, OrderEntity.pickup_passenger,
    OrderEntity.complete_order]
  by_cases h1 : o.status = OrderStatus.waiting <;>
    by_cases h2 : o.status = OrderStatus.assigned <;>
      by_cases h3 : o.status = OrderStatus.picked_up <;>
        simp_all

/-- Witness for C9: on a concrete `waiting` order, `assign_taxi` succeeds and
fills the assignment fields. -/
theorem C9_order_transition_guards_witness :
    (sampleOrder.assign_taxi 5 7).2 = { sampleOrder with
      status := OrderStatus.assigned
      assigned_taxi := some 5
      assigned_time := some 7 } :=
  (C9_order_transition_guards sampleOrder 5 7).2.1 rfl

/-- Pointwise form of the C6 filter condition: an order survives the
collection-and-cancellation pass exactly when it is waiting, already requested,
and within the threshold. -/
theorem OrderManager.keepEq (thr t : Int) (o : OrderEntity) :
    (((fun x => decide (x.status = OrderStatus.waiting)) ∘
        OrderManager.cancelIfTimedOut thr t) o && OrderManager.isWaitingAt t o)
      = decide (o.status = OrderStatus.waiting ∧ o.request_time ≤ t ∧
          t - o.request_time ≤ thr) := by
  simp only [Function.comp]
  unfold OrderManager.cancelIfTimedOut OrderManager.isWaitingAt
  by_cases h1 : o.status = OrderStatus.waiting <;>
    by_cases h2 : o.request_time ≤ t <;>
      by_cases h3 : t - o.request_time > thr <;>
        simp [h1, h2, h3] <;> omega

/-- C6: `get_waiting_orders(t)` returns exactly the orders that are `waiting`,
already requested (`request_time ≤ t`) and not yet past the threshold
(`t − request_time ≤ waiting_threshold`); its side effect cancels (recording
`cancel_time = t`) exactly the previously waiting, already requested orders
strictly past the threshold; and no cancelled order is returned. -/
theorem C6_get_waiting_orders_spec (m : OrderManager) (t : Int) :
    (m.get_waiting_orders t).1 =
      m.orders.filter (fun o => decide (o.status = OrderStatus.waiting ∧
        o.request_time ≤ t ∧ t - o.request_time ≤ m.waiting_threshold)) ∧
    (m.get_waiting_orders t).2.orders =
      m.orders.map (fun o =>
        if o.status = OrderStatus.waiting ∧ o.request_time ≤ t ∧
            t - o.request_time > m.waiting_threshold then
          { o with status := OrderStatus.cancelled, cancel_time := some t }
        else o) ∧
    (∀ o ∈ (m.get_waiting_orders t).1, o.status ≠ OrderStatus.cancelled) := by
  have hret : (m.get_waiting_orders t).1 =
      m.orders.filter (fun o => decide (o.status = OrderStatus.waiting ∧
        o.request_time ≤ t ∧ t - o.request_time ≤ m.waiting_threshold)) := by
    show ((m.orders.filter (OrderManager.isWaitingAt t)).map
        (OrderManager.cancelIfTimedOut m.waiting_threshold t)).filter
        (fun o => decide (o.status = OrderStatus.waiting)) = _
    rw [List.filter_map (OrderManager.cancelIfTimedOut m.waiting_threshold t)
      (m.orders.filter (OrderManager.isWaitingAt t))]
    rw [List.filter_filter]
    rw [List.filter_congr (fun o _ => OrderManager.keepEq m.waiting_threshold t o)]
    have hmap : ∀ o ∈ m.orders.filter (fun o => decide (o.status = OrderStatus.waiting ∧
        o.request_time ≤ t ∧ t - o.request_time ≤ m.waiting_threshold)),
        OrderManager.cancelIfTimedOut m.waiting_threshold t o = o := by
      intro o ho
      have h := List.of_mem_filter ho
      simp only [decide_eq_true_eq] at h
      unfold OrderManager.cancelIfTimedOut
      rw [if_neg (by omega)]
    rw [List.map_congr_left hmap]
    simp
  refine ⟨hret, ?_, ?_⟩
  · show m.orders.map _ = _
    apply List.map_congr_left
    intro o _
    by_cases hp : OrderManager.isWaitingAt t o
    · have hw : o.status = OrderStatus.waiting ∧ o.request_time ≤ t := by
        simpa [OrderManager.isWaitingAt] using hp
      by_cases hto : t - o.request_time > m.waiting_threshold
      · simp only [hp, if_true, OrderManager.cancelIfTimedOut, if_pos hto]
        rw [if_pos ⟨hw.1, hw.2, hto⟩]
      · simp only [hp, if_true, OrderManager.cancelIfTimedOut, if_neg hto]
        rw [if_neg (fun h => hto h.2.2)]
    · have hw : ¬ (o.status = OrderStatus.waiting ∧ o.request_time ≤ t) := by
        simpa [OrderManager.isWaitingAt] using hp
      simp only [hp, if_false, Bool.false_eq_true]
      rw [if_neg (fun h => hw ⟨h.1, h.2.1⟩)]
  · intro o ho
    rw [hret] at ho
    have := List.of_mem_filter ho
    have hw : o.status = OrderStatus.waiting := by
      simp only [decide_eq_true_eq] at this
      exact this.1
    simp [hw]

namespace TaxiMatchingStrategy

theorem qualifying_cons (cm : List (Nat × CostRow)) (e : Nat × CostRow)
    (assigned : List Nat) (oid : Nat) :
    qualifyingTaxis (e :: cm) assigned oid =
      (if e.1 ∈ assigned then []
       else match rowFind e.2 oid with
         | none => []
         | some c => if c ≤ MAX_TRAVEL_TIME then [(e.1, c)] else [])
      ++ qualifyingTaxis cm assigned oid := by
  unfold qualifyingTaxis
  rw [List.filterMap_cons]
  by_cases h1 : e.1 ∈ assigned
  · simp [h1]
  · cases h2 : rowFind e.2 oid with
    | none => simp [h1, h2]
    | some c =>
      by_cases h3 : c ≤ MAX_TRAVEL_TIME
      · simp [h1, h2, h3]
      · simp [h1, h2, h3]

theorem minCost_le_max (l : List (Nat × WithTop Nat))
    (h : ∀ p ∈ l, p.2 ≤ MAX_TRAVEL_TIME) (hne : l ≠ []) :
    minCost l ≤ MAX_TRAVEL_TIME := by
  induction l with
  | nil => simp at hne
  | cons p l ih =>
    unfold minCost
    simp only [List.foldr_cons]
    rcases eq_or_ne l [] with rfl | hl
    · simpa using h p (by simp)
    · have := ih (fun q hq => h q (by simp [hq])) hl
      unfold minCost at this
      exact le_trans (min_le_right _ _) this

theorem bestFold (assigned : List Nat) (oid : Nat) (cm : List (Nat × CostRow))
    (b0 : Option Nat) (m0 : WithTop Nat) :
    cm.foldl (bestStep assigned oid) (b0, m0) =
      if minCost (qualifyingTaxis cm assigned oid) < m0
      then (((qualifyingTaxis cm assigned oid).find?
              (fun p => p.2 = minCost (qualifyingTaxis cm assigned oid))).map Prod.fst,
            minCost (qualifyingTaxis cm assigned oid))
      else (b0, m0) := by
  induction cm generalizing b0 m0 with
  | nil =>
    simp [qualifyingTaxis, minCost]
  | cons e cm ih =>
    rw [List.foldl_cons, qualifying_cons]
    by_cases h1 : e.1 ∈ assigned
    · have hstep : bestStep assigned oid (b0, m0) e = (b0, m0) := by
        unfold bestStep; simp [h1]
      simp only [h1, if_true, List.nil_append]
      rw [hstep, ih]
    · cases h2 : rowFind e.2 oid with
      | none =>
        have hstep : bestStep assigned oid (b0, m0) e = (b0, m0) := by
          unfold bestStep; simp [h1, h2]
        simp only [h1, if_false, h2, List.nil_append]
        rw [hstep, ih]
      | some c =>
        by_cases h3 : c ≤ MAX_TRAVEL_TIME
        · have hstep : bestStep assigned oid (b0, m0) e =
              if c < m0 then (some e.1, c) else (b0, m0) := by
            unfold bestStep
            by_cases h4 : c < m0 <;> simp [h1, h2, h3, h4]
          simp only [h1, if_false, h2, h3, if_true, List.singleton_append]
          rw [hstep]
          have hmc : minCost ((e.1, c) :: qualifyingTaxis cm assigned oid) =
              min c (minCost (qualifyingTaxis cm assigned oid)) := by
            unfold minCost; simp
          rw [hmc]
          by_cases h4 : c < m0
          · rw [if_pos h4, ih]
            by_cases h5 : minCost (qualifyingTaxis cm assigned oid) < c
            · rw [if_pos h5]
              have hM : min c (minCost (qualifyingTaxis cm assigned oid)) =
                  minCost (qualifyingTaxis cm assigned oid) := min_eq_right (le_of_lt h5)
              rw [hM, if_pos (lt_trans h5 h4)]
              have hne : ¬ (c = minCost (qualifyingTaxis cm assigned oid)) :=
                ne_of_gt h5
              simp only [List.find?]
              simp [hne]
            · rw [if_neg h5]
              have hM : min c (minCost (qualifyingTaxis cm assigned oid)) = c :=
                min_eq_left (not_lt.mp h5)
              rw [hM, if_pos h4]
              simp only [List.find?]
              simp
          · rw [if_neg h4, ih]
            have hm0c : m0 ≤ c := not_lt.mp h4
            by_cases h5 : minCost (qualifyingTaxis cm assigned oid) < m0
            · rw [if_pos h5]
              have h5c : minCost (qualifyingTaxis cm assigned oid) < c :=
                lt_of_lt_of_le h5 hm0c
              have hM : min c (minCost (qualifyingTaxis cm assigned oid)) =
                  minCost (qualifyingTaxis cm assigned oid) := min_eq_right (le_of_lt h5c)
              rw [hM, if_pos h5]
              have hne : ¬ (c = minCost (qualifyingTaxis cm assigned oid)) :=
                ne_of_gt h5c
              simp only [List.find?]
              simp [hne]
            · rw [if_neg h5]
              rw [if_neg (by
                intro hcon
                rcases min_lt_iff.mp hcon with hx | hx
                · exact h4 hx
                · exact h5 hx)]
        · have hstep : bestStep assigned oid (b0, m0) e = (b0, m0) := by
            unfold bestStep; simp [h1, h2, h3]
          simp only [h1, if_false, h2, h3, List.nil_append]
          rw [hstep, ih]

theorem qualifying_cost_le (cm : CostMatrix) (assigned : List Nat) (oid : Nat) :
    ∀ p ∈ qualifyingTaxis cm assigned oid, p.2 ≤ MAX_TRAVEL_TIME := by
  intro p hp
  rcases List.mem_filterMap.mp hp with ⟨e, _, hfe⟩
  by_cases h1 : e.1 ∈ assigned
  · simp [h1] at hfe
  · cases h2 : rowFind e.2 oid with
    | none => simp [h1, h2] at hfe
    | some c =>
      by_cases h3 : c ≤ MAX_TRAVEL_TIME
      · simp only [h1, if_false, h2, h3, if_true, Option.some_inj] at hfe
        rw [← hfe]
        exact h3
      · simp [h1, h2, h3] at hfe

theorem findBestTaxi_eq_firstMin (cm : CostMatrix) (assigned : List Nat) (oid : Nat) :
    (findBestTaxi cm assigned oid).1 = firstMinTaxi (qualifyingTaxis cm assigned oid) := by
  unfold findBestTaxi firstMinTaxi
  rw [bestFold]
  by_cases h : minCost (qualifyingTaxis cm assigned oid) < ⊤
  · simp [h]
  · have hq : qualifyingTaxis cm assigned oid = [] := by
      by_contra hne
      have hle := minCost_le_max _ (qualifying_cost_le cm assigned oid) hne
      exact h (lt_of_le_of_lt hle (WithTop.coe_lt_top 300))
    rw [hq]
    rw [if_neg (by simp [minCost])]
    rfl

theorem nearestStep_eq_claimStep (cm : CostMatrix) (acc : MatchAcc) (oid : Nat) :
    nearestStep cm acc oid = claimStep cm acc oid := by
  unfold nearestStep claimStep
  rw [findBestTaxi_eq_firstMin]

theorem nearest_eq_claim (cm : CostMatrix) :
    nearest_matching cm = nearest_matching_claim cm := by
  unfold nearest_matching nearest_matching_claim
  cases cm with
  | nil => rfl
  | cons first rest =>
    by_cases h : first.2 = []
    · simp [h]
    · simp only [h, if_false]
      have hs : nearestStep (first :: rest) = claimStep (first :: rest) := by
        funext acc oid
        exact nearestStep_eq_claimStep _ _ _
      rw [hs]

theorem qualifying_mem_spec (cm : CostMatrix) (assigned : List Nat) (oid : Nat)
    (p : Nat × WithTop Nat) (hp : p ∈ qualifyingTaxis cm assigned oid) :
    ∃ row, (p.1, row) ∈ cm ∧ rowFind row oid = some p.2 ∧
      p.2 ≤ MAX_TRAVEL_TIME := by
  rcases List.mem_filterMap.mp hp with ⟨e, he, hfe⟩
  by_cases h1 : e.1 ∈ assigned
  · simp [h1] at hfe
  · cases h2 : rowFind e.2 oid with
    | none => simp [h1, h2] at hfe
    | some c =>
      by_cases h3 : c ≤ MAX_TRAVEL_TIME
      · simp only [h1, if_false, h2, h3, if_true, Option.some_inj] at hfe
        refine ⟨e.2, ?_, ?_, ?_⟩
        · rw [← hfe]
          simpa using he
        · rw [← hfe]
          simpa using h2
        · rw [← hfe]
          exact h3
      · simp [h1, h2, h3] at hfe

theorem findBestTaxi_some (cm : CostMatrix) (assigned : List Nat) (oid tid : Nat)
    (h : (findBestTaxi cm assigned oid).1 = some tid) :
    ∃ row c, (tid, row) ∈ cm ∧ rowFind row oid = some c ∧
      c ≤ MAX_TRAVEL_TIME := by
  rw [findBestTaxi_eq_firstMin] at h
  unfold firstMinTaxi at h
  cases hf : (qualifyingTaxis cm assigned oid).find?
      (fun p => p.2 = minCost (qualifyingTaxis cm assigned oid)) with
  | none => rw [hf] at h; simp at h
  | some q =>
    rw [hf] at h
    simp only [Option.map_some', Option.some_inj] at h
    have hq : q ∈ qualifyingTaxis cm assigned oid := List.mem_of_find?_eq_some hf
    rcases qualifying_mem_spec cm assigned oid q hq with ⟨row, hrow, hfind, hle⟩
    subst h
    exact ⟨row, q.2, hrow, hfind, hle⟩

theorem nearestFold_inv (cm : CostMatrix) (orderIds : List Nat) (acc : MatchAcc)
    (h : ∀ p ∈ acc.2.2, p.1 ≠ 0 ∧ ∃ row c, (p.1, row) ∈ cm ∧
      rowFind row p.2 = some c ∧ c ≤ MAX_TRAVEL_TIME) :
    ∀ p ∈ (orderIds.foldl (nearestStep cm) acc).2.2, p.1 ≠ 0 ∧
      ∃ row c, (p.1, row) ∈ cm ∧ rowFind row p.2 = some c ∧
        c ≤ MAX_TRAVEL_TIME := by
  induction orderIds generalizing acc with
  | nil => exact h
  | cons oid rest ih =>
    rw [List.foldl_cons]
    apply ih
    intro p hp
    unfold nearestStep at hp
    split at hp
    · exact h p hp
    · split at hp
      · split at hp
        · rename_i hfb h2
          rcases List.mem_append.mp hp with h3 | h3
          · exact h p h3
          · have hps := List.mem_singleton.mp h3
            subst hps
            exact ⟨h2, findBestTaxi_some cm acc.1 oid _ hfb⟩
        · exact h p hp
      · exact h p hp

theorem nearest_matches_sound (cm : CostMatrix) :
    ∀ p ∈ nearest_matching cm, p.1 ≠ 0 ∧
      ∃ row c, (p.1, row) ∈ cm ∧ rowFind row p.2 = some c ∧
        c ≤ MAX_TRAVEL_TIME := by
  cases cm with
  | nil => intro p hp; exact absurd hp (List.not_mem_nil p)
  | cons first rest =>
    by_cases h : first.2 = []
    · have hkey : nearest_matching (first :: rest) = [] := by
        simp [nearest_matching, h]
      rw [hkey]
      intro p hp; exact absurd hp (List.not_mem_nil p)
    · have hkey : nearest_matching (first :: rest) =
          ((first.2.map Prod.fst).foldl (nearestStep (first :: rest)) ([], [], [])).2.2 := by
        simp [nearest_matching, h]
      rw [hkey]
      exact nearestFold_inv (first :: rest) (first.2.map Prod.fst) ([], [], [])
        (fun p hp => absurd hp (List.not_mem_nil p))

end TaxiMatchingStrategy

/-- C4: the claim describes nearest matching as assigning each order the
minimum-cost vehicle with cost ≤ 300, ties broken by vehicle id.  Both parts
fail on the source: a unique minimum-cost vehicle with id `0` yields no match
at all (`if best_taxi:` is falsy at 0), and a tie between vehicles keyed in
the order `[2, 1]` is won by vehicle 2 — the first key — not by the smaller
id 1. -/
theorem C4_nearest_matching_counterexample :
    (TaxiMatchingStrategy.nearest_matching [(0, [(7, (5 : WithTop Nat))])] = [] ∧
      TaxiMatchingStrategy.nearest_matching [(0, [(7, (5 : WithTop Nat))])] ≠ [(0, 7)]) ∧
    (TaxiMatchingStrategy.nearest_matching
        [(2, [(7, (4 : WithTop Nat))]), (1, [(7, 4)])] = [(2, 7)] ∧
      TaxiMatchingStrategy.nearest_matching
        [(2, [(7, (4 : WithTop Nat))]), (1, [(7, 4)])] ≠ [(1, 7)]) := by
  decide

/-- C4 (amended): for every cost matrix, nearest matching considers each order
of the first row in key order and matches it to the minimum-cost not-yet
assigned vehicle with an entry of cost ≤ 300, breaking ties by earliest
position in key order — except that a selected vehicle with id 0 leaves the
order unmatched; an order with no qualifying vehicle stays unmatched.
(`nearest_matching_claim` is that wording written out directly.) -/
theorem C4_nearest_matching_amended (cm : CostMatrix) :
    TaxiMatchingStrategy.nearest_matching cm =
      TaxiMatchingStrategy.nearest_matching_claim cm :=
  TaxiMatchingStrategy.nearest_eq_claim cm

/-- C10: nearest matching never returns a pair whose taxi id is 0; in the
concrete matrix, vehicle 0 is the unique minimum-cost vehicle (cost 5 ≤ 300)
for order 7 and vehicle 3 also qualifies (cost 10), yet no match at all is
produced — no fallback to the next-best vehicle. -/
theorem C10_nearest_never_matches_taxi_zero :
    (∀ (cm : CostMatrix) (p : Nat × Nat),
      p ∈ TaxiMatchingStrategy.nearest_matching cm → p.1 ≠ 0) ∧
    TaxiMatchingStrategy.nearest_matching
      [(0, [(7, (5 : WithTop Nat))]), (3, [(7, 10)])] = [] := by
  constructor
  · intro cm p hp
    exact (TaxiMatchingStrategy.nearest_matches_sound cm p hp).1
  · decide

/-- Witness for C10: a concrete matrix where a match is produced, whose taxi
id the theorem then shows to be nonzero. -/
theorem C10_nearest_never_matches_taxi_zero_witness :
    ((2, 7) : Nat × Nat) ∈
        TaxiMatchingStrategy.nearest_matching [(2, [(7, (5 : WithTop Nat))])] ∧
      ((2, 7) : Nat × Nat).1 ≠ 0 :=
  ⟨by decide,
    C10_nearest_never_matches_taxi_zero.1 [(2, [(7, (5 : WithTop Nat))])] (2, 7) (by decide)⟩

/-- C3: the claim says no matching strategy ever matches a pair of infinite
cost.  The simulator stores the `+∞` cost of the fully disconnected pair
(taxi 1 at node 0, order 10 with pickup at the unreachable node 1), and the
random strategy — whose only check is the presence of an entry — matches that
pair.  The two singleton id lists are the only possible shuffles. -/
theorem C3_random_matches_infinite_counterexample :
    cmEntry discMatrix 1 10 = some ⊤ ∧
    TaxiMatchingStrategy.taxiIds discMatrix = [1] ∧
    TaxiMatchingStrategy.orderIds discMatrix = [10] ∧
    TaxiMatchingStrategy.random_matching discMatrix [1] [10] = [(1, 10)] := by
  decide

/-- C3 (amended): the nearest strategy (and batch, which aliases it) never
matches a pair of infinite cost — every produced pair has a stored cost
≤ MAX_TRAVEL_TIME, hence finite; the random strategy checks only entry
presence and can match an infinite-cost pair. -/
theorem C3_matching_infinite_cost_amended :
    (∀ (cm : CostMatrix) (p : Nat × Nat),
      p ∈ TaxiMatchingStrategy.nearest_matching cm →
      ∃ row c, (p.1, row) ∈ cm ∧ rowFind row p.2 = some c ∧
        c ≤ TaxiMatchingStrategy.MAX_TRAVEL_TIME ∧ c ≠ ⊤) ∧
    TaxiMatchingStrategy.batch_matching = TaxiMatchingStrategy.nearest_matching := by
  constructor
  · intro cm p hp
    rcases (TaxiMatchingStrategy.nearest_matches_sound cm p hp).2 with ⟨row, c, hr, hf, hle⟩
    refine ⟨row, c, hr, hf, hle, ?_⟩
    intro hc
    rw [hc] at hle
    exact absurd hle (by simp [TaxiMatchingStrategy.MAX_TRAVEL_TIME])
  · rfl

/-- Witness for C3: a concrete produced match whose cost the theorem bounds. -/
theorem C3_matching_infinite_cost_amended_witness :
    ((2, 7) : Nat × Nat) ∈
        TaxiMatchingStrategy.nearest_matching [(2, [(7, (5 : WithTop Nat))])] ∧
      (∃ row c, ((2 : Nat), row) ∈ [(2, [(7, (5 : WithTop Nat))])] ∧
        rowFind row 7 = some c ∧
        c ≤ TaxiMatchingStrategy.MAX_TRAVEL_TIME ∧ c ≠ ⊤) :=
  ⟨by decide,
    C3_matching_infinite_cost_amended.1 [(2, [(7, (5 : WithTop Nat))])] (2, 7) (by decide)⟩

/-- C5: the claim says a repositioned taxi has the route appended to its
`route_history` (the effect of `start_repositioning`).  The source sets the
fields inline and never touches `route_history`: the concrete idle taxi is
repositioned (status, destination and route are set) but its `route_history`
stays empty instead of receiving `sampleRoute`. -/
theorem C5_reposition_counterexample :
    ((FleetManager.reposition_idle_taxis { taxis := [sampleIdleTaxi] }
        [(1, 5, sampleRoute)]).taxis.map (fun v => v.status)) =
      [TaxiStatus.repositioning] ∧
    ((FleetManager.reposition_idle_taxis { taxis := [sampleIdleTaxi] }
        [(1, 5, sampleRoute)]).taxis.map (fun v => v.route_history)) = [[]] ∧
    sampleIdleTaxi.route_history ++ sampleRoute ≠ [] := by
  decide

/-- C5 (amended): applying a plan is the left fold of its entries; one entry
turns each idle taxi with the matching id into `repositioning` with the given
destination and route, leaving `route_history` (and every other field)
unchanged — `start_repositioning` is not invoked, so nothing is appended to
`route_history`; entries for unknown or non-idle taxis change nothing. -/
theorem C5_reposition_amended (fm : FleetManager) (entry : FleetManager.PlanEntry)
    (rest : List FleetManager.PlanEntry) :
    fm.reposition_idle_taxis (entry :: rest) =
      (fm.reposition_idle_taxis [entry]).reposition_idle_taxis rest ∧
    List.Forall₂ (fun v v' =>
      (v.taxi_id = entry.1 ∧ v.status = TaxiStatus.idle →
        v'.status = TaxiStatus.repositioning ∧
        v'.current_destination = some entry.2.1 ∧
        v'.current_route = some entry.2.2 ∧
        v'.route_history = v.route_history ∧
        v'.taxi_id = v.taxi_id ∧
        v'.position_node = v.position_node ∧
        v'.current_order = v.current_order ∧
        v'.order_history = v.order_history ∧
        v'.driver_preference = v.driver_preference) ∧
      (¬ (v.taxi_id = entry.1 ∧ v.status = TaxiStatus.idle) → v' = v))
      fm.taxis (fm.reposition_idle_taxis [entry]).taxis := by
  constructor
  · rfl
  · show List.Forall₂ _ fm.taxis (fm.taxis.map _)
    rw [List.forall₂_map_right_iff, List.forall₂_same]
    intro v _
    constructor
    · intro h
      simp [h]
    · intro h
      simp [h]

/-- Witness for C5: the fold decomposition of the theorem at a concrete fleet
and plan. -/
theorem C5_reposition_amended_witness :
    FleetManager.reposition_idle_taxis { taxis := [sampleIdleTaxi] }
        [(1, 5, sampleRoute)] =
      (FleetManager.reposition_idle_taxis { taxis := [sampleIdleTaxi] }
        [(1, 5, sampleRoute)]).reposition_idle_taxis [] :=
  (C5_reposition_amended { taxis := [sampleIdleTaxi] } (1, 5, sampleRoute) []).1


/-- First association-list lookup lemma: looking up the key of a member of a
keyed `map` finds that member's value (keys distinct). -/
theorem assoc_map_find {α β : Type _} (key : α → Nat) (val : α → β) :
    ∀ (l : List α) (a : α), a ∈ l → (l.map key).Nodup →
    ((l.map (fun x => (key x, val x))).find? (fun p => p.1 = key a)).map Prod.snd
      = some (val a) := by
  intro l
  induction l with
  | nil => intro a ha; cases ha
  | cons u rest ih =>
    intro a ha hnd
    simp only [List.map_cons, List.find?]
    by_cases hk : key u = key a
    · rw [show (decide ((key u, val u).1 = key a)) = true by simp [hk]]
      have hau : a = u := by
        rcases List.mem_cons.mp ha with h | h
        · exact h
        · exfalso
          have hmem : key a ∈ rest.map key := List.mem_map_of_mem key h
          rw [← hk] at hmem
          exact (List.nodup_cons.mp (by simpa using hnd)).1 hmem
      subst hau
      simp
    · rw [show (decide ((key u, val u).1 = key a)) = false by simp [hk]]
      have ha2 : a ∈ rest := by
        rcases List.mem_cons.mp ha with h | h
        · exact absurd (congrArg key h.symm) hk
        · exact h
      exact ih a ha2 (List.nodup_cons.mp (by simpa using hnd)).2

/-- Second association-list lookup lemma: looking up an absent key finds
nothing. -/
theorem assoc_map_find_none {α β : Type _} (key : α → Nat) (val : α → β) :
    ∀ (l : List α) (k : Nat), k ∉ l.map key →
    (l.map (fun x => (key x, val x))).find? (fun p => p.1 = k) = none := by
  intro l
  induction l with
  | nil => intro k _; rfl
  | cons u rest ih =>
    intro k hk
    simp only [List.map_cons, List.find?]
    have hne : key u ≠ k := fun h => hk (by simp [← h])
    rw [show (decide ((key u, val u).1 = k)) = false by simp [hne]]
    exact ih k (fun h => hk (by simp [h]))

/-- C2: the claim says pairs with infinite travel time are omitted from the
cost matrix.  The source stores every cost unconditionally: for the fully
disconnected pair (taxi 1 at node 0, order 10 with pickup at the unreachable
node 1 of the edgeless graph), the shortest travel time is `⊤` and the matrix
nevertheless holds the entry `some ⊤` — the claim requires it to be absent. -/
theorem C2_cost_matrix_counterexample :
    RoadNetworkManager.travelTimeFrom discGraph sampleIdleTaxi.position_node
        discOrder.pickup_node = ⊤ ∧
    cmEntry (build_cost_matrix discGraph [sampleIdleTaxi] [discOrder]) 1 10
      = some ⊤ := by
  decide

/-- C2 (amended): the cost matrix holds an entry for every pair of an idle
taxi and a waiting order — including unreachable pairs, whose entry stores
`⊤` rather than being omitted — whose value is the shortest travel time from
the taxi position to the pickup node; and it holds nothing else. -/
theorem C2_cost_matrix_amended (g : RoadGraph) (idle : List TaxiEntity)
    (ws : List OrderEntity)
    (hT : (idle.map TaxiEntity.taxi_id).Nodup)
    (hO : (ws.map OrderEntity.order_id).Nodup) :
    (∀ v ∈ idle, ∀ o ∈ ws,
      cmEntry (build_cost_matrix g idle ws) v.taxi_id o.order_id =
        some (RoadNetworkManager.travelTimeFrom g v.position_node o.pickup_node)) ∧
    (∀ tid, tid ∉ idle.map TaxiEntity.taxi_id →
      cmRow (build_cost_matrix g idle ws) tid = none) ∧
    (∀ v ∈ idle, ∀ oid, oid ∉ ws.map OrderEntity.order_id →
      cmEntry (build_cost_matrix g idle ws) v.taxi_id oid = none) := by
  have hrow : ∀ v ∈ idle, cmRow (build_cost_matrix g idle ws) v.taxi_id =
      some (ws.map (fun o => (o.order_id,
        RoadNetworkManager.travelTimeFrom g v.position_node o.pickup_node))) := by
    intro v hv
    exact assoc_map_find (fun v : TaxiEntity => v.taxi_id) _ idle v hv hT
  refine ⟨?_, ?_, ?_⟩
  · intro v hv o ho
    unfold cmEntry
    rw [hrow v hv]
    exact assoc_map_find (fun o : OrderEntity => o.order_id) _ ws o ho hO
  · intro tid htid
    unfold cmRow build_cost_matrix
    rw [assoc_map_find_none (fun v : TaxiEntity => v.taxi_id) _ idle tid htid]
    rfl
  · intro v hv oid hoid
    unfold cmEntry
    rw [hrow v hv]
    show rowFind _ oid = none
    unfold rowFind
    rw [assoc_map_find_none (fun o : OrderEntity => o.order_id) _ ws oid hoid]
    rfl

/-- Witness for C2: the amended characterization applied to the concrete
disconnected instance. -/
theorem C2_cost_matrix_amended_witness :
    cmEntry (build_cost_matrix discGraph [sampleIdleTaxi] [discOrder])
        sampleIdleTaxi.taxi_id discOrder.order_id =
      some (RoadNetworkManager.travelTimeFrom discGraph
        sampleIdleTaxi.position_node discOrder.pickup_node) :=
  (C2_cost_matrix_amended discGraph [sampleIdleTaxi] [discOrder]
      (by decide) (by decide)).1 sampleIdleTaxi (by simp) discOrder (by simp)


namespace TaxiEntity

theorem plainLoop_some (t : Int) (route : List (Nat × Int)) (p : Nat) :
    ∃ q, plainLoop t route (some p) = some q := by
  induction route generalizing p with
  | nil => exact ⟨p, rfl⟩
  | cons e rest ih =>
    unfold plainLoop
    by_cases h : e.2 > t
    · simp only [h, if_true]
      exact ⟨p, rfl⟩
    · simp only [h, if_false]
      exact ih e.1

theorem enrouteLoop_new_position (L : Nat) (t : Int) (route : List (Nat × Int))
    (s : LoopState) :
    (enrouteLoop L t route s).new_position = plainLoop t route s.new_position := by
  induction route generalizing s with
  | nil => rfl
  | cons e rest ih =>
    unfold enrouteLoop plainLoop
    by_cases h : e.2 > t
    · simp only [h, if_true]
    · simp only [h, if_false]
      by_cases h2 : (some e.1 : Option Nat) = s.current_destination
      · by_cases h3 : s.st = TaxiStatus.enroute_pickup
        · rw [if_pos h2, if_pos (by simp [h3])]
          rw [ih]
        · rw [if_pos h2, if_neg (by simp [h3])]
          rw [ih]
      · rw [if_neg h2]
        rw [ih]

theorem enrouteLoop_occupied_sticky (L : Nat) (t : Int) (route : List (Nat × Int))
    (s : LoopState) (h : s.st = TaxiStatus.occupied) :
    (enrouteLoop L t route s).st = TaxiStatus.occupied := by
  induction route generalizing s with
  | nil => exact h
  | cons e rest ih =>
    unfold enrouteLoop
    by_cases h1 : e.2 > t
    · simp only [h1, if_true]; exact h
    · simp only [h1, if_false]
      by_cases h2 : (some e.1 : Option Nat) = s.current_destination
      · rw [if_pos h2, if_neg (by simp [h])]
        exact ih _ (by simp [h])
      · rw [if_neg h2]
        exact ih _ (by simp [h])

theorem enrouteLoop_st_cases (L : Nat) (t : Int) (route : List (Nat × Int))
    (s : LoopState) :
    (enrouteLoop L t route s).st = s.st ∨
      (enrouteLoop L t route s).st = TaxiStatus.occupied := by
  induction route generalizing s with
  | nil => exact Or.inl rfl
  | cons e rest ih =>
    unfold enrouteLoop
    by_cases h1 : e.2 > t
    · rw [if_pos h1]; exact Or.inl rfl
    · simp only [h1, if_false]
      by_cases h2 : (some e.1 : Option Nat) = s.current_destination
      · by_cases h3 : s.st = TaxiStatus.enroute_pickup
        · rw [if_pos h2, if_pos (by simp [h3])]
          exact Or.inr (enrouteLoop_occupied_sticky L t rest _ (by simp))
        · rw [if_pos h2, if_neg (by simp [h3])]
          rcases ih ({ s with
            new_position := some e.1
            order_status := some OrderStatus.picked_up
            order_time := some e.2 }) with hx | hx
          · exact Or.inl hx
          · exact Or.inr hx
      · rw [if_neg h2]
        rcases ih ({ s with new_position := some e.1 }) with hx | hx
        · exact Or.inl hx
        · exact Or.inr hx

theorem enrouteLoop_hits_iff (L : Nat) (t : Int) (route : List (Nat × Int))
    (s : LoopState) (h : s.st = TaxiStatus.enroute_pickup) :
    ((enrouteLoop L t route s).st = TaxiStatus.occupied ↔
      enrouteHits t s.current_destination route = true) := by
  induction route generalizing s with
  | nil =>
    unfold enrouteLoop enrouteHits
    rw [h]
    simp
  | cons e rest ih =>
    unfold enrouteLoop enrouteHits
    by_cases h1 : e.2 > t
    · simp only [h1, if_true]
      rw [h]
      simp
    · simp only [h1, if_false]
      by_cases h2 : (some e.1 : Option Nat) = s.current_destination
      · rw [if_pos h2, if_pos h2, if_pos (by simp [h])]
        constructor
        · intro _; rfl
        · intro _
          exact enrouteLoop_occupied_sticky L t rest _ (by simp)
      · rw [if_neg h2, if_neg h2]
        exact ih _ (by simp [h])

theorem enrouteLoop_no_hit (L : Nat) (t : Int) (route : List (Nat × Int))
    (s : LoopState) (h : s.st = TaxiStatus.enroute_pickup)
    (hstay : (enrouteLoop L t route s).st = TaxiStatus.enroute_pickup) :
    enrouteLoop L t route s =
      { s with new_position := plainLoop t route s.new_position } := by
  induction route generalizing s with
  | nil => rfl
  | cons e rest ih =>
    unfold enrouteLoop plainLoop
    by_cases h1 : e.2 > t
    · simp only [h1, if_true]
    · by_cases h2 : (some e.1 : Option Nat) = s.current_destination
      · exfalso
        simp only [enrouteLoop] at hstay
        rw [if_neg h1, if_pos h2, if_pos (by simp [h])] at hstay
        rw [enrouteLoop_occupied_sticky L t rest _ (by simp)] at hstay
        cases hstay
      · simp only [h1, if_false]
        rw [if_neg h2]
        have hstay2 : (enrouteLoop L t rest
            ({ s with new_position := some e.1 })).st = TaxiStatus.enroute_pickup := by
          simp only [enrouteLoop] at hstay
          rw [if_neg h1, if_neg h2] at hstay
          exact hstay
        rw [ih _ (by simp [h]) hstay2]

theorem enrouteLoop_occupied_some (L : Nat) (t : Int) (route : List (Nat × Int))
    (s : LoopState) (h : s.st = TaxiStatus.enroute_pickup)
    (hocc : (enrouteLoop L t route s).st = TaxiStatus.occupied) :
    ∃ p, (enrouteLoop L t route s).new_position = some p := by
  induction route generalizing s with
  | nil =>
    exfalso
    unfold enrouteLoop at hocc
    rw [h] at hocc
    cases hocc
  | cons e rest ih =>
    unfold enrouteLoop
    by_cases h1 : e.2 > t
    · exfalso
      simp only [enrouteLoop] at hocc
      rw [if_pos h1] at hocc
      rw [h] at hocc
      cases hocc
    · simp only [h1, if_false]
      by_cases h2 : (some e.1 : Option Nat) = s.current_destination
      · rw [if_pos h2, if_pos (by simp [h])]
        rw [enrouteLoop_new_position]
        exact plainLoop_some t rest e.1
      · rw [if_neg h2]
        apply ih _ (by simp [h])
        simp only [enrouteLoop] at hocc
        rw [if_neg h1, if_neg h2] at hocc
        exact hocc

theorem updateMoving_plain_early (v : TaxiEntity) (t : Int)
    (route : List (Nat × Int))
    (hst : v.status = TaxiStatus.occupied ∨ v.status = TaxiStatus.repositioning)
    (hlate : ¬ t ≥ (route.getLast?.getD (0 : Nat × Int)).2) :
    updateMoving v t route =
      ({ v with position_node := posAfter v t route }, UpdateResult.noEvent) := by
  have hne : ¬ v.status = TaxiStatus.enroute_pickup := by
    rcases hst with h | h <;> simp [h]
  have hnocc : ¬ (t ≥ (route.getLast?.getD (0 : Nat × Int)).2 ∧
      ({ new_position := plainLoop t route none, st := v.status,
         position_node := v.position_node,
         current_destination := v.current_destination,
         order_status := none, order_time := none } : LoopState).st
        = TaxiStatus.occupied) := by
    intro hcon
    exact hlate hcon.1
  simp only [updateMoving]
  rw [if_neg hne, if_neg hlate]
  rw [if_neg hnocc, if_neg hnocc]
  unfold posAfter
  cases hpl : plainLoop t route none with
  | none => simp [hpl]
  | some p => simp [hpl]

theorem posAfter_stable (v w : TaxiEntity) (t : Int) (route : List (Nat × Int))
    (h : w.position_node = posAfter v t route) :
    posAfter w t route = posAfter v t route := by
  unfold posAfter at h ⊢
  cases hpl : plainLoop t route none with
  | none =>
    rw [hpl] at h
    simp only [h]
  | some p => rfl

theorem update_position_no_route (v : TaxiEntity) (t : Int)
    (hr : v.current_route = none) :
    v.update_position t = (v, UpdateResult.notMoving) := by
  simp [update_position, hr]

theorem update_position_guard (v : TaxiEntity) (t : Int)
    (route : List (Nat × Int)) (hr : v.current_route = some route)
    (hguard : route = [] ∨
      (v.status ≠ TaxiStatus.enroute_pickup ∧ v.status ≠ TaxiStatus.occupied ∧
        v.status ≠ TaxiStatus.repositioning)) :
    v.update_position t = (v, UpdateResult.notMoving) := by
  simp only [update_position, hr]
  rw [if_pos hguard]

theorem update_position_moving (v : TaxiEntity) (t : Int)
    (route : List (Nat × Int)) (hr : v.current_route = some route)
    (hguard : ¬ (route = [] ∨
      (v.status ≠ TaxiStatus.enroute_pickup ∧ v.status ≠ TaxiStatus.occupied ∧
        v.status ≠ TaxiStatus.repositioning))) :
    v.update_position t = updateMoving v t route := by
  simp only [update_position, hr]
  rw [if_neg hguard]

theorem updateMoving_enroute_nohit_early (v : TaxiEntity) (t : Int)
    (route : List (Nat × Int)) (hst : v.status = TaxiStatus.enroute_pickup)
    (hmiss : enrouteHits t v.current_destination route = false)
    (hlate : ¬ t ≥ (route.getLast?.getD (0 : Nat × Int)).2) :
    updateMoving v t route =
      ({ v with position_node := posAfter v t route }, UpdateResult.noEvent) := by
  have hs0 : ((⟨none, v.status, v.position_node, v.current_destination,
      none, none⟩ : LoopState)).st = TaxiStatus.enroute_pickup := hst
  have hstay : (enrouteLoop (route.getLast?.getD (0 : Nat × Int)).1 t route
      (⟨none, v.status, v.position_node, v.current_destination,
        none, none⟩ : LoopState)).st = TaxiStatus.enroute_pickup := by
    rcases enrouteLoop_st_cases (route.getLast?.getD (0 : Nat × Int)).1 t route
        (⟨none, v.status, v.position_node, v.current_destination,
          none, none⟩ : LoopState) with h | h
    · rw [h]; exact hst
    · exfalso
      have hx := (enrouteLoop_hits_iff (route.getLast?.getD (0 : Nat × Int)).1 t route _ hs0).mp h
      rw [hmiss] at hx
      cases hx
  have hs := enrouteLoop_no_hit (route.getLast?.getD (0 : Nat × Int)).1 t route _ hs0 hstay
  have hnocc : ¬ (t ≥ (route.getLast?.getD (0 : Nat × Int)).2 ∧
      ((⟨none, v.status, v.position_node, v.current_destination,
        none, none⟩ : LoopState)).st = TaxiStatus.occupied) := fun hcon => hlate hcon.1
  simp only [updateMoving]
  rw [if_pos hst]
  rw [hs]
  rw [if_neg hlate]
  rw [if_neg hnocc, if_neg hnocc]
  unfold posAfter
  cases hpl : plainLoop t route none with
  | none => simp [hpl]
  | some p => simp [hpl]

theorem updateMoving_enroute_nohit_late (v : TaxiEntity) (t : Int)
    (route : List (Nat × Int)) (hst : v.status = TaxiStatus.enroute_pickup)
    (hmiss : enrouteHits t v.current_destination route = false)
    (hlate : t ≥ (route.getLast?.getD (0 : Nat × Int)).2) :
    updateMoving v t route =
      ({ v with position_node := some (route.getLast?.getD (0 : Nat × Int)).1 },
        UpdateResult.noEvent) := by
  have hs0 : ((⟨none, v.status, v.position_node, v.current_destination,
      none, none⟩ : LoopState)).st = TaxiStatus.enroute_pickup := hst
  have hstay : (enrouteLoop (route.getLast?.getD (0 : Nat × Int)).1 t route
      (⟨none, v.status, v.position_node, v.current_destination,
        none, none⟩ : LoopState)).st = TaxiStatus.enroute_pickup := by
    rcases enrouteLoop_st_cases (route.getLast?.getD (0 : Nat × Int)).1 t route
        (⟨none, v.status, v.position_node, v.current_destination,
          none, none⟩ : LoopState) with h | h
    · rw [h]; exact hst
    · exfalso
      have hx := (enrouteLoop_hits_iff (route.getLast?.getD (0 : Nat × Int)).1 t route _ hs0).mp h
      rw [hmiss] at hx
      cases hx
  have hs := enrouteLoop_no_hit (route.getLast?.getD (0 : Nat × Int)).1 t route _ hs0 hstay
  simp only [updateMoving]
  rw [if_pos hst, hs, if_pos hlate]
  simp [hst]

theorem updateMoving_enroute_hit_early (v : TaxiEntity) (t : Int)
    (route : List (Nat × Int)) (hst : v.status = TaxiStatus.enroute_pickup)
    (hhit : enrouteHits t v.current_destination route = true)
    (hlate : ¬ t ≥ (route.getLast?.getD (0 : Nat × Int)).2) :
    ∃ p d, plainLoop t route none = some p ∧
      (updateMoving v t route).1 =
        { v with
            status := TaxiStatus.occupied
            position_node := some p
            current_destination := d } := by
  have hs0 : ((⟨none, v.status, v.position_node, v.current_destination,
      none, none⟩ : LoopState)).st = TaxiStatus.enroute_pickup := hst
  have hocc : (enrouteLoop (route.getLast?.getD (0 : Nat × Int)).1 t route
      (⟨none, v.status, v.position_node, v.current_destination,
        none, none⟩ : LoopState)).st = TaxiStatus.occupied := by
    refine (enrouteLoop_hits_iff (route.getLast?.getD (0 : Nat × Int)).1 t route _ hs0).mpr ?_
    exact hhit
  obtain ⟨p, hp⟩ := enrouteLoop_occupied_some (route.getLast?.getD (0 : Nat × Int)).1 t route _ hs0 hocc
  have hplp : plainLoop t route none = some p := by
    rw [← enrouteLoop_new_position (route.getLast?.getD (0 : Nat × Int)).1 t route
      (⟨none, v.status, v.position_node, v.current_destination,
        none, none⟩ : LoopState)]
    exact hp
  have hnocc : ¬ (t ≥ (route.getLast?.getD (0 : Nat × Int)).2 ∧
      (enrouteLoop (route.getLast?.getD (0 : Nat × Int)).1 t route
        (⟨none, v.status, v.position_node, v.current_destination,
          none, none⟩ : LoopState)).st = TaxiStatus.occupied) :=
    fun hcon => hlate hcon.1
  refine ⟨p, (enrouteLoop (route.getLast?.getD (0 : Nat × Int)).1 t route
      (⟨none, v.status, v.position_node, v.current_destination,
        none, none⟩ : LoopState)).current_destination, hplp, ?_⟩
  simp only [updateMoving]
  rw [if_pos hst]
  rw [if_neg hlate]
  rw [if_neg hnocc, if_neg hnocc]
  rw [hp, hocc]
  cases hcase : (enrouteLoop (route.getLast?.getD (0 : Nat × Int)).1 t route
      (⟨none, v.status, v.position_node, v.current_destination,
        none, none⟩ : LoopState)).order_status with
  | none => simp [hcase]
  | some st => simp [hcase]

theorem updateMoving_cleared (v : TaxiEntity) (t : Int)
    (route : List (Nat × Int))
    (hlate : t ≥ (route.getLast?.getD (0 : Nat × Int)).2)
    (hC : v.status = TaxiStatus.occupied ∨ v.status = TaxiStatus.repositioning ∨
      (v.status = TaxiStatus.enroute_pickup ∧
        enrouteHits t v.current_destination route = true)) :
    (updateMoving v t route).1.current_route = none ∧
    (updateMoving v t route).1.status = TaxiStatus.idle := by
  rcases hC with hst | hst | ⟨hst, hhit⟩
  · have hne : ¬ v.status = TaxiStatus.enroute_pickup := by simp [hst]
    simp only [updateMoving]
    rw [if_neg hne, if_pos hlate]
    simp [hst, hlate]
  · have hne : ¬ v.status = TaxiStatus.enroute_pickup := by simp [hst]
    simp only [updateMoving]
    rw [if_neg hne, if_pos hlate]
    simp [hst, hlate]
  · have hs0 : ((⟨none, v.status, v.position_node, v.current_destination,
        none, none⟩ : LoopState)).st = TaxiStatus.enroute_pickup := hst
    have hocc : (enrouteLoop (route.getLast?.getD (0 : Nat × Int)).1 t route
        (⟨none, v.status, v.position_node, v.current_destination,
          none, none⟩ : LoopState)).st = TaxiStatus.occupied := by
      refine (enrouteLoop_hits_iff (route.getLast?.getD (0 : Nat × Int)).1 t route _ hs0).mpr ?_
      exact hhit
    simp only [updateMoving]
    rw [if_pos hst, if_pos hlate]
    rw [hocc]
    cases hcase : (enrouteLoop (route.getLast?.getD (0 : Nat × Int)).1 t route
        (⟨none, v.status, v.position_node, v.current_destination,
          none, none⟩ : LoopState)).order_status with
    | none => simp [hcase, hlate]
    | some st => simp [hcase, hlate]

theorem update_position_fix_early (w : TaxiEntity) (t : Int)
    (route : List (Nat × Int))
    (hr : w.current_route = some route) (hne : route ≠ [])
    (hmv : w.status = TaxiStatus.occupied ∨ w.status = TaxiStatus.repositioning ∨
      (w.status = TaxiStatus.enroute_pickup ∧
        enrouteHits t w.current_destination route = false))
    (hlate : ¬ t ≥ (route.getLast?.getD (0 : Nat × Int)).2)
    (hpos : w.position_node = posAfter w t route) :
    w.update_position t = (w, UpdateResult.noEvent) := by
  have hguard : ¬ (route = [] ∨
      (w.status ≠ TaxiStatus.enroute_pickup ∧ w.status ≠ TaxiStatus.occupied ∧
        w.status ≠ TaxiStatus.repositioning)) := by
    intro hcon
    rcases hcon with h | h
    · exact hne h
    · rcases hmv with hs | hs | ⟨hs, _⟩
      · exact h.2.1 hs
      · exact h.2.2 hs
      · exact h.1 hs
  rw [update_position_moving w t route hr hguard]
  rcases hmv with hs | hs | ⟨hs, hm⟩
  · rw [updateMoving_plain_early w t route (Or.inl hs) hlate, ← hpos]
  · rw [updateMoving_plain_early w t route (Or.inr hs) hlate, ← hpos]
  · rw [updateMoving_enroute_nohit_early w t route hs hm hlate, ← hpos]

theorem update_position_fix_late (w : TaxiEntity) (t : Int)
    (route : List (Nat × Int))
    (hr : w.current_route = some route) (hne : route ≠ [])
    (hst : w.status = TaxiStatus.enroute_pickup)
    (hmiss : enrouteHits t w.current_destination route = false)
    (hlate : t ≥ (route.getLast?.getD (0 : Nat × Int)).2)
    (hpos : w.position_node = some (route.getLast?.getD (0 : Nat × Int)).1) :
    w.update_position t = (w, UpdateResult.noEvent) := by
  have hguard : ¬ (route = [] ∨
      (w.status ≠ TaxiStatus.enroute_pickup ∧ w.status ≠ TaxiStatus.occupied ∧
        w.status ≠ TaxiStatus.repositioning)) := by
    intro hcon
    rcases hcon with h | h
    · exact hne h
    · exact h.1 hst
  rw [update_position_moving w t route hr hguard]
  rw [updateMoving_enroute_nohit_late w t route hst hmiss hlate, ← hpos]

/-- C8: `update_position` is idempotent — calling it twice with the same time
leaves the taxi exactly as the first call left it, and the second call
produces no order-lifecycle event. -/
theorem C8_update_position_idempotent (v : TaxiEntity) (t : Int) :
    ((v.update_position t).1.update_position t).1 = (v.update_position t).1 ∧
    ∀ e, ((v.update_position t).1.update_position t).2 ≠ UpdateResult.changed e := by
  cases hr : v.current_route with
  | none =>
    have hB : v.update_position t = (v, UpdateResult.notMoving) :=
      update_position_no_route v t hr
    rw [hB]
    rw [hB]
    exact ⟨rfl, fun e h => by cases h⟩
  | some route =>
    by_cases hg : route = [] ∨
        (v.status ≠ TaxiStatus.enroute_pickup ∧ v.status ≠ TaxiStatus.occupied ∧
          v.status ≠ TaxiStatus.repositioning)
    · have hB : v.update_position t = (v, UpdateResult.notMoving) :=
        update_position_guard v t route hr hg
      rw [hB]
      rw [hB]
      exact ⟨rfl, fun e h => by cases h⟩
    · have hA0 : v.update_position t = updateMoving v t route :=
        update_position_moving v t route hr hg
      have hne : route ≠ [] := fun h => hg (Or.inl h)
      cases hstat : v.status with
      | idle =>
        exact absurd (Or.inr ⟨by simp [hstat], by simp [hstat], by simp [hstat]⟩) hg
      | occupied =>
        by_cases hlate : t ≥ (route.getLast?.getD (0 : Nat × Int)).2
        · have hcl := updateMoving_cleared v t route hlate (Or.inl hstat)
          have hB : (updateMoving v t route).1.update_position t =
              ((updateMoving v t route).1, UpdateResult.notMoving) :=
            update_position_no_route _ t hcl.1
          rw [hA0, hB]
          exact ⟨rfl, fun e h => by cases h⟩
        · have hA : (updateMoving v t route).1 =
              { v with position_node := posAfter v t route } := by
            rw [updateMoving_plain_early v t route (Or.inl hstat) hlate]
          have hB := update_position_fix_early
            ({ v with position_node := posAfter v t route }) t route hr hne
            (Or.inl hstat) hlate
            (by rw [posAfter_stable v { v with position_node := posAfter v t route } t route rfl])
          rw [hA0, hA, hB]
          exact ⟨rfl, fun e h => by cases h⟩
      | repositioning =>
        by_cases hlate : t ≥ (route.getLast?.getD (0 : Nat × Int)).2
        · have hcl := updateMoving_cleared v t route hlate (Or.inr (Or.inl hstat))
          have hB : (updateMoving v t route).1.update_position t =
              ((updateMoving v t route).1, UpdateResult.notMoving) :=
            update_position_no_route _ t hcl.1
          rw [hA0, hB]
          exact ⟨rfl, fun e h => by cases h⟩
        · have hA : (updateMoving v t route).1 =
              { v with position_node := posAfter v t route } := by
            rw [updateMoving_plain_early v t route (Or.inr hstat) hlate]
          have hB := update_position_fix_early
            ({ v with position_node := posAfter v t route }) t route hr hne
            (Or.inr (Or.inl hstat)) hlate
            (by rw [posAfter_stable v { v with position_node := posAfter v t route } t route rfl])
          rw [hA0, hA, hB]
          exact ⟨rfl, fun e h => by cases h⟩
      | enroute_pickup =>
        cases hhit : enrouteHits t v.current_destination route with
        | false =>
          by_cases hlate : t ≥ (route.getLast?.getD (0 : Nat × Int)).2
          · have hA : (updateMoving v t route).1 =
                { v with position_node := some (route.getLast?.getD (0 : Nat × Int)).1 } := by
              rw [updateMoving_enroute_nohit_late v t route hstat hhit hlate]
            have hB := update_position_fix_late
              ({ v with position_node := some (route.getLast?.getD (0 : Nat × Int)).1 })
              t route hr hne hstat hhit hlate rfl
            rw [hA0, hA, hB]
            exact ⟨rfl, fun e h => by cases h⟩
          · have hA : (updateMoving v t route).1 =
                { v with position_node := posAfter v t route } := by
              rw [updateMoving_enroute_nohit_early v t route hstat hhit hlate]
            have hB := update_position_fix_early
              ({ v with position_node := posAfter v t route }) t route hr hne
              (Or.inr (Or.inr ⟨hstat, hhit⟩)) hlate
              (by rw [posAfter_stable v { v with position_node := posAfter v t route } t route rfl])
            rw [hA0, hA, hB]
            exact ⟨rfl, fun e h => by cases h⟩
        | true =>
          by_cases hlate : t ≥ (route.getLast?.getD (0 : Nat × Int)).2
          · have hcl := updateMoving_cleared v t route hlate (Or.inr (Or.inr ⟨hstat, hhit⟩))
            have hB : (updateMoving v t route).1.update_position t =
                ((updateMoving v t route).1, UpdateResult.notMoving) :=
              update_position_no_route _ t hcl.1
            rw [hA0, hB]
            exact ⟨rfl, fun e h => by cases h⟩
          · obtain ⟨p, d, hpl, h1⟩ :=
              updateMoving_enroute_hit_early v t route hstat hhit hlate
            have hB := update_position_fix_early
              ({ v with
                  status := TaxiStatus.occupied
                  position_node := some p
                  current_destination := d }) t route hr hne
              (Or.inl rfl) hlate
              (by unfold posAfter; rw [hpl])
            rw [hA0, h1, hB]
            exact ⟨rfl, fun e h => by cases h⟩

end TaxiEntity

/-- Witness for C6: the returned list of the theorem evaluated on a concrete
one-order manager. -/
theorem C6_get_waiting_orders_spec_witness :
    ((({ orders := [sampleOrder], waiting_threshold := 300 } : OrderManager)).get_waiting_orders 5).1
      = [sampleOrder] := by
  rw [(C6_get_waiting_orders_spec
    ({ orders := [sampleOrder], waiting_threshold := 300 } : OrderManager) 5).1]
  decide

/-- Witness for C8: the idempotence theorem applied to a concrete occupied
taxi halfway along `sampleRoute`. -/
theorem C8_update_position_idempotent_witness :
    ((({ sampleIdleTaxi with
          status := TaxiStatus.occupied
          current_order := some 7
          current_destination := some 5
          current_route := some sampleRoute } : TaxiEntity).update_position 1).1.update_position 1).1
      = (({ sampleIdleTaxi with
          status := TaxiStatus.occupied
          current_order := some 7
          current_destination := some 5
          current_route := some sampleRoute } : TaxiEntity).update_position 1).1 ∧
    ((({ sampleIdleTaxi with
          status := TaxiStatus.occupied
          current_order := some 7
          current_destination := some 5
          current_route := some sampleRoute } : TaxiEntity).update_position 1).1.update_position 1).2
      ≠ TaxiEntity.UpdateResult.changed ⟨some 7, OrderStatus.picked_up, 3⟩ :=
  ⟨(TaxiEntity.C8_update_position_idempotent _ 1).1,
    (TaxiEntity.C8_update_position_idempotent _ 1).2 ⟨some 7, OrderStatus.picked_up, 3⟩⟩

/-! ### C7: the status order and the per-order behaviour of the event batch -/

theorem statusLe_refl : ∀ a : OrderStatus, statusLe a a = true := by
  intro a
  cases a <;> decide

theorem statusLe_trans : ∀ a b c : OrderStatus,
    statusLe a b = true → statusLe b c = true → statusLe a c = true := by
  intro a b c
  cases a <;> cases b <;> cases c <;> decide

theorem forall2_status_trans (l1 l2 l3 : List OrderEntity)
    (h1 : List.Forall₂ (fun o o' => statusLe o.status o'.status = true) l1 l2)
    (h2 : List.Forall₂ (fun o o' => statusLe o.status o'.status = true) l2 l3) :
    List.Forall₂ (fun o o' => statusLe o.status o'.status = true) l1 l3 := by
  induction h1 generalizing l3 with
  | nil =>
    cases h2
    exact List.Forall₂.nil
  | cons hab h ih =>
    cases h2 with
    | cons hbc h' =>
      exact List.Forall₂.cons (statusLe_trans _ _ _ hab hbc) (ih _ h')

theorem ordersLe_refl (m : OrderManager) : ordersLe m m :=
  List.forall₂_same.mpr (fun o _ => statusLe_refl o.status)

theorem ordersLe_trans (m1 m2 m3 : OrderManager) (h1 : ordersLe m1 m2)
    (h2 : ordersLe m2 m3) : ordersLe m1 m3 :=
  forall2_status_trans _ _ _ h1 h2

theorem ordersLe_map (l : List OrderEntity) (f : OrderEntity → OrderEntity)
    (h : ∀ o ∈ l, statusLe o.status (f o).status = true) :
    List.Forall₂ (fun o o' => statusLe o.status o'.status = true) l (l.map f) := by
  rw [List.forall₂_map_right_iff]
  exact List.forall₂_same.mpr h

namespace OrderManager

theorem applyEvent_order_id (e : OrderEvent) (o : OrderEntity) :
    (applyEvent e o).order_id = o.order_id := by
  unfold applyEvent
  split <;> rfl

theorem applyEvent_status_touched (e : OrderEvent) (o : OrderEntity)
    (hm : some o.order_id = e.oid) : (applyEvent e o).status = e.st := by
  unfold applyEvent
  rw [if_pos hm]

theorem applyEvent_untouched (e : OrderEvent) (o : OrderEntity)
    (hm : ¬ some o.order_id = e.oid) : applyEvent e o = o := by
  unfold applyEvent
  rw [if_neg hm]

theorem applyEventsTo_cons (o : OrderEntity) (e : OrderEvent)
    (es : List OrderEvent) :
    applyEventsTo o (e :: es) = applyEventsTo (applyEvent e o) es := rfl

theorem applyEventsTo_order_id (o : OrderEntity) (es : List OrderEvent) :
    (applyEventsTo o es).order_id = o.order_id := by
  induction es generalizing o with
  | nil => rfl
  | cons e es ih =>
    rw [applyEventsTo_cons, ih, applyEvent_order_id]

theorem change_orders_status_eq_map (m : OrderManager) (es : List OrderEvent) :
    (m.change_orders_status es).orders =
      m.orders.map (fun o => applyEventsTo o es) := by
  induction es generalizing m with
  | nil =>
    simp [change_orders_status, applyEventsTo]
  | cons e es ih =>
    have hstep : m.change_orders_status (e :: es) =
        OrderManager.change_orders_status
          { m with orders := m.orders.map (applyEvent e) } es := rfl
    rw [hstep, ih]
    rw [List.map_map]
    rfl

theorem applyEventsTo_untouched (o : OrderEntity) (es : List OrderEvent)
    (h : ∀ e ∈ es, e.oid ≠ some o.order_id) :
    applyEventsTo o es = o := by
  induction es generalizing o with
  | nil => rfl
  | cons e es ih =>
    rw [applyEventsTo_cons]
    have hne : ¬ some o.order_id = e.oid := fun hx =>
      h e (List.mem_cons_self e es) hx.symm
    rw [applyEvent_untouched e o hne]
    exact ih o (fun e' he' => h e' (List.mem_cons_of_mem e he'))

theorem applyEventsTo_keeps (o : OrderEntity) (es : List OrderEvent)
    (st0 : OrderStatus) (h0 : o.status = st0)
    (hall : ∀ e ∈ es, e.oid = some o.order_id → e.st = st0) :
    (applyEventsTo o es).status = st0 := by
  induction es generalizing o with
  | nil => exact h0
  | cons e es ih =>
    rw [applyEventsTo_cons]
    by_cases hm : some o.order_id = e.oid
    · refine ih (applyEvent e o) ?_ ?_
      · rw [applyEvent_status_touched e o hm]
        exact hall e (List.mem_cons_self e es) hm.symm
      · intro e' he' hid
        refine hall e' (List.mem_cons_of_mem e he') ?_
        rw [applyEvent_order_id] at hid
        exact hid
    · rw [applyEvent_untouched e o hm]
      exact ih o h0 (fun e' he' => hall e' (List.mem_cons_of_mem e he'))

theorem applyEventsTo_hits (o : OrderEntity) (es : List OrderEvent)
    (st0 : OrderStatus)
    (hex : ∃ e ∈ es, e.oid = some o.order_id)
    (hall : ∀ e ∈ es, e.oid = some o.order_id → e.st = st0) :
    (applyEventsTo o es).status = st0 := by
  induction es generalizing o with
  | nil =>
    rcases hex with ⟨e, he, _⟩
    exact absurd he (List.not_mem_nil e)
  | cons e es ih =>
    rw [applyEventsTo_cons]
    by_cases hm : some o.order_id = e.oid
    · refine applyEventsTo_keeps (applyEvent e o) es st0 ?_ ?_
      · rw [applyEvent_status_touched e o hm]
        exact hall e (List.mem_cons_self e es) hm.symm
      · intro e' he' hid
        refine hall e' (List.mem_cons_of_mem e he') ?_
        rw [applyEvent_order_id] at hid
        exact hid
    · rw [applyEvent_untouched e o hm]
      refine ih o ?_ (fun e' he' => hall e' (List.mem_cons_of_mem e he'))
      rcases hex with ⟨e', he', hid⟩
      rcases List.mem_cons.mp he' with h | h
      · exact absurd (h ▸ hid).symm hm
      · exact ⟨e', h, hid⟩

theorem applyEventsTo_single (o : OrderEntity) (es : List OrderEvent)
    (hdup : (es.filterMap (fun e => e.oid)).Nodup) :
    applyEventsTo o es = o ∨
    ∃ e ∈ es, e.oid = some o.order_id ∧
      applyEventsTo o es = applyEvent e o := by
  induction es generalizing o with
  | nil => exact Or.inl rfl
  | cons e es ih =>
    have hdup' : (es.filterMap (fun e => e.oid)).Nodup := by
      rw [List.filterMap_cons] at hdup
      cases hoid : e.oid with
      | none => rw [hoid] at hdup; exact hdup
      | some x => rw [hoid] at hdup; exact hdup.of_cons
    rw [applyEventsTo_cons]
    by_cases hm : some o.order_id = e.oid
    · have hnotin : o.order_id ∉ es.filterMap (fun e => e.oid) := by
        rw [List.filterMap_cons, ← hm] at hdup
        exact (List.nodup_cons.mp hdup).1
      have huntouched : applyEventsTo (applyEvent e o) es = applyEvent e o := by
        refine applyEventsTo_untouched _ es ?_
        intro e' he' hcon
        rw [applyEvent_order_id] at hcon
        exact hnotin (List.mem_filterMap.mpr ⟨e', he', hcon⟩)
      exact Or.inr ⟨e, List.mem_cons_self e es, hm.symm, huntouched⟩
    · rw [applyEvent_untouched e o hm]
      rcases ih o hdup' with h | ⟨e', he', hid, heq⟩
      · exact Or.inl h
      · exact Or.inr ⟨e', List.mem_cons_of_mem e he', hid, heq⟩

end OrderManager

namespace TaxiEntity

theorem enrouteLoop_order_status_cases (L : Nat) (t : Int)
    (route : List (Nat × Int)) (s : LoopState) :
    (enrouteLoop L t route s).order_status = s.order_status ∨
    (enrouteLoop L t route s).order_status = some OrderStatus.picked_up := by
  induction route generalizing s with
  | nil => exact Or.inl rfl
  | cons e rest ih =>
    unfold enrouteLoop
    by_cases h1 : e.2 > t
    · rw [if_pos h1]; exact Or.inl rfl
    · simp only [h1, if_false]
      by_cases h2 : (some e.1 : Option Nat) = s.current_destination
      · by_cases h3 : s.st = TaxiStatus.enroute_pickup
        · rw [if_pos h2, if_pos (by simp [h3])]
          rcases ih ({ s with
            new_position := some e.1
            order_status := some OrderStatus.picked_up
            order_time := some e.2
            st := TaxiStatus.occupied
            position_node := s.current_destination
            current_destination := some L }) with hx | hx
          · exact Or.inr hx
          · exact Or.inr hx
        · rw [if_pos h2, if_neg (by simp [h3])]
          rcases ih ({ s with
            new_position := some e.1
            order_status := some OrderStatus.picked_up
            order_time := some e.2 }) with hx | hx
          · exact Or.inr hx
          · exact Or.inr hx
      · rw [if_neg h2]
        exact ih ({ s with new_position := some e.1 })

theorem enrouteLoop_picked (L : Nat) (t : Int) (route : List (Nat × Int))
    (s : LoopState) (h : s.st = TaxiStatus.enroute_pickup)
    (hocc : (enrouteLoop L t route s).st = TaxiStatus.occupied) :
    (enrouteLoop L t route s).order_status = some OrderStatus.picked_up := by
  induction route generalizing s with
  | nil =>
    exfalso
    unfold enrouteLoop at hocc
    rw [h] at hocc
    cases hocc
  | cons e rest ih =>
    unfold enrouteLoop
    by_cases h1 : e.2 > t
    · exfalso
      simp only [enrouteLoop] at hocc
      rw [if_pos h1, h] at hocc
      cases hocc
    · simp only [h1, if_false]
      by_cases h2 : (some e.1 : Option Nat) = s.current_destination
      · rw [if_pos h2, if_pos (by simp [h])]
        rcases enrouteLoop_order_status_cases L t rest ({ s with
          new_position := some e.1
          order_status := some OrderStatus.picked_up
          order_time := some e.2
          st := TaxiStatus.occupied
          position_node := s.current_destination
          current_destination := some L }) with hx | hx
        · exact hx
        · exact hx
      · rw [if_neg h2]
        refine ih _ (by simp [h]) ?_
        simp only [enrouteLoop] at hocc
        rw [if_neg h1, if_neg h2] at hocc
        exact hocc

theorem update_position_shape (v : TaxiEntity) (t : Int) :
    (v.update_position t).1.taxi_id = v.taxi_id ∧
    ((v.update_position t = (v, UpdateResult.notMoving)) ∨
     ((v.update_position t).2 = UpdateResult.noEvent ∧
       (v.update_position t).1.current_order = v.current_order ∧
       ((v.update_position t).1.status = v.status ∨
        ((v.update_position t).1.status = TaxiStatus.idle ∧
          v.status = TaxiStatus.repositioning))) ∨
     (v.status = TaxiStatus.enroute_pickup ∧
       (v.update_position t).1.status = TaxiStatus.occupied ∧
       (v.update_position t).1.current_order = v.current_order ∧
       ∃ τ, (v.update_position t).2 =
         UpdateResult.changed ⟨v.current_order, OrderStatus.picked_up, τ⟩) ∨
     ((v.status = TaxiStatus.occupied ∨ v.status = TaxiStatus.enroute_pickup) ∧
       (v.update_position t).1.status = TaxiStatus.idle ∧
       (v.update_position t).1.current_order = none ∧
       ∃ τ, (v.update_position t).2 =
         UpdateResult.changed ⟨v.current_order, OrderStatus.completed, τ⟩)) := by
  cases hr : v.current_route with
  | none =>
    rw [update_position_no_route v t hr]
    exact ⟨rfl, Or.inl rfl⟩
  | some route =>
    by_cases hg : route = [] ∨
        (v.status ≠ TaxiStatus.enroute_pickup ∧ v.status ≠ TaxiStatus.occupied ∧
          v.status ≠ TaxiStatus.repositioning)
    · rw [update_position_guard v t route hr hg]
      exact ⟨rfl, Or.inl rfl⟩
    · have hA0 : v.update_position t = updateMoving v t route :=
        update_position_moving v t route hr hg
      rw [hA0]
      cases hstat : v.status with
      | idle =>
        exact absurd (Or.inr ⟨by simp [hstat], by simp [hstat], by simp [hstat]⟩) hg
      | occupied =>
        have hne : ¬ v.status = TaxiStatus.enroute_pickup := by simp [hstat]
        by_cases hlate : t ≥ (route.getLast?.getD (0 : Nat × Int)).2
        · have hC : t ≥ (route.getLast?.getD (0 : Nat × Int)).2 ∧
              ((⟨plainLoop t route none, v.status, v.position_node,
                v.current_destination, none, none⟩ : LoopState)).st
                = TaxiStatus.occupied := ⟨hlate, hstat⟩
          have hkey : (updateMoving v t route).1.taxi_id = v.taxi_id ∧
              (updateMoving v t route).1.status = TaxiStatus.idle ∧
              (updateMoving v t route).1.current_order = none ∧
              (updateMoving v t route).2 = UpdateResult.changed
                ⟨v.current_order, OrderStatus.completed,
                  (route.getLast?.getD (0 : Nat × Int)).2⟩ := by
            simp only [updateMoving]
            rw [if_neg hne]
            rw [if_pos hC, if_pos hC, if_pos hlate]
            simp [hstat]
          exact ⟨hkey.1, Or.inr (Or.inr (Or.inr ⟨Or.inl rfl, hkey.2.1, hkey.2.2.1,
            ⟨(route.getLast?.getD (0 : Nat × Int)).2, hkey.2.2.2⟩⟩))⟩
        · rw [updateMoving_plain_early v t route (Or.inl hstat) hlate]
          exact ⟨rfl, Or.inr (Or.inl ⟨rfl, rfl, Or.inl hstat⟩)⟩
      | repositioning =>
        have hne : ¬ v.status = TaxiStatus.enroute_pickup := by simp [hstat]
        by_cases hlate : t ≥ (route.getLast?.getD (0 : Nat × Int)).2
        · have hnC : ¬ (t ≥ (route.getLast?.getD (0 : Nat × Int)).2 ∧
              ((⟨plainLoop t route none, v.status, v.position_node,
                v.current_destination, none, none⟩ : LoopState)).st
                = TaxiStatus.occupied) := by
            intro hc
            have h2 : v.status = TaxiStatus.occupied := hc.2
            rw [hstat] at h2
            cases h2
          have hkey : (updateMoving v t route).1.taxi_id = v.taxi_id ∧
              (updateMoving v t route).1.status = TaxiStatus.idle ∧
              (updateMoving v t route).1.current_order = v.current_order ∧
              (updateMoving v t route).2 = UpdateResult.noEvent := by
            simp only [updateMoving]
            rw [if_neg hne]
            rw [if_neg hnC, if_neg hnC, if_pos hlate]
            simp [hstat]
          exact ⟨hkey.1, Or.inr (Or.inl ⟨hkey.2.2.2, hkey.2.2.1,
            Or.inr ⟨hkey.2.1, rfl⟩⟩)⟩
        · rw [updateMoving_plain_early v t route (Or.inr hstat) hlate]
          exact ⟨rfl, Or.inr (Or.inl ⟨rfl, rfl, Or.inl hstat⟩)⟩
      | enroute_pickup =>
        cases hhit : enrouteHits t v.current_destination route with
        | false =>
          by_cases hlate : t ≥ (route.getLast?.getD (0 : Nat × Int)).2
          · rw [updateMoving_enroute_nohit_late v t route hstat hhit hlate]
            exact ⟨rfl, Or.inr (Or.inl ⟨rfl, rfl, Or.inl hstat⟩)⟩
          · rw [updateMoving_enroute_nohit_early v t route hstat hhit hlate]
            exact ⟨rfl, Or.inr (Or.inl ⟨rfl, rfl, Or.inl hstat⟩)⟩
        | true =>
          have hs0 : ((⟨none, v.status, v.position_node, v.current_destination,
              none, none⟩ : LoopState)).st = TaxiStatus.enroute_pickup := hstat
          have hocc : (enrouteLoop (route.getLast?.getD (0 : Nat × Int)).1 t route
              (⟨none, v.status, v.position_node, v.current_destination,
                none, none⟩ : LoopState)).st = TaxiStatus.occupied :=
            (enrouteLoop_hits_iff (route.getLast?.getD (0 : Nat × Int)).1 t route _
              hs0).mpr hhit
          by_cases hlate : t ≥ (route.getLast?.getD (0 : Nat × Int)).2
          · have hC : t ≥ (route.getLast?.getD (0 : Nat × Int)).2 ∧
                (enrouteLoop (route.getLast?.getD (0 : Nat × Int)).1 t route
                  (⟨none, v.status, v.position_node, v.current_destination,
                    none, none⟩ : LoopState)).st = TaxiStatus.occupied :=
              ⟨hlate, hocc⟩
            have hkey : (updateMoving v t route).1.taxi_id = v.taxi_id ∧
                (updateMoving v t route).1.status = TaxiStatus.idle ∧
                (updateMoving v t route).1.current_order = none ∧
                (updateMoving v t route).2 = UpdateResult.changed
                  ⟨v.current_order, OrderStatus.completed,
                    (route.getLast?.getD (0 : Nat × Int)).2⟩ := by
              simp only [updateMoving]
              rw [if_pos hstat]
              rw [if_pos hC, if_pos hC, if_pos hlate]
              simp [hocc]
            exact ⟨hkey.1, Or.inr (Or.inr (Or.inr ⟨Or.inr rfl, hkey.2.1,
              hkey.2.2.1, ⟨(route.getLast?.getD (0 : Nat × Int)).2, hkey.2.2.2⟩⟩))⟩
          · have hpicked : (enrouteLoop (route.getLast?.getD (0 : Nat × Int)).1 t
                route (⟨none, v.status, v.position_node, v.current_destination,
                  none, none⟩ : LoopState)).order_status
                  = some OrderStatus.picked_up :=
              enrouteLoop_picked (route.getLast?.getD (0 : Nat × Int)).1 t route _
                hs0 hocc
            have hnC : ¬ (t ≥ (route.getLast?.getD (0 : Nat × Int)).2 ∧
                (enrouteLoop (route.getLast?.getD (0 : Nat × Int)).1 t route
                  (⟨none, v.status, v.position_node, v.current_destination,
                    none, none⟩ : LoopState)).st = TaxiStatus.occupied) :=
              fun hc => hlate hc.1
            have hev : (updateMoving v t route).2 = UpdateResult.changed
                ⟨v.current_order, OrderStatus.picked_up,
                  (enrouteLoop (route.getLast?.getD (0 : Nat × Int)).1 t route
                    (⟨none, v.status, v.position_node, v.current_destination,
                      none, none⟩ : LoopState)).order_time.getD 0⟩ := by
              simp only [updateMoving]
              rw [if_pos hstat]
              rw [if_neg hnC, if_neg hnC, hpicked]
            obtain ⟨p, d, _, h1⟩ :=
              updateMoving_enroute_hit_early v t route hstat hhit hlate
            refine ⟨?_, Or.inr (Or.inr (Or.inl ⟨rfl, ?_, ?_, ?_⟩))⟩
            · rw [h1]
            · rw [h1]
            · rw [h1]
            · exact ⟨(enrouteLoop (route.getLast?.getD (0 : Nat × Int)).1 t route
                (⟨none, v.status, v.position_node, v.current_destination,
                  none, none⟩ : LoopState)).order_time.getD 0, hev⟩

end TaxiEntity

theorem filterMap_sublist {α β : Type _} (l : List α) (f g : α → Option β)
    (h : ∀ a ∈ l, f a = none ∨ f a = g a) :
    List.Sublist (l.filterMap f) (l.filterMap g) := by
  induction l with
  | nil => exact List.Sublist.refl _
  | cons a l ih =>
    have ih' := ih (fun b hb => h b (List.mem_cons_of_mem a hb))
    rw [List.filterMap_cons, List.filterMap_cons]
    rcases h a (List.mem_cons_self a l) with hfa | hfa
    · rw [hfa]
      cases hga : g a with
      | none => exact ih'
      | some b => exact List.Sublist.cons b ih'
    · rw [hfa]
      cases hga : g a with
      | none => exact ih'
      | some b => exact List.Sublist.cons₂ b ih'

theorem filterMap_nodup_inj {α β : Type _} (l : List α) (f : α → Option β)
    (hdup : (l.filterMap f).Nodup) :
    ∀ a ∈ l, ∀ b ∈ l, ∀ x, f a = some x → f b = some x → a = b := by
  induction l with
  | nil => intro a ha; exact absurd ha (List.not_mem_nil a)
  | cons c l ih =>
    intro a ha b hb x hfa hfb
    rw [List.filterMap_cons] at hdup
    cases hfc : f c with
    | none =>
      rw [hfc] at hdup
      rcases List.mem_cons.mp ha with h1 | h1
      · rw [h1, hfc] at hfa; cases hfa
      · rcases List.mem_cons.mp hb with h2 | h2
        · rw [h2, hfc] at hfb; cases hfb
        · exact ih hdup a h1 b h2 x hfa hfb
    | some y =>
      rw [hfc] at hdup
      have hnotin := (List.nodup_cons.mp hdup).1
      have hdup' := (List.nodup_cons.mp hdup).2
      rcases List.mem_cons.mp ha with h1 | h1
      · rcases List.mem_cons.mp hb with h2 | h2
        · rw [h1, h2]
        · exfalso
          rw [h1, hfc] at hfa
          cases hfa
          exact hnotin (List.mem_filterMap.mpr ⟨b, h2, hfb⟩)
      · rcases List.mem_cons.mp hb with h2 | h2
        · exfalso
          rw [h2, hfc] at hfb
          cases hfb
          exact hnotin (List.mem_filterMap.mpr ⟨a, h1, hfa⟩)
        · exact ih hdup' a h1 b h2 x hfa hfb

theorem foldl_collect {α β γ : Type _} (f : α → β) (g : α → Option γ)
    (step : List β × List γ → α → List β × List γ)
    (hstep : ∀ acc a, step acc a = (acc.1 ++ [f a], acc.2 ++ (g a).toList)) :
    ∀ (l : List α) (acc : List β × List γ),
      l.foldl step acc = (acc.1 ++ l.map f, acc.2 ++ l.filterMap g) := by
  intro l
  induction l with
  | nil => intro acc; simp
  | cons a l ih =>
    intro acc
    rw [List.foldl_cons, ih, hstep]
    rw [List.map_cons, List.filterMap_cons]
    cases hga : g a with
    | none => simp [Option.toList]
    | some e => simp [Option.toList]

namespace FleetManager

theorem update_taxis_position_spec (fm : FleetManager) (t : Int) :
    fm.update_taxis_position t =
      ({ taxis := fm.taxis.map (fun v => (v.update_position t).1) },
        fm.taxis.filterMap (fun v => v.eventOf t)) := by
  simp only [update_taxis_position]
  rw [foldl_collect (fun v => (v.update_position t).1)
    (fun v => v.eventOf t) _ ?hstep fm.taxis ([], [])]
  · simp
  case hstep =>
    intro acc v
    cases hu : v.update_position t with
    | mk v' r =>
      cases r with
      | notMoving => simp [TaxiEntity.eventOf, hu, Option.toList]
      | noEvent => simp [TaxiEntity.eventOf, hu, Option.toList]
      | changed e => simp [TaxiEntity.eventOf, hu, Option.toList]

end FleetManager

namespace TaxiEntity

theorem up_taxi_id (v : TaxiEntity) (t : Int) :
    (v.update_position t).1.taxi_id = v.taxi_id :=
  (update_position_shape v t).1

theorem up_order_cases (v : TaxiEntity) (t : Int) :
    (v.update_position t).1.current_order = v.current_order ∨
    (v.update_position t).1.current_order = none := by
  rcases (update_position_shape v t).2 with h | h | h | h
  · rw [h]; exact Or.inl rfl
  · exact Or.inl h.2.1
  · exact Or.inl h.2.2.1
  · exact Or.inr h.2.2.1

theorem up_event_shape (v : TaxiEntity) (t : Int) (e : OrderEvent)
    (h : (v.update_position t).2 = UpdateResult.changed e) :
    e.oid = v.current_order ∧
    ((e.st = OrderStatus.picked_up ∧ v.status = TaxiStatus.enroute_pickup) ∨
     (e.st = OrderStatus.completed ∧
       (v.status = TaxiStatus.enroute_pickup ∨ v.status = TaxiStatus.occupied))) := by
  rcases (update_position_shape v t).2 with hs | hs | hs | hs
  · rw [hs] at h; cases h
  · rw [hs.1] at h; cases h
  · rcases hs.2.2.2 with ⟨τ, hτ⟩
    rw [hτ] at h
    cases h
    exact ⟨rfl, Or.inl ⟨rfl, hs.1⟩⟩
  · rcases hs.2.2.2 with ⟨τ, hτ⟩
    rw [hτ] at h
    cases h
    refine ⟨rfl, Or.inr ⟨rfl, ?_⟩⟩
    rcases hs.1 with h1 | h1
    · exact Or.inr h1
    · exact Or.inl h1

theorem eventOf_oid_cases (v : TaxiEntity) (t : Int) :
    (v.eventOf t).bind (fun e => e.oid) = none ∨
    (v.eventOf t).bind (fun e => e.oid) = v.current_order := by
  unfold eventOf
  cases h : (v.update_position t).2 with
  | notMoving => exact Or.inl rfl
  | noEvent => exact Or.inl rfl
  | changed e =>
    have := (up_event_shape v t e h).1
    simp only [Option.bind_some]
    exact Or.inr this

theorem up_enroute_char (v : TaxiEntity) (t : Int)
    (h' : (v.update_position t).1.status = TaxiStatus.enroute_pickup) :
    v.status = TaxiStatus.enroute_pickup ∧
    (v.update_position t).1.current_order = v.current_order ∧
    ∀ e, (v.update_position t).2 ≠ UpdateResult.changed e := by
  rcases (update_position_shape v t).2 with hs | hs | hs | hs
  · rw [hs] at h' ⊢
    exact ⟨h', rfl, fun e hc => by cases hc⟩
  · rcases hs.2.2 with h1 | h1
    · rw [h1] at h'
      exact ⟨h', hs.2.1, fun e hc => by rw [hs.1] at hc; cases hc⟩
    · rw [h1.1] at h'; cases h'
  · rw [hs.2.1] at h'; cases h'
  · rw [hs.2.1] at h'; cases h'

theorem up_occupied_char (v : TaxiEntity) (t : Int)
    (h' : (v.update_position t).1.status = TaxiStatus.occupied) :
    (v.update_position t).1.current_order = v.current_order ∧
    ((v.status = TaxiStatus.occupied ∧
       ∀ e, (v.update_position t).2 ≠ UpdateResult.changed e) ∨
     (v.status = TaxiStatus.enroute_pickup ∧
       ∃ τ, (v.update_position t).2 =
         UpdateResult.changed ⟨v.current_order, OrderStatus.picked_up, τ⟩)) := by
  rcases (update_position_shape v t).2 with hs | hs | hs | hs
  · rw [hs] at h' ⊢
    exact ⟨rfl, Or.inl ⟨h', fun e hc => by cases hc⟩⟩
  · rcases hs.2.2 with h1 | h1
    · rw [h1] at h'
      exact ⟨hs.2.1, Or.inl ⟨h', fun e hc => by rw [hs.1] at hc; cases hc⟩⟩
    · rw [h1.1] at h'; cases h'
  · exact ⟨hs.2.2.1, Or.inr ⟨hs.1, hs.2.2.2⟩⟩
  · rw [hs.2.1] at h'; cases h'

theorem up_idle_char (v : TaxiEntity) (t : Int)
    (h' : (v.update_position t).1.status = TaxiStatus.idle ∨
      (v.update_position t).1.status = TaxiStatus.repositioning) :
    (v.update_position t).1.current_order = none ∨
    ((v.update_position t).1.current_order = v.current_order ∧
      (v.status = TaxiStatus.idle ∨ v.status = TaxiStatus.repositioning)) := by
  rcases (update_position_shape v t).2 with hs | hs | hs | hs
  · rw [hs] at h' ⊢
    exact Or.inr ⟨rfl, h'⟩
  · rcases hs.2.2 with h1 | h1
    · rcases h' with h2 | h2
      · rw [h1] at h2
        exact Or.inr ⟨hs.2.1, Or.inl h2⟩
      · rw [h1] at h2
        exact Or.inr ⟨hs.2.1, Or.inr h2⟩
    · exact Or.inr ⟨hs.2.1, Or.inr h1.2⟩
  · rcases h' with h2 | h2
    · rw [hs.2.1] at h2; cases h2
    · rw [hs.2.1] at h2; cases h2
  · exact Or.inl hs.2.2.1

end TaxiEntity

theorem events_sound (fm : FleetManager) (t : Int) :
    ∀ e ∈ (fm.update_taxis_position t).2, ∃ v ∈ fm.taxis,
      (v.update_position t).2 = TaxiEntity.UpdateResult.changed e := by
  rw [FleetManager.update_taxis_position_spec]
  intro e he
  rcases List.mem_filterMap.mp he with ⟨v, hv, hev⟩
  refine ⟨v, hv, ?_⟩
  cases h2 : (v.update_position t).2 with
  | notMoving => simp [TaxiEntity.eventOf, h2] at hev
  | noEvent => simp [TaxiEntity.eventOf, h2] at hev
  | changed e' =>
    simp [TaxiEntity.eventOf, h2] at hev
    rw [hev]

theorem events_oid_nodup (fm : FleetManager) (t : Int)
    (hheld : (heldOrders fm).Nodup) :
    (((fm.update_taxis_position t).2).filterMap (fun e => e.oid)).Nodup := by
  rw [FleetManager.update_taxis_position_spec]
  rw [List.filterMap_filterMap]
  refine List.Nodup.sublist (filterMap_sublist _ _ _ ?_) hheld
  intro v _
  exact TaxiEntity.eventOf_oid_cases v t

theorem holder_unique (fm : FleetManager) (hheld : (heldOrders fm).Nodup)
    (v w : TaxiEntity) (hv : v ∈ fm.taxis) (hw : w ∈ fm.taxis) (oid : Nat)
    (hvo : v.current_order = some oid) (hwo : w.current_order = some oid) :
    v = w :=
  filterMap_nodup_inj fm.taxis (fun v => v.current_order) hheld v hv w hw oid
    hvo hwo

theorem events_disjoint (fm : FleetManager) (t : Int)
    (hheld : (heldOrders fm).Nodup) (v : TaxiEntity) (hv : v ∈ fm.taxis)
    (oid : Nat) (hvo : v.current_order = some oid) :
    ∀ e ∈ (fm.update_taxis_position t).2, e.oid = some oid →
      (v.update_position t).2 = TaxiEntity.UpdateResult.changed e := by
  intro e he hoid
  rcases events_sound fm t e he with ⟨w, hw, hwev⟩
  have hw_oid : e.oid = w.current_order := (TaxiEntity.up_event_shape w t e hwev).1
  have hwo : w.current_order = some oid := by rw [← hw_oid, hoid]
  have hvw : v = w := holder_unique fm hheld v w hv hw oid hvo hwo
  rw [hvw]
  exact hwev

theorem mem_updated_taxis (fm : FleetManager) (t : Int) (v' : TaxiEntity)
    (h : v' ∈ (fm.update_taxis_position t).1.taxis) :
    ∃ v ∈ fm.taxis, (v.update_position t).1 = v' := by
  rw [FleetManager.update_taxis_position_spec] at h
  rcases List.mem_map.mp h with ⟨v, hv, hq⟩
  exact ⟨v, hv, hq⟩

theorem phaseA_ordersLe (fm : FleetManager) (om : OrderManager) (t : Int)
    (hheld : (heldOrders fm).Nodup)
    (h4 : ∀ v ∈ fm.taxis, v.status = TaxiStatus.enroute_pickup →
      ∃ oid, v.current_order = some oid ∧
        ∀ o ∈ om.orders, o.order_id = oid → o.status = OrderStatus.assigned)
    (h5 : ∀ v ∈ fm.taxis, v.status = TaxiStatus.occupied →
      ∃ oid, v.current_order = some oid ∧
        ∀ o ∈ om.orders, o.order_id = oid → o.status = OrderStatus.picked_up) :
    ordersLe om (om.change_orders_status (fm.update_taxis_position t).2) := by
  have hes := events_oid_nodup fm t hheld
  unfold ordersLe
  rw [OrderManager.change_orders_status_eq_map]
  apply ordersLe_map
  intro o ho
  rcases OrderManager.applyEventsTo_single o ((fm.update_taxis_position t).2)
      hes with h | ⟨e, he, hid, heq⟩
  · rw [h]; exact statusLe_refl o.status
  · rw [heq, OrderManager.applyEvent_status_touched e o hid.symm]
    rcases events_sound fm t e he with ⟨v, hv, hvev⟩
    rcases TaxiEntity.up_event_shape v t e hvev with ⟨hoid, hcase⟩
    rcases hcase with ⟨hst, hen⟩ | ⟨hst, hdisj⟩
    · rcases h4 v hv hen with ⟨oid2, hvo, hall⟩
      have hoo : o.order_id = oid2 := by
        have : some o.order_id = some oid2 := by rw [← hid, hoid, hvo]
        exact Option.some_inj.mp this
      rw [hall o ho hoo, hst]
      decide
    · rcases hdisj with hen | hocc
      · rcases h4 v hv hen with ⟨oid2, hvo, hall⟩
        have hoo : o.order_id = oid2 := by
          have : some o.order_id = some oid2 := by rw [← hid, hoid, hvo]
          exact Option.some_inj.mp this
        rw [hall o ho hoo, hst]
        decide
      · rcases h5 v hv hocc with ⟨oid2, hvo, hall⟩
        have hoo : o.order_id = oid2 := by
          have : some o.order_id = some oid2 := by rw [← hid, hoid, hvo]
          exact Option.some_inj.mp this
        rw [hall o ho hoo, hst]
        decide

theorem phaseA_inv (fm : FleetManager) (om : OrderManager) (t : Int)
    (h1 : (om.orders.map (fun o => o.order_id)).Nodup)
    (h2 : (fm.taxis.map (fun v => v.taxi_id)).Nodup)
    (h3 : ∀ v ∈ fm.taxis,
      v.status = TaxiStatus.idle ∨ v.status = TaxiStatus.repositioning →
      v.current_order = none)
    (h4 : ∀ v ∈ fm.taxis, v.status = TaxiStatus.enroute_pickup →
      ∃ oid, v.current_order = some oid ∧
        ∀ o ∈ om.orders, o.order_id = oid → o.status = OrderStatus.assigned)
    (h5 : ∀ v ∈ fm.taxis, v.status = TaxiStatus.occupied →
      ∃ oid, v.current_order = some oid ∧
        ∀ o ∈ om.orders, o.order_id = oid → o.status = OrderStatus.picked_up)
    (h6 : (heldOrders fm).Nodup) :
    (((om.change_orders_status (fm.update_taxis_position t).2).orders.map
        (fun o => o.order_id)).Nodup) ∧
    (((fm.update_taxis_position t).1.taxis.map (fun v => v.taxi_id)).Nodup) ∧
    (∀ v ∈ (fm.update_taxis_position t).1.taxis,
      v.status = TaxiStatus.idle ∨ v.status = TaxiStatus.repositioning →
      v.current_order = none) ∧
    (∀ v ∈ (fm.update_taxis_position t).1.taxis,
      v.status = TaxiStatus.enroute_pickup →
      ∃ oid, v.current_order = some oid ∧
        ∀ o ∈ (om.change_orders_status (fm.update_taxis_position t).2).orders,
          o.order_id = oid → o.status = OrderStatus.assigned) ∧
    (∀ v ∈ (fm.update_taxis_position t).1.taxis,
      v.status = TaxiStatus.occupied →
      ∃ oid, v.current_order = some oid ∧
        ∀ o ∈ (om.change_orders_status (fm.update_taxis_position t).2).orders,
          o.order_id = oid → o.status = OrderStatus.picked_up) ∧
    ((heldOrders (fm.update_taxis_position t).1).Nodup) := by
  have hes := events_oid_nodup fm t h6
  refine ⟨?_, ?_, ?_, ?_, ?_, ?_⟩
  · rw [OrderManager.change_orders_status_eq_map, List.map_map]
    have hcong : om.orders.map
        ((fun o => o.order_id) ∘ (fun o =>
          OrderManager.applyEventsTo o (fm.update_taxis_position t).2)) =
        om.orders.map (fun o => o.order_id) :=
      List.map_congr_left (fun o _ =>
        OrderManager.applyEventsTo_order_id o (fm.update_taxis_position t).2)
    rw [hcong]
    exact h1
  · rw [FleetManager.update_taxis_position_spec]
    rw [List.map_map]
    have hcong : fm.taxis.map
        ((fun v => v.taxi_id) ∘ (fun v => (v.update_position t).1)) =
        fm.taxis.map (fun v => v.taxi_id) :=
      List.map_congr_left (fun v _ => TaxiEntity.up_taxi_id v t)
    rw [hcong]
    exact h2
  · rw [FleetManager.update_taxis_position_spec]
    intro v' hv' hst
    rcases List.mem_map.mp hv' with ⟨v, hv, rfl⟩
    rcases TaxiEntity.up_idle_char v t hst with h | ⟨ho, hvi⟩
    · exact h
    · rw [ho]
      exact h3 v hv hvi
  · intro v' hv' hst
    rcases mem_updated_taxis fm t v' hv' with ⟨v, hv, rfl⟩
    rcases TaxiEntity.up_enroute_char v t hst with ⟨hen, ho, hnoev⟩
    rcases h4 v hv hen with ⟨oid, hvo, hall⟩
    refine ⟨oid, by rw [ho, hvo], ?_⟩
    rw [OrderManager.change_orders_status_eq_map]
    intro o' ho' hid
    rcases List.mem_map.mp ho' with ⟨o, ho2, rfl⟩
    have hoid : o.order_id = oid := by
      rw [← OrderManager.applyEventsTo_order_id o (fm.update_taxis_position t).2]
      exact hid
    have hno : ∀ e ∈ (fm.update_taxis_position t).2, e.oid ≠ some o.order_id := by
      intro e he hcon
      refine hnoev e ?_
      refine events_disjoint fm t h6 v hv oid hvo e he ?_
      rw [hcon, hoid]
    rw [OrderManager.applyEventsTo_untouched o _ hno]
    exact hall o ho2 hoid
  · intro v' hv' hst
    rcases mem_updated_taxis fm t v' hv' with ⟨v, hv, rfl⟩
    rcases TaxiEntity.up_occupied_char v t hst with ⟨ho, hcase⟩
    rcases hcase with ⟨hocc, hnoev⟩ | ⟨hen, τ, hev⟩
    · rcases h5 v hv hocc with ⟨oid, hvo, hall⟩
      refine ⟨oid, by rw [ho, hvo], ?_⟩
      rw [OrderManager.change_orders_status_eq_map]
      intro o' ho' hid
      rcases List.mem_map.mp ho' with ⟨o, ho2, rfl⟩
      have hoid : o.order_id = oid := by
        rw [← OrderManager.applyEventsTo_order_id o (fm.update_taxis_position t).2]
        exact hid
      have hno : ∀ e ∈ (fm.update_taxis_position t).2, e.oid ≠ some o.order_id := by
        intro e he hcon
        refine hnoev e ?_
        refine events_disjoint fm t h6 v hv oid hvo e he ?_
        rw [hcon, hoid]
      rw [OrderManager.applyEventsTo_untouched o _ hno]
      exact hall o ho2 hoid
    · rcases h4 v hv hen with ⟨oid, hvo, _⟩
      refine ⟨oid, by rw [ho, hvo], ?_⟩
      rw [OrderManager.change_orders_status_eq_map]
      intro o' ho' hid
      rcases List.mem_map.mp ho' with ⟨o, ho2, rfl⟩
      have hoid : o.order_id = oid := by
        rw [← OrderManager.applyEventsTo_order_id o (fm.update_taxis_position t).2]
        exact hid
      have he0mem : (⟨v.current_order, OrderStatus.picked_up, τ⟩ : OrderEvent) ∈
          (fm.update_taxis_position t).2 := by
        rw [FleetManager.update_taxis_position_spec]
        exact List.mem_filterMap.mpr ⟨v, hv, by simp [TaxiEntity.eventOf, hev]⟩
      refine Eq.trans ?_ (rfl : OrderStatus.picked_up = OrderStatus.picked_up)
      refine OrderManager.applyEventsTo_hits o _ OrderStatus.picked_up ?_ ?_
      · refine ⟨⟨v.current_order, OrderStatus.picked_up, τ⟩, he0mem, ?_⟩
        rw [hvo, hoid]
      · intro e he hcon
        have := events_disjoint fm t h6 v hv oid hvo e he (by rw [hcon, hoid])
        have heq : TaxiEntity.UpdateResult.changed
            (⟨v.current_order, OrderStatus.picked_up, τ⟩ : OrderEvent) =
            TaxiEntity.UpdateResult.changed e := by rw [← hev, this]
        have := TaxiEntity.UpdateResult.changed.inj heq
        rw [← this]
  · have hsub : List.Sublist (heldOrders (fm.update_taxis_position t).1)
        (heldOrders fm) := by
      unfold heldOrders
      rw [FleetManager.update_taxis_position_spec]
      rw [List.filterMap_map]
      refine filterMap_sublist _ _ _ ?_
      intro v _
      rcases TaxiEntity.up_order_cases v t with h | h
      · exact Or.inr h
      · exact Or.inl h
    exact List.Nodup.sublist hsub h6

namespace OrderManager

theorem get_waiting_orders_sndOrders (m : OrderManager) (t : Int) :
    (m.get_waiting_orders t).2.orders = m.orders.map
      (fun o => if isWaitingAt t o then cancelIfTimedOut m.waiting_threshold t o
        else o) := rfl

theorem gwo_point_id (m : OrderManager) (t : Int) (o : OrderEntity) :
    ((if isWaitingAt t o then cancelIfTimedOut m.waiting_threshold t o
      else o)).order_id = o.order_id := by
  by_cases hw : isWaitingAt t o
  · rw [if_pos hw]
    unfold cancelIfTimedOut
    split <;> rfl
  · rw [if_neg hw]

theorem isWaitingAt_status (t : Int) (o : OrderEntity)
    (h : isWaitingAt t o = true) : o.status = OrderStatus.waiting := by
  unfold isWaitingAt at h
  simp only [Bool.and_eq_true, decide_eq_true_eq] at h
  exact h.1

theorem waiting_ordersLe (m : OrderManager) (t : Int) :
    ordersLe m (m.get_waiting_orders t).2 := by
  unfold ordersLe
  rw [get_waiting_orders_sndOrders]
  apply ordersLe_map
  intro o _
  by_cases hw : isWaitingAt t o
  · rw [if_pos hw]
    unfold cancelIfTimedOut
    by_cases hc : t - o.request_time > m.waiting_threshold
    · rw [if_pos hc]
      rw [isWaitingAt_status t o hw]
      show statusLe OrderStatus.waiting OrderStatus.cancelled = true
      decide
    · rw [if_neg hc]
      exact statusLe_refl o.status
  · rw [if_neg hw]
    exact statusLe_refl o.status

theorem waiting_ids (m : OrderManager) (t : Int) :
    (m.get_waiting_orders t).2.orders.map (fun o => o.order_id) =
    m.orders.map (fun o => o.order_id) := by
  rw [get_waiting_orders_sndOrders, List.map_map]
  apply List.map_congr_left
  intro o _
  exact gwo_point_id m t o

theorem waiting_keeps (m : OrderManager) (t : Int) (oid : Nat)
    (st0 : OrderStatus) (hst0 : st0 ≠ OrderStatus.waiting)
    (hall : ∀ o ∈ m.orders, o.order_id = oid → o.status = st0) :
    ∀ o' ∈ (m.get_waiting_orders t).2.orders, o'.order_id = oid →
      o'.status = st0 := by
  rw [get_waiting_orders_sndOrders]
  intro o' ho' hid
  rcases List.mem_map.mp ho' with ⟨o, ho, rfl⟩
  rw [gwo_point_id m t o] at hid
  by_cases hw : isWaitingAt t o
  · exfalso
    have h1 := isWaitingAt_status t o hw
    have h2 := hall o ho hid
    rw [h1] at h2
    exact hst0 h2.symm
  · rw [if_neg hw]
    exact hall o ho hid

theorem waiting_returned (m : OrderManager) (t : Int) :
    ∀ w ∈ (m.get_waiting_orders t).1,
      w.status = OrderStatus.waiting ∧ w ∈ (m.get_waiting_orders t).2.orders := by
  intro w hw
  have h1 : (m.get_waiting_orders t).1 =
      ((m.orders.filter (isWaitingAt t)).map
        (cancelIfTimedOut m.waiting_threshold t)).filter
          (fun o => o.status = OrderStatus.waiting) := rfl
  rw [h1] at hw
  have hst := List.of_mem_filter hw
  simp only [decide_eq_true_eq] at hst
  have hw2 := List.mem_of_mem_filter hw
  rcases List.mem_map.mp hw2 with ⟨o, ho2, rfl⟩
  have ho3 := List.mem_of_mem_filter ho2
  have hwo := List.of_mem_filter ho2
  refine ⟨hst, ?_⟩
  rw [get_waiting_orders_sndOrders]
  exact List.mem_map.mpr ⟨o, ho3, by rw [if_pos hwo]⟩

end OrderManager

theorem nodup_concat_of {α : Type _} (l : List α) (x : α) (h : l.Nodup)
    (hx : x ∉ l) : (l ++ [x]).Nodup := by
  rw [List.nodup_append]
  refine ⟨h, List.nodup_singleton x, ?_⟩
  intro a ha hax
  rw [List.mem_singleton] at hax
  rw [hax] at ha
  exact hx ha

namespace TaxiMatchingStrategy

theorem qualifying_not_assigned (cm : CostMatrix) (assigned : List Nat)
    (oid : Nat) (p : Nat × WithTop Nat)
    (hp : p ∈ qualifyingTaxis cm assigned oid) : p.1 ∉ assigned := by
  rcases List.mem_filterMap.mp hp with ⟨e, _, hfe⟩
  by_cases h1 : e.1 ∈ assigned
  · simp [h1] at hfe
  · cases h2 : rowFind e.2 oid with
    | none => simp [h1, h2] at hfe
    | some c =>
      by_cases h3 : c ≤ MAX_TRAVEL_TIME
      · simp only [h1, if_false, h2, h3, if_true, Option.some_inj] at hfe
        rw [← hfe]
        exact h1
      · simp [h1, h2, h3] at hfe

theorem findBestTaxi_unassigned (cm : CostMatrix) (assigned : List Nat)
    (oid tid : Nat) (h : (findBestTaxi cm assigned oid).1 = some tid) :
    tid ∉ assigned := by
  rw [findBestTaxi_eq_firstMin] at h
  unfold firstMinTaxi at h
  cases hf : (qualifyingTaxis cm assigned oid).find?
      (fun p => p.2 = minCost (qualifyingTaxis cm assigned oid)) with
  | none => rw [hf] at h; simp at h
  | some q =>
    rw [hf] at h
    simp only [Option.map_some', Option.some_inj] at h
    have hq : q ∈ qualifyingTaxis cm assigned oid := List.mem_of_find?_eq_some hf
    rw [← h]
    exact qualifying_not_assigned cm assigned oid q hq

theorem nearestStep_props (cm : CostMatrix) (acc : MatchAcc) (oid : Nat)
    (h1 : ∀ p ∈ acc.2.2, p.1 ∈ acc.1)
    (h2 : ∀ p ∈ acc.2.2, p.2 ∈ acc.2.1)
    (h3 : ((acc.2.2).map Prod.fst).Nodup)
    (h4 : ((acc.2.2).map Prod.snd).Nodup) :
    (∀ p ∈ (nearestStep cm acc oid).2.2, p.1 ∈ (nearestStep cm acc oid).1) ∧
    (∀ p ∈ (nearestStep cm acc oid).2.2, p.2 ∈ (nearestStep cm acc oid).2.1) ∧
    (((nearestStep cm acc oid).2.2).map Prod.fst).Nodup ∧
    (((nearestStep cm acc oid).2.2).map Prod.snd).Nodup := by
  unfold nearestStep
  by_cases hin : oid ∈ acc.2.1
  · rw [if_pos hin]
    exact ⟨h1, h2, h3, h4⟩
  · rw [if_neg hin]
    split
    next tid hfb =>
      split
      next h0 =>
        refine ⟨?_, ?_, ?_, ?_⟩
        · intro p hp
          rcases List.mem_append.mp hp with hp1 | hp1
          · exact List.mem_cons_of_mem _ (h1 p hp1)
          · rw [List.mem_singleton] at hp1
            rw [hp1]
            exact List.mem_cons_self _ _
        · intro p hp
          rcases List.mem_append.mp hp with hp1 | hp1
          · exact List.mem_cons_of_mem _ (h2 p hp1)
          · rw [List.mem_singleton] at hp1
            rw [hp1]
            exact List.mem_cons_self _ _
        · rw [List.map_append]
          refine nodup_concat_of _ tid h3 ?_
          intro hmem
          rcases List.mem_map.mp hmem with ⟨p, hp, hp1⟩
          have := h1 p hp
          rw [hp1] at this
          exact findBestTaxi_unassigned cm acc.1 oid tid hfb this
        · rw [List.map_append]
          refine nodup_concat_of _ oid h4 ?_
          intro hmem
          rcases List.mem_map.mp hmem with ⟨p, hp, hp1⟩
          have := h2 p hp
          rw [hp1] at this
          exact hin this
      next => exact ⟨h1, h2, h3, h4⟩
    next => exact ⟨h1, h2, h3, h4⟩

theorem nearestFold_props (cm : CostMatrix) (oids : List Nat) (acc : MatchAcc)
    (h1 : ∀ p ∈ acc.2.2, p.1 ∈ acc.1)
    (h2 : ∀ p ∈ acc.2.2, p.2 ∈ acc.2.1)
    (h3 : ((acc.2.2).map Prod.fst).Nodup)
    (h4 : ((acc.2.2).map Prod.snd).Nodup) :
    (∀ p ∈ (oids.foldl (nearestStep cm) acc).2.2,
      p.1 ∈ (oids.foldl (nearestStep cm) acc).1) ∧
    (∀ p ∈ (oids.foldl (nearestStep cm) acc).2.2,
      p.2 ∈ (oids.foldl (nearestStep cm) acc).2.1) ∧
    (((oids.foldl (nearestStep cm) acc).2.2).map Prod.fst).Nodup ∧
    (((oids.foldl (nearestStep cm) acc).2.2).map Prod.snd).Nodup := by
  induction oids generalizing acc with
  | nil => exact ⟨h1, h2, h3, h4⟩
  | cons oid rest ih =>
    have hstep := nearestStep_props cm acc oid h1 h2 h3 h4
    exact ih (nearestStep cm acc oid) hstep.1 hstep.2.1 hstep.2.2.1 hstep.2.2.2

theorem nearest_matching_nodup (cm : CostMatrix) :
    ((nearest_matching cm).map Prod.fst).Nodup ∧
    ((nearest_matching cm).map Prod.snd).Nodup := by
  cases cm with
  | nil => exact ⟨List.nodup_nil, List.nodup_nil⟩
  | cons first rest =>
    by_cases h : first.2 = []
    · have hkey : nearest_matching (first :: rest) = [] := by
        simp [nearest_matching, h]
      rw [hkey]
      exact ⟨List.nodup_nil, List.nodup_nil⟩
    · have hkey : nearest_matching (first :: rest) =
          ((first.2.map Prod.fst).foldl (nearestStep (first :: rest))
            ([], [], [])).2.2 := by
        simp [nearest_matching, h]
      rw [hkey]
      have hprops := nearestFold_props (first :: rest) (first.2.map Prod.fst)
        ([], [], []) (fun p hp => absurd hp (List.not_mem_nil p))
        (fun p hp => absurd hp (List.not_mem_nil p)) List.nodup_nil
        List.nodup_nil
      exact ⟨hprops.2.2.1, hprops.2.2.2⟩

theorem findOrderFor_props (cm : CostMatrix) (tid : Nat) (assigned : List Nat)
    (ops : List Nat) (oid : Nat)
    (h : findOrderFor cm tid assigned ops = some oid) :
    oid ∉ assigned ∧ ∃ c, cmEntry cm tid oid = some c := by
  induction ops with
  | nil => cases h
  | cons o rest ih =>
    unfold findOrderFor at h
    by_cases h1 : o ∈ assigned
    · rw [if_pos h1] at h
      exact ih h
    · rw [if_neg h1] at h
      cases h2 : cmEntry cm tid o with
      | none => rw [h2] at h; exact ih h
      | some c =>
        rw [h2] at h
        have := Option.some_inj.mp h
        rw [← this]
        exact ⟨h1, c, h2⟩

theorem randomStep_props (cm : CostMatrix) (op : List Nat) (acc : MatchAcc)
    (tid : Nat)
    (h1 : ∀ p ∈ acc.2.2, p.1 ∈ acc.1)
    (h2 : ∀ p ∈ acc.2.2, p.2 ∈ acc.2.1)
    (h3 : ((acc.2.2).map Prod.fst).Nodup)
    (h4 : ((acc.2.2).map Prod.snd).Nodup)
    (h5 : ∀ p ∈ acc.2.2, ∃ c, cmEntry cm p.1 p.2 = some c) :
    (∀ p ∈ (randomStep cm op acc tid).2.2, p.1 ∈ (randomStep cm op acc tid).1) ∧
    (∀ p ∈ (randomStep cm op acc tid).2.2,
      p.2 ∈ (randomStep cm op acc tid).2.1) ∧
    (((randomStep cm op acc tid).2.2).map Prod.fst).Nodup ∧
    (((randomStep cm op acc tid).2.2).map Prod.snd).Nodup ∧
    (∀ p ∈ (randomStep cm op acc tid).2.2,
      ∃ c, cmEntry cm p.1 p.2 = some c) := by
  unfold randomStep
  by_cases hin : tid ∈ acc.1
  · rw [if_pos hin]
    exact ⟨h1, h2, h3, h4, h5⟩
  · rw [if_neg hin]
    split
    next oid hfo =>
      have hprops := findOrderFor_props cm tid acc.2.1 op oid hfo
      refine ⟨?_, ?_, ?_, ?_, ?_⟩
      · intro p hp
        rcases List.mem_append.mp hp with hp1 | hp1
        · exact List.mem_cons_of_mem _ (h1 p hp1)
        · rw [List.mem_singleton] at hp1
          rw [hp1]
          exact List.mem_cons_self _ _
      · intro p hp
        rcases List.mem_append.mp hp with hp1 | hp1
        · exact List.mem_cons_of_mem _ (h2 p hp1)
        · rw [List.mem_singleton] at hp1
          rw [hp1]
          exact List.mem_cons_self _ _
      · rw [List.map_append]
        refine nodup_concat_of _ tid h3 ?_
        intro hmem
        rcases List.mem_map.mp hmem with ⟨p, hp, hp1⟩
        have := h1 p hp
        rw [hp1] at this
        exact hin this
      · rw [List.map_append]
        refine nodup_concat_of _ oid h4 ?_
        intro hmem
        rcases List.mem_map.mp hmem with ⟨p, hp, hp1⟩
        have := h2 p hp
        rw [hp1] at this
        exact hprops.1 this
      · intro p hp
        rcases List.mem_append.mp hp with hp1 | hp1
        · exact h5 p hp1
        · rw [List.mem_singleton] at hp1
          rw [hp1]
          exact hprops.2
    next => exact ⟨h1, h2, h3, h4, h5⟩

theorem randomFold_props (cm : CostMatrix) (op : List Nat) (tps : List Nat)
    (acc : MatchAcc)
    (h1 : ∀ p ∈ acc.2.2, p.1 ∈ acc.1)
    (h2 : ∀ p ∈ acc.2.2, p.2 ∈ acc.2.1)
    (h3 : ((acc.2.2).map Prod.fst).Nodup)
    (h4 : ((acc.2.2).map Prod.snd).Nodup)
    (h5 : ∀ p ∈ acc.2.2, ∃ c, cmEntry cm p.1 p.2 = some c) :
    (∀ p ∈ (tps.foldl (randomStep cm op) acc).2.2,
      p.1 ∈ (tps.foldl (randomStep cm op) acc).1) ∧
    (∀ p ∈ (tps.foldl (randomStep cm op) acc).2.2,
      p.2 ∈ (tps.foldl (randomStep cm op) acc).2.1) ∧
    (((tps.foldl (randomStep cm op) acc).2.2).map Prod.fst).Nodup ∧
    (((tps.foldl (randomStep cm op) acc).2.2).map Prod.snd).Nodup ∧
    (∀ p ∈ (tps.foldl (randomStep cm op) acc).2.2,
      ∃ c, cmEntry cm p.1 p.2 = some c) := by
  induction tps generalizing acc with
  | nil => exact ⟨h1, h2, h3, h4, h5⟩
  | cons tid rest ih =>
    have hstep := randomStep_props cm op acc tid h1 h2 h3 h4 h5
    exact ih (randomStep cm op acc tid) hstep.1 hstep.2.1 hstep.2.2.1
      hstep.2.2.2.1 hstep.2.2.2.2

theorem random_matching_props (cm : CostMatrix) (tp op : List Nat) :
    ((random_matching cm tp op).map Prod.fst).Nodup ∧
    ((random_matching cm tp op).map Prod.snd).Nodup ∧
    ∀ p ∈ random_matching cm tp op, ∃ c, cmEntry cm p.1 p.2 = some c := by
  unfold random_matching
  by_cases h1 : cm = []
  · rw [if_pos h1]
    exact ⟨List.nodup_nil, List.nodup_nil,
      fun p hp => absurd hp (List.not_mem_nil p)⟩
  · rw [if_neg h1]
    by_cases h2 : op = []
    · rw [if_pos h2]
      exact ⟨List.nodup_nil, List.nodup_nil,
        fun p hp => absurd hp (List.not_mem_nil p)⟩
    · rw [if_neg h2]
      have hprops := randomFold_props cm op tp ([], [], [])
        (fun p hp => absurd hp (List.not_mem_nil p))
        (fun p hp => absurd hp (List.not_mem_nil p)) List.nodup_nil
        List.nodup_nil (fun p hp => absurd hp (List.not_mem_nil p))
      exact ⟨hprops.2.2.1, hprops.2.2.2.1, hprops.2.2.2.2⟩

theorem cmEntry_row (cm : CostMatrix) (tid oid : Nat) (c : WithTop Nat)
    (h : cmEntry cm tid oid = some c) :
    ∃ row, (tid, row) ∈ cm ∧ rowFind row oid = some c := by
  unfold cmEntry cmRow at h
  cases hf : cm.find? (fun p => p.1 = tid) with
  | none => rw [hf] at h; cases h
  | some q =>
    rw [hf] at h
    simp only [Option.map_some', Option.some_bind] at h
    have hq : q ∈ cm := List.mem_of_find?_eq_some hf
    have hq1 := List.find?_some hf
    simp only [decide_eq_true_eq] at hq1
    refine ⟨q.2, ?_, h⟩
    rw [← hq1, Prod.mk.eta]
    exact hq

end TaxiMatchingStrategy

theorem matches_props (mc : MatchChoice) (cm : CostMatrix) :
    ((MatchChoice.matches mc cm).map Prod.fst).Nodup ∧
    ((MatchChoice.matches mc cm).map Prod.snd).Nodup ∧
    ∀ p ∈ MatchChoice.matches mc cm,
      ∃ row c, (p.1, row) ∈ cm ∧
        rowFind row p.2 = some c := by
  cases mc with
  | nearestPick =>
    obtain ⟨hf, hs⟩ := TaxiMatchingStrategy.nearest_matching_nodup cm
    refine ⟨hf, hs, ?_⟩
    intro p hp
    rcases TaxiMatchingStrategy.nearest_matches_sound cm p hp
      with ⟨_, row, c, hrow, hfind, _⟩
    exact ⟨row, c, hrow, hfind⟩
  | batchPick =>
    obtain ⟨hf, hs⟩ := TaxiMatchingStrategy.nearest_matching_nodup cm
    refine ⟨hf, hs, ?_⟩
    intro p hp
    rcases TaxiMatchingStrategy.nearest_matches_sound cm p hp
      with ⟨_, row, c, hrow, hfind, _⟩
    exact ⟨row, c, hrow, hfind⟩
  | randomPick tp op =>
    obtain ⟨hf, hs, hrow⟩ := TaxiMatchingStrategy.random_matching_props cm tp op
    refine ⟨hf, hs, ?_⟩
    intro p hp
    rcases hrow p hp with ⟨c, hc⟩
    rcases TaxiMatchingStrategy.cmEntry_row cm p.1 p.2 c hc with ⟨row, h1, h2⟩
    exact ⟨row, c, h1, h2⟩

theorem build_row_inv (g : RoadGraph) (idle : List TaxiEntity)
    (waiting : List OrderEntity) (tid : Nat) (row : CostRow)
    (h : (tid, row) ∈ build_cost_matrix g idle waiting) :
    row.map Prod.fst = waiting.map (fun o => o.order_id) := by
  unfold build_cost_matrix at h
  rcases List.mem_map.mp h with ⟨v, _, heq⟩
  rw [Prod.mk.injEq] at heq
  rw [← heq.2, List.map_map]
  rfl

theorem rowFind_key_mem (row : CostRow) (oid : Nat)
    (c : WithTop Nat) (h : rowFind row oid = some c) :
    oid ∈ row.map Prod.fst := by
  unfold rowFind at h
  cases hf : row.find? (fun p => p.1 = oid) with
  | none => rw [hf] at h; cases h
  | some q =>
    have hq : q ∈ row := List.mem_of_find?_eq_some hf
    have hq1 := List.find?_some hf
    simp only [decide_eq_true_eq] at hq1
    exact List.mem_map.mpr ⟨q, hq, hq1⟩

theorem matches_spec (g : RoadGraph) (idle : List TaxiEntity)
    (waiting : List OrderEntity) (mc : MatchChoice) :
    ((MatchChoice.matches mc (build_cost_matrix g idle waiting)).map
      Prod.snd).Nodup ∧
    ∀ p ∈ MatchChoice.matches mc (build_cost_matrix g idle waiting),
      ∃ o ∈ waiting, o.order_id = p.2 := by
  obtain ⟨_, hs, hrow⟩ := matches_props mc (build_cost_matrix g idle waiting)
  refine ⟨hs, ?_⟩
  intro p hp
  rcases hrow p hp with ⟨row, c, hrowmem, hfindc⟩
  have hkeys := build_row_inv g idle waiting p.1 row hrowmem
  have hmem := rowFind_key_mem row p.2 c hfindc
  rw [hkeys] at hmem
  rcases List.mem_map.mp hmem with ⟨o, ho, hid⟩
  exact ⟨o, ho, hid⟩

namespace OrderManager

theorem assign_point_id (order_id taxi_id : Nat) (t : Int) (o : OrderEntity) :
    ((if o.order_id = order_id ∧ o.status = OrderStatus.waiting then
      { o with
        status := OrderStatus.assigned
        assigned_taxi := some taxi_id
        assigned_time := some t }
    else o)).order_id = o.order_id := by
  split <;> rfl

theorem assign_order_ordersLe (m : OrderManager) (oid tid : Nat) (t : Int) :
    ordersLe m (m.assign_order oid tid t) := by
  unfold ordersLe assign_order
  apply ordersLe_map
  intro o _
  by_cases hg : o.order_id = oid ∧ o.status = OrderStatus.waiting
  · rw [if_pos hg, hg.2]
    show statusLe OrderStatus.waiting OrderStatus.assigned = true
    decide
  · rw [if_neg hg]
    exact statusLe_refl o.status

theorem assign_order_ids (m : OrderManager) (oid tid : Nat) (t : Int) :
    (m.assign_order oid tid t).orders.map (fun o => o.order_id) =
    m.orders.map (fun o => o.order_id) := by
  unfold assign_order
  rw [List.map_map]
  apply List.map_congr_left
  intro o _
  exact assign_point_id oid tid t o

theorem assign_order_keeps (m : OrderManager) (oid tid : Nat) (t : Int)
    (oid2 : Nat) (st0 : OrderStatus) (hst0 : st0 ≠ OrderStatus.waiting)
    (hall : ∀ o ∈ m.orders, o.order_id = oid2 → o.status = st0) :
    ∀ o' ∈ (m.assign_order oid tid t).orders, o'.order_id = oid2 →
      o'.status = st0 := by
  unfold assign_order
  intro o' ho' hid
  rcases List.mem_map.mp ho' with ⟨o, ho, rfl⟩
  rw [assign_point_id oid tid t o] at hid
  by_cases hg : o.order_id = oid ∧ o.status = OrderStatus.waiting
  · exfalso
    have := hall o ho hid
    rw [hg.2] at this
    exact hst0 this.symm
  · rw [if_neg hg]
    exact hall o ho hid

theorem assign_order_sets (m : OrderManager) (oid tid : Nat) (t : Int)
    (hdup : (m.orders.map (fun o => o.order_id)).Nodup)
    (hwit : ∃ o ∈ m.orders, o.order_id = oid ∧ o.status = OrderStatus.waiting) :
    ∀ o' ∈ (m.assign_order oid tid t).orders, o'.order_id = oid →
      o'.status = OrderStatus.assigned := by
  unfold assign_order
  intro o' ho' hid
  rcases List.mem_map.mp ho' with ⟨o, ho, rfl⟩
  rw [assign_point_id oid tid t o] at hid
  rcases hwit with ⟨w, hw, hwid, hwst⟩
  have how : o = w := by
    refine List.inj_on_of_nodup_map hdup ho hw ?_
    rw [hid, hwid]
  have hg : o.order_id = oid ∧ o.status = OrderStatus.waiting := by
    rw [how]
    exact ⟨hwid, hwst⟩
  rw [if_pos hg]

theorem assign_order_wit_keep (m : OrderManager) (oid tid : Nat) (t : Int)
    (oid2 : Nat) (hne : oid2 ≠ oid)
    (hwit : ∃ o ∈ m.orders, o.order_id = oid2 ∧ o.status = OrderStatus.waiting) :
    ∃ o ∈ (m.assign_order oid tid t).orders,
      o.order_id = oid2 ∧ o.status = OrderStatus.waiting := by
  rcases hwit with ⟨w, hw, hwid, hwst⟩
  unfold assign_order
  have hg : ¬ (w.order_id = oid ∧ w.status = OrderStatus.waiting) := by
    intro hc
    rw [hwid] at hc
    exact hne hc.1
  refine ⟨w, ?_, hwid, hwst⟩
  refine List.mem_map.mpr ⟨w, hw, ?_⟩
  rw [if_neg hg]

end OrderManager

namespace TaxiEntity

theorem assign_fail (v : TaxiEntity) (oid pickup : Nat)
    (route : List (Nat × Int)) (h : v.status ≠ TaxiStatus.idle) :
    (v.assign_order oid pickup route).2 = v := by
  unfold assign_order
  rw [if_pos h]

theorem assign_succeed (v : TaxiEntity) (oid pickup : Nat)
    (route : List (Nat × Int)) (h : v.status = TaxiStatus.idle) :
    (v.assign_order oid pickup route).2 = { v with
      status := TaxiStatus.enroute_pickup
      current_order := some oid
      current_destination := some pickup
      current_route := some route
      order_history := v.order_history ++ [oid]
      route_history := v.route_history ++ route } := by
  unfold assign_order
  rw [if_neg (by rw [h]; intro hc; exact hc rfl)]

theorem assign_taxi_id (v : TaxiEntity) (oid pickup : Nat)
    (route : List (Nat × Int)) :
    (v.assign_order oid pickup route).2.taxi_id = v.taxi_id := by
  unfold assign_order
  split <;> rfl

end TaxiEntity

theorem heldInsert {α : Type _} (idf : α → Nat) (ord : α → Option Nat)
    (f : α → α) (i0 x : Nat) (l : List α)
    (hids : (l.map idf).Nodup)
    (hdup : (l.filterMap ord).Nodup)
    (hx : ∀ a ∈ l, ord a ≠ some x)
    (hkeep : ∀ a ∈ l, idf a ≠ i0 → f a = a)
    (hset : ∀ a ∈ l, idf a = i0 →
      ord (f a) = ord a ∨ (ord a = none ∧ ord (f a) = some x)) :
    ((l.map f).filterMap ord).Nodup := by
  induction l with
  | nil => exact List.nodup_nil
  | cons a l ih =>
    have hids' : (l.map idf).Nodup := (List.nodup_cons.mp hids).2
    have hnotid : idf a ∉ l.map idf := (List.nodup_cons.mp hids).1
    have hdup0 : (l.filterMap ord).Nodup := by
      rw [List.filterMap_cons] at hdup
      cases hoa : ord a with
      | none => rw [hoa] at hdup; exact hdup
      | some y => rw [hoa] at hdup; exact hdup.of_cons
    rw [List.map_cons, List.filterMap_cons]
    by_cases hida : idf a = i0
    · have hrest : l.map f = l := by
        have : ∀ b ∈ l, f b = b := by
          intro b hb
          refine hkeep b (List.mem_cons_of_mem a hb) ?_
          intro hc
          exact hnotid (List.mem_map.mpr ⟨b, hb, by rw [hc, hida]⟩)
        calc l.map f = l.map id := List.map_congr_left this
        _ = l := List.map_id l
      rw [hrest]
      rcases hset a (List.mem_cons_self a l) hida with hsa | ⟨hsa1, hsa2⟩
      · rw [hsa]
        cases hoa : ord a with
        | none => exact hdup0
        | some y =>
          rw [List.nodup_cons]
          refine ⟨?_, hdup0⟩
          rw [List.filterMap_cons, hoa] at hdup
          exact (List.nodup_cons.mp hdup).1
      · rw [hsa2]
        rw [List.nodup_cons]
        refine ⟨?_, hdup0⟩
        intro hmem
        rcases List.mem_filterMap.mp hmem with ⟨b, hb, hob⟩
        exact hx b (List.mem_cons_of_mem a hb) hob
    · have hfa : f a = a := hkeep a (List.mem_cons_self a l) hida
      rw [hfa]
      have ihres := ih hids' hdup0
        (fun b hb => hx b (List.mem_cons_of_mem a hb))
        (fun b hb => hkeep b (List.mem_cons_of_mem a hb))
        (fun b hb => hset b (List.mem_cons_of_mem a hb))
      cases hoa : ord a with
      | none => exact ihres
      | some y =>
        rw [List.nodup_cons]
        refine ⟨?_, ihres⟩
        intro hmem
        rcases List.mem_filterMap.mp hmem with ⟨b', hb', hob'⟩
        rcases List.mem_map.mp hb' with ⟨b, hb, rfl⟩
        rw [List.filterMap_cons, hoa, List.nodup_cons] at hdup
        by_cases hidb : idf b = i0
        · rcases hset b (List.mem_cons_of_mem a hb) hidb with hsb | ⟨hsb1, hsb2⟩
          · rw [hsb] at hob'
            exact hdup.1 (List.mem_filterMap.mpr ⟨b, hb, hob'⟩)
          · rw [hsb2] at hob'
            have : y = x := Option.some_inj.mp hob'.symm
            rw [this] at hoa
            exact hx a (List.mem_cons_self a l) hoa
        · rw [hkeep b (List.mem_cons_of_mem a hb) hidb] at hob'
          exact hdup.1 (List.mem_filterMap.mpr ⟨b, hb, hob'⟩)

theorem get_order_id (m : OrderManager) (oid : Nat) (o : OrderEntity)
    (h : m.get_order oid = some o) : o.order_id = oid := by
  unfold OrderManager.get_order at h
  have := List.find?_some h
  simpa using this

theorem assign_point_cases (v : TaxiEntity) (tid oid pickup : Nat)
    (route : List (Nat × Int)) :
    (if v.taxi_id = tid then (v.assign_order oid pickup route).2 else v) = v ∨
    (v.status = TaxiStatus.idle ∧ v.taxi_id = tid ∧
      (if v.taxi_id = tid then (v.assign_order oid pickup route).2 else v) =
        { v with
          status := TaxiStatus.enroute_pickup
          current_order := some oid
          current_destination := some pickup
          current_route := some route
          order_history := v.order_history ++ [oid]
          route_history := v.route_history ++ route }) := by
  by_cases hid : v.taxi_id = tid
  · by_cases hst : v.status = TaxiStatus.idle
    · refine Or.inr ⟨hst, hid, ?_⟩
      rw [if_pos hid, TaxiEntity.assign_succeed v oid pickup route hst]
    · refine Or.inl ?_
      rw [if_pos hid, TaxiEntity.assign_fail v oid pickup route hst]
  · refine Or.inl ?_
    rw [if_neg hid]

theorem holder_not_waiting (s : SimState) (hInv : SimInv s) (x : Nat)
    (hwit : ∃ o ∈ s.order_manager.orders,
      o.order_id = x ∧ o.status = OrderStatus.waiting) :
    ∀ a ∈ s.fleet.taxis, a.current_order ≠ some x := by
  intro a ha hcon
  rcases hwit with ⟨w, hw, hwid, hwst⟩
  cases hst : a.status with
  | idle =>
    rw [hInv.idle_free a ha (Or.inl hst)] at hcon
    cases hcon
  | repositioning =>
    rw [hInv.idle_free a ha (Or.inr hst)] at hcon
    cases hcon
  | enroute_pickup =>
    rcases hInv.enroute_assigned a ha hst with ⟨oid2, hao, hall⟩
    rw [hao] at hcon
    have hx : oid2 = x := Option.some_inj.mp hcon
    have := hall w hw (by rw [hwid, hx])
    rw [hwst] at this
    cases this
  | occupied =>
    rcases hInv.occupied_picked a ha hst with ⟨oid2, hao, hall⟩
    rw [hao] at hcon
    have hx : oid2 = x := Option.some_inj.mp hcon
    have := hall w hw (by rw [hwid, hx])
    rw [hwst] at this
    cases this

theorem assign_pair_inv (s : SimState) (m : Nat × Nat) (pickup : Nat)
    (route : List (Nat × Int)) (hInv : SimInv s)
    (hwit : ∃ o ∈ s.order_manager.orders,
      o.order_id = m.2 ∧ o.status = OrderStatus.waiting) :
    SimInv { s with
      order_manager := s.order_manager.assign_order m.2 m.1 s.current_time
      fleet := s.fleet.assign_order_to_taxi m.1 m.2 pickup route } := by
  have hmem : ∀ v' ∈ (s.fleet.assign_order_to_taxi m.1 m.2 pickup route).taxis,
      ∃ v ∈ s.fleet.taxis,
        v' = (if v.taxi_id = m.1 then (v.assign_order m.2 pickup route).2
          else v) := by
    intro v' hv'
    unfold FleetManager.assign_order_to_taxi at hv'
    rcases List.mem_map.mp hv' with ⟨v, hv, hq⟩
    exact ⟨v, hv, hq.symm⟩
  refine ⟨?_, ?_, ?_, ?_, ?_, ?_⟩
  · rw [OrderManager.assign_order_ids]
    exact hInv.order_ids_nodup
  · unfold FleetManager.assign_order_to_taxi
    rw [List.map_map]
    have hcong : s.fleet.taxis.map
        ((fun v => v.taxi_id) ∘ (fun v =>
          if v.taxi_id = m.1 then (v.assign_order m.2 pickup route).2 else v)) =
        s.fleet.taxis.map (fun v => v.taxi_id) := by
      apply List.map_congr_left
      intro v _
      show (if v.taxi_id = m.1 then (v.assign_order m.2 pickup route).2
        else v).taxi_id = v.taxi_id
      split
      · exact TaxiEntity.assign_taxi_id v m.2 pickup route
      · rfl
    rw [hcong]
    exact hInv.taxi_ids_nodup
  · intro v' hv' hst
    rcases hmem v' hv' with ⟨v, hv, rfl⟩
    rcases assign_point_cases v m.1 m.2 pickup route with hc | ⟨hidle, _, hc⟩
    · rw [hc] at hst ⊢
      exact hInv.idle_free v hv hst
    · exfalso
      rw [hc] at hst
      rcases hst with h | h
      · exact absurd (h : TaxiStatus.enroute_pickup = TaxiStatus.idle)
          (by intro hx; cases hx)
      · exact absurd (h : TaxiStatus.enroute_pickup = TaxiStatus.repositioning)
          (by intro hx; cases hx)
  · intro v' hv' hst
    rcases hmem v' hv' with ⟨v, hv, rfl⟩
    rcases assign_point_cases v m.1 m.2 pickup route with hc | ⟨hidle, _, hc⟩
    · rw [hc] at hst ⊢
      rcases hInv.enroute_assigned v hv hst with ⟨oid2, hvo, hall⟩
      refine ⟨oid2, hvo, ?_⟩
      refine OrderManager.assign_order_keeps s.order_manager m.2 m.1
        s.current_time oid2 OrderStatus.assigned (by intro hx; cases hx) hall
    · rw [hc]
      refine ⟨m.2, rfl, ?_⟩
      exact OrderManager.assign_order_sets s.order_manager m.2 m.1
        s.current_time hInv.order_ids_nodup hwit
  · intro v' hv' hst
    rcases hmem v' hv' with ⟨v, hv, rfl⟩
    rcases assign_point_cases v m.1 m.2 pickup route with hc | ⟨hidle, _, hc⟩
    · rw [hc] at hst ⊢
      rcases hInv.occupied_picked v hv hst with ⟨oid2, hvo, hall⟩
      refine ⟨oid2, hvo, ?_⟩
      refine OrderManager.assign_order_keeps s.order_manager m.2 m.1
        s.current_time oid2 OrderStatus.picked_up (by intro hx; cases hx) hall
    · exfalso
      rw [hc] at hst
      exact absurd (hst : TaxiStatus.enroute_pickup = TaxiStatus.occupied)
        (by intro hx; cases hx)
  · show ((s.fleet.taxis.map (fun v =>
      if v.taxi_id = m.1 then (v.assign_order m.2 pickup route).2
        else v)).filterMap (fun v => v.current_order)).Nodup
    refine heldInsert (fun v => v.taxi_id) (fun v => v.current_order) _ m.1 m.2
      s.fleet.taxis hInv.taxi_ids_nodup
      (show (List.filterMap (fun v => v.current_order) s.fleet.taxis).Nodup from
        hInv.held_nodup)
      (holder_not_waiting s hInv m.2 hwit) ?_ ?_
    · intro a _ hida
      rw [if_neg hida]
    · intro a ha hida
      by_cases hst : a.status = TaxiStatus.idle
      · refine Or.inr ⟨hInv.idle_free a ha (Or.inl hst), ?_⟩
        rw [if_pos hida, TaxiEntity.assign_succeed a m.2 pickup route hst]
      · refine Or.inl ?_
        rw [if_pos hida, TaxiEntity.assign_fail a m.2 pickup route hst]

theorem assign_om_only_inv (s : SimState) (m : Nat × Nat) (hInv : SimInv s) :
    SimInv { s with
      order_manager := s.order_manager.assign_order m.2 m.1 s.current_time } := by
  refine ⟨?_, hInv.taxi_ids_nodup, hInv.idle_free, ?_, ?_, hInv.held_nodup⟩
  · rw [OrderManager.assign_order_ids]
    exact hInv.order_ids_nodup
  · intro v hv hst
    rcases hInv.enroute_assigned v hv hst with ⟨oid2, hvo, hall⟩
    refine ⟨oid2, hvo, ?_⟩
    exact OrderManager.assign_order_keeps s.order_manager m.2 m.1
      s.current_time oid2 OrderStatus.assigned (by intro hx; cases hx) hall
  · intro v hv hst
    rcases hInv.occupied_picked v hv hst with ⟨oid2, hvo, hall⟩
    refine ⟨oid2, hvo, ?_⟩
    exact OrderManager.assign_order_keeps s.order_manager m.2 m.1
      s.current_time oid2 OrderStatus.picked_up (by intro hx; cases hx) hall

theorem simAssignOne_inv (l1 : Option Nat → Nat → Int → List (Nat × Int))
    (l2 : Nat → Nat → Int → List (Nat × Int)) (s : SimState) (m : Nat × Nat)
    (hInv : SimInv s)
    (hwit : ∃ o ∈ s.order_manager.orders,
      o.order_id = m.2 ∧ o.status = OrderStatus.waiting) :
    SimInv (simAssignOne l1 l2 s m) ∧
    ordersLe s.order_manager (simAssignOne l1 l2 s m).order_manager ∧
    (∀ oid2, oid2 ≠ m.2 →
      (∃ o ∈ s.order_manager.orders,
        o.order_id = oid2 ∧ o.status = OrderStatus.waiting) →
      ∃ o ∈ (simAssignOne l1 l2 s m).order_manager.orders,
        o.order_id = oid2 ∧ o.status = OrderStatus.waiting) := by
  simp only [simAssignOne]
  cases hgo : (s.order_manager.assign_order m.2 m.1 s.current_time).get_order
      m.2 with
  | none =>
    refine ⟨assign_om_only_inv s m hInv,
      OrderManager.assign_order_ordersLe s.order_manager m.2 m.1 s.current_time,
      ?_⟩
    intro oid2 hne hw2
    exact OrderManager.assign_order_wit_keep s.order_manager m.2 m.1
      s.current_time oid2 hne hw2
  | some o =>
    have hgoid : o.order_id = m.2 :=
      get_order_id (s.order_manager.assign_order m.2 m.1 s.current_time) m.2 o
        hgo
    cases hgt : s.fleet.get_taxi m.1 with
    | none =>
      refine ⟨assign_om_only_inv s m hInv,
        OrderManager.assign_order_ordersLe s.order_manager m.2 m.1
          s.current_time, ?_⟩
      intro oid2 hne hw2
      exact OrderManager.assign_order_wit_keep s.order_manager m.2 m.1
        s.current_time oid2 hne hw2
    | some taxi =>
      dsimp only
      rw [hgoid]
      refine ⟨assign_pair_inv s m o.pickup_node _ hInv hwit,
        OrderManager.assign_order_ordersLe s.order_manager m.2 m.1
          s.current_time, ?_⟩
      intro oid2 hne hw2
      exact OrderManager.assign_order_wit_keep s.order_manager m.2 m.1
        s.current_time oid2 hne hw2

theorem assignFold_inv (l1 : Option Nat → Nat → Int → List (Nat × Int))
    (l2 : Nat → Nat → Int → List (Nat × Int)) (ms : List (Nat × Nat))
    (s : SimState) (hInv : SimInv s)
    (hdup : (ms.map Prod.snd).Nodup)
    (hwits : ∀ m ∈ ms, ∃ o ∈ s.order_manager.orders,
      o.order_id = m.2 ∧ o.status = OrderStatus.waiting) :
    SimInv (ms.foldl (simAssignOne l1 l2) s) ∧
    ordersLe s.order_manager
      (ms.foldl (simAssignOne l1 l2) s).order_manager := by
  induction ms generalizing s with
  | nil => exact ⟨hInv, ordersLe_refl s.order_manager⟩
  | cons m rest ih =>
    have hstep := simAssignOne_inv l1 l2 s m hInv
      (hwits m (List.mem_cons_self m rest))
    have hdup' : (rest.map Prod.snd).Nodup := by
      rw [List.map_cons] at hdup
      exact hdup.of_cons
    have hhead : m.2 ∉ rest.map Prod.snd := by
      rw [List.map_cons] at hdup
      exact (List.nodup_cons.mp hdup).1
    have hwits' : ∀ m' ∈ rest, ∃ o ∈ (simAssignOne l1 l2 s m).order_manager.orders,
        o.order_id = m'.2 ∧ o.status = OrderStatus.waiting := by
      intro m' hm'
      refine hstep.2.2 m'.2 ?_ (hwits m' (List.mem_cons_of_mem m hm'))
      intro hc
      rw [← hc] at hhead
      exact hhead (List.mem_map.mpr ⟨m', hm', rfl⟩)
    have hrest := ih (simAssignOne l1 l2 s m) hstep.1 hdup' hwits'
    exact ⟨hrest.1, ordersLe_trans _ _ _ hstep.2.1 hrest.2⟩

theorem simMatchPhase_inv (g : RoadGraph) (mc : MatchChoice)
    (l1 : Option Nat → Nat → Int → List (Nat × Int))
    (l2 : Nat → Nat → Int → List (Nat × Int)) (s : SimState) (hInv : SimInv s) :
    SimInv (simMatchPhase g mc l1 l2 s) ∧
    ordersLe s.order_manager (simMatchPhase g mc l1 l2 s).order_manager := by
  have hInv1 : SimInv { s with order_manager :=
      (s.order_manager.get_waiting_orders s.current_time).2 } := by
    refine ⟨?_, hInv.taxi_ids_nodup, hInv.idle_free, ?_, ?_, hInv.held_nodup⟩
    · rw [OrderManager.waiting_ids]
      exact hInv.order_ids_nodup
    · intro v hv hst
      rcases hInv.enroute_assigned v hv hst with ⟨oid, hvo, hall⟩
      exact ⟨oid, hvo, OrderManager.waiting_keeps s.order_manager s.current_time
        oid OrderStatus.assigned (by intro hx; cases hx) hall⟩
    · intro v hv hst
      rcases hInv.occupied_picked v hv hst with ⟨oid, hvo, hall⟩
      exact ⟨oid, hvo, OrderManager.waiting_keeps s.order_manager s.current_time
        oid OrderStatus.picked_up (by intro hx; cases hx) hall⟩
  have hLe1 : ordersLe s.order_manager
      (s.order_manager.get_waiting_orders s.current_time).2 :=
    OrderManager.waiting_ordersLe s.order_manager s.current_time
  simp only [simMatchPhase]
  by_cases hif : s.fleet.get_idle_taxis = [] ∨
      (s.order_manager.get_waiting_orders s.current_time).1 = []
  · rw [if_pos hif]
    exact ⟨hInv1, hLe1⟩
  · rw [if_neg hif]
    have hspec := matches_spec g s.fleet.get_idle_taxis
      (s.order_manager.get_waiting_orders s.current_time).1 mc
    have hwits : ∀ m ∈ MatchChoice.matches mc (build_cost_matrix g
        s.fleet.get_idle_taxis
        (s.order_manager.get_waiting_orders s.current_time).1),
        ∃ o ∈ ({ s with order_manager :=
          (s.order_manager.get_waiting_orders s.current_time).2 } :
            SimState).order_manager.orders,
          o.order_id = m.2 ∧ o.status = OrderStatus.waiting := by
      intro m hm
      rcases hspec.2 m hm with ⟨w, hwret, hwid⟩
      rcases OrderManager.waiting_returned s.order_manager s.current_time w
        hwret with ⟨hwst, hwmem⟩
      exact ⟨w, hwmem, hwid, hwst⟩
    have hfold := assignFold_inv l1 l2
      (MatchChoice.matches mc (build_cost_matrix g s.fleet.get_idle_taxis
        (s.order_manager.get_waiting_orders s.current_time).1))
      ({ s with order_manager :=
        (s.order_manager.get_waiting_orders s.current_time).2 })
      hInv1 hspec.1 hwits
    exact ⟨hfold.1, ordersLe_trans _ _ _ hLe1 hfold.2⟩

theorem repos_entry_inv (s : SimState) (entry : FleetManager.PlanEntry)
    (hInv : SimInv s) :
    SimInv { s with fleet := { s.fleet with
      taxis := s.fleet.taxis.map (fun v =>
        if v.taxi_id = entry.1 ∧ v.status = TaxiStatus.idle then
          { v with
            status := TaxiStatus.repositioning
            current_destination := some entry.2.1
            current_route := some entry.2.2 }
        else v) } } := by
  refine ⟨hInv.order_ids_nodup, ?_, ?_, ?_, ?_, ?_⟩
  · rw [List.map_map]
    have hcong : s.fleet.taxis.map ((fun v => v.taxi_id) ∘ (fun v =>
        if v.taxi_id = entry.1 ∧ v.status = TaxiStatus.idle then
          { v with
            status := TaxiStatus.repositioning
            current_destination := some entry.2.1
            current_route := some entry.2.2 }
        else v)) = s.fleet.taxis.map (fun v => v.taxi_id) := by
      apply List.map_congr_left
      intro v _
      show (if v.taxi_id = entry.1 ∧ v.status = TaxiStatus.idle then
          { v with
            status := TaxiStatus.repositioning
            current_destination := some entry.2.1
            current_route := some entry.2.2 }
        else v).taxi_id = v.taxi_id
      split <;> rfl
    rw [hcong]
    exact hInv.taxi_ids_nodup
  · intro v' hv' hst
    rcases List.mem_map.mp hv' with ⟨v, hv, rfl⟩
    by_cases hg : v.taxi_id = entry.1 ∧ v.status = TaxiStatus.idle
    · rw [if_pos hg]
      exact hInv.idle_free v hv (Or.inl hg.2)
    · rw [if_neg hg] at hst ⊢
      exact hInv.idle_free v hv hst
  · intro v' hv' hst
    rcases List.mem_map.mp hv' with ⟨v, hv, rfl⟩
    by_cases hg : v.taxi_id = entry.1 ∧ v.status = TaxiStatus.idle
    · exfalso
      rw [if_pos hg] at hst
      exact absurd
        (hst : TaxiStatus.repositioning = TaxiStatus.enroute_pickup)
        (by intro hx; cases hx)
    · rw [if_neg hg] at hst
      rw [if_neg hg]
      exact hInv.enroute_assigned v hv hst
  · intro v' hv' hst
    rcases List.mem_map.mp hv' with ⟨v, hv, rfl⟩
    by_cases hg : v.taxi_id = entry.1 ∧ v.status = TaxiStatus.idle
    · exfalso
      rw [if_pos hg] at hst
      exact absurd (hst : TaxiStatus.repositioning = TaxiStatus.occupied)
        (by intro hx; cases hx)
    · rw [if_neg hg] at hst
      rw [if_neg hg]
      exact hInv.occupied_picked v hv hst
  · show ((s.fleet.taxis.map (fun v =>
        if v.taxi_id = entry.1 ∧ v.status = TaxiStatus.idle then
          { v with
            status := TaxiStatus.repositioning
            current_destination := some entry.2.1
            current_route := some entry.2.2 }
        else v)).filterMap (fun v => v.current_order)).Nodup
    rw [List.filterMap_map]
    have hcong : s.fleet.taxis.filterMap ((fun v => v.current_order) ∘ (fun v =>
        if v.taxi_id = entry.1 ∧ v.status = TaxiStatus.idle then
          { v with
            status := TaxiStatus.repositioning
            current_destination := some entry.2.1
            current_route := some entry.2.2 }
        else v)) = s.fleet.taxis.filterMap (fun v => v.current_order) := by
      apply List.filterMap_congr
      intro v _
      show (if v.taxi_id = entry.1 ∧ v.status = TaxiStatus.idle then
          { v with
            status := TaxiStatus.repositioning
            current_destination := some entry.2.1
            current_route := some entry.2.2 }
        else v).current_order = v.current_order
      split <;> rfl
    rw [hcong]
    exact hInv.held_nodup

theorem simRepos_fold_inv (plan : List FleetManager.PlanEntry) (s : SimState)
    (hInv : SimInv s) :
    SimInv { s with fleet := s.fleet.reposition_idle_taxis plan } := by
  induction plan generalizing s with
  | nil => exact hInv
  | cons entry rest ih =>
    exact ih { s with fleet := { s.fleet with
        taxis := s.fleet.taxis.map (fun v =>
          if v.taxi_id = entry.1 ∧ v.status = TaxiStatus.idle then
            { v with
              status := TaxiStatus.repositioning
              current_destination := some entry.2.1
              current_route := some entry.2.2 }
          else v) } } (repos_entry_inv s entry hInv)

theorem simRepositionPhase_inv (plan : List FleetManager.PlanEntry)
    (s : SimState) (hInv : SimInv s) :
    SimInv (simRepositionPhase plan s) ∧
    (simRepositionPhase plan s).order_manager = s.order_manager := by
  unfold simRepositionPhase
  by_cases hif : s.fleet.get_idle_taxis = []
  · rw [if_pos hif]
    exact ⟨hInv, rfl⟩
  · rw [if_neg hif]
    exact ⟨simRepos_fold_inv plan s hInv, rfl⟩

theorem simStep_inv (g : RoadGraph) (ora : TickOracle) (s : SimState)
    (hInv : SimInv s) :
    SimInv (simStep g ora s) ∧
    ordersLe s.order_manager (simStep g ora s).order_manager := by
  have hA := phaseA_inv s.fleet s.order_manager (s.current_time + s.time_window)
    hInv.order_ids_nodup hInv.taxi_ids_nodup hInv.idle_free
    hInv.enroute_assigned hInv.occupied_picked hInv.held_nodup
  have hA_inv : SimInv (simUpdatePhase s) :=
    ⟨hA.1, hA.2.1, hA.2.2.1, hA.2.2.2.1, hA.2.2.2.2.1, hA.2.2.2.2.2⟩
  have hA_le : ordersLe s.order_manager (simUpdatePhase s).order_manager :=
    phaseA_ordersLe s.fleet s.order_manager (s.current_time + s.time_window)
      hInv.held_nodup hInv.enroute_assigned hInv.occupied_picked
  have hM := simMatchPhase_inv g ora.mc ora.leg1 ora.leg2 (simUpdatePhase s)
    hA_inv
  have hR := simRepositionPhase_inv ora.plan
    (simMatchPhase g ora.mc ora.leg1 ora.leg2 (simUpdatePhase s)) hM.1
  refine ⟨hR.1, ?_⟩
  refine ordersLe_trans _ _ _ hA_le ?_
  refine ordersLe_trans _ _ _ hM.2 ?_
  show ordersLe
    (simMatchPhase g ora.mc ora.leg1 ora.leg2 (simUpdatePhase s)).order_manager
    (simStep g ora s).order_manager
  unfold simStep
  rw [hR.2]
  exact ordersLe_refl _

theorem simStepRel_inv (g : RoadGraph) (s s' : SimState) (hInv : SimInv s)
    (h : SimStepRel g s s') :
    SimInv s' ∧ ordersLe s.order_manager s'.order_manager := by
  rcases h with ⟨ora, _, rfl⟩
  exact simStep_inv g ora s hInv

theorem simReach_inv (g : RoadGraph) (s s' : SimState) (hInv : SimInv s)
    (h : SimReach g s s') :
    SimInv s' ∧ ordersLe s.order_manager s'.order_manager := by
  induction h with
  | refl => exact ⟨hInv, ordersLe_refl _⟩
  | tail h1 h2 ih =>
    have hstep := simStepRel_inv g _ _ ih.1 h2
    exact ⟨hstep.1, ordersLe_trans _ _ _ ih.2 hstep.2⟩

theorem ordersInsert_waiting (l : List OrderEntity) (o : OrderEntity)
    (h : ∀ x ∈ l, x.status = OrderStatus.waiting)
    (ho : o.status = OrderStatus.waiting) :
    ∀ x ∈ ordersInsert l o, x.status = OrderStatus.waiting := by
  unfold ordersInsert
  intro x hx
  split at hx
  · rcases List.mem_map.mp hx with ⟨y, hy, rfl⟩
    by_cases hid : y.order_id = o.order_id
    · rw [if_pos hid]
      exact ho
    · rw [if_neg hid]
      exact h y hy
  · rcases List.mem_append.mp hx with h1 | h1
    · exact h x h1
    · rw [List.mem_singleton] at h1
      rw [h1]
      exact ho

theorem ordersInsert_ids_nodup (l : List OrderEntity) (o : OrderEntity)
    (h : (l.map (fun x => x.order_id)).Nodup) :
    ((ordersInsert l o).map (fun x => x.order_id)).Nodup := by
  unfold ordersInsert
  split
  · rw [List.map_map]
    have hcong : l.map ((fun x => x.order_id) ∘ (fun x =>
        if x.order_id = o.order_id then o else x)) =
        l.map (fun x => x.order_id) := by
      apply List.map_congr_left
      intro x _
      show (if x.order_id = o.order_id then o else x).order_id = x.order_id
      by_cases hid : x.order_id = o.order_id
      · rw [if_pos hid]
        exact hid.symm
      · rw [if_neg hid]
    rw [hcong]
    exact h
  · next hany =>
    rw [List.map_append]
    refine nodup_concat_of _ o.order_id h ?_
    intro hmem
    rcases List.mem_map.mp hmem with ⟨x, hx, hid⟩
    refine hany ?_
    refine List.any_eq_true.mpr ⟨x, hx, ?_⟩
    simp [hid]

theorem ordersInit_fold_facts (st : Int) (rows : List OrderRow)
    (acc : List OrderEntity)
    (h1 : (acc.map (fun o => o.order_id)).Nodup)
    (h2 : ∀ o ∈ acc, o.status = OrderStatus.waiting) :
    ((rows.foldl (fun acc r =>
        if r.2.2.2 < st then acc
        else ordersInsert acc
          { order_id := r.1
            pickup_node := r.2.1
            dropoff_node := r.2.2.1
            request_time := r.2.2.2 }) acc).map (fun o => o.order_id)).Nodup ∧
    ∀ o ∈ rows.foldl (fun acc r =>
        if r.2.2.2 < st then acc
        else ordersInsert acc
          { order_id := r.1
            pickup_node := r.2.1
            dropoff_node := r.2.2.1
            request_time := r.2.2.2 }) acc, o.status = OrderStatus.waiting := by
  induction rows generalizing acc with
  | nil => exact ⟨h1, h2⟩
  | cons r rest ih =>
    rw [List.foldl_cons]
    by_cases hc : r.2.2.2 < st
    · rw [if_pos hc]
      exact ih acc h1 h2
    · rw [if_neg hc]
      refine ih (ordersInsert acc
        { order_id := r.1
          pickup_node := r.2.1
          dropoff_node := r.2.2.1
          request_time := r.2.2.2 }) ?_ ?_
      · exact ordersInsert_ids_nodup acc _ h1
      · exact ordersInsert_waiting acc _ h2 rfl

theorem fleet_init_facts (positions : List Nat) :
    (((FleetManager.init positions).taxis.map (fun v => v.taxi_id)).Nodup) ∧
    (∀ v ∈ (FleetManager.init positions).taxis,
      v.status = TaxiStatus.idle ∧ v.current_order = none) ∧
    (heldOrders (FleetManager.init positions)).Nodup := by
  unfold FleetManager.init
  refine ⟨?_, ?_, ?_⟩
  · rw [List.map_map]
    have hcong : positions.enum.map ((fun v => v.taxi_id) ∘ (fun p =>
        ({ taxi_id := p.1 + 1, position_node := some p.2 } : TaxiEntity))) =
        positions.enum.map (fun p => p.1 + 1) := by
      apply List.map_congr_left
      intro p _
      rfl
    rw [hcong]
    have h2 : positions.enum.map (fun p => p.1 + 1) =
        (positions.enum.map Prod.fst).map (fun i => i + 1) := by
      rw [List.map_map]
      rfl
    rw [h2, List.enum_map_fst]
    refine List.Nodup.map ?_ (List.nodup_range _)
    intro a b hab
    have h2 : a + 1 = b + 1 := hab
    omega
  · intro v hv
    rcases List.mem_map.mp hv with ⟨p, _, rfl⟩
    exact ⟨rfl, rfl⟩
  · unfold heldOrders
    rw [List.filterMap_map]
    have hnil : positions.enum.filterMap ((fun v => v.current_order) ∘ (fun p =>
        ({ taxi_id := p.1 + 1, position_node := some p.2 } : TaxiEntity))) =
        [] := by
      refine List.filterMap_eq_nil_iff.mpr ?_
      intro p _
      rfl
    rw [hnil]
    exact List.nodup_nil

theorem simInit_inv (rows : List OrderRow) (st w : Int)
    (positions : List Nat) : SimInv (simInit rows st w positions) := by
  have hO := ordersInit_fold_facts st rows []
    (by exact List.nodup_nil)
    (fun o ho => absurd ho (List.not_mem_nil o))
  have hF := fleet_init_facts positions
  refine ⟨hO.1, hF.1, ?_, ?_, ?_, hF.2.2⟩
  · intro v hv _
    exact (hF.2.1 v hv).2
  · intro v hv hst
    exfalso
    have := (hF.2.1 v hv).1
    rw [this] at hst
    cases hst
  · intro v hv hst
    exfalso
    have := (hF.2.1 v hv).1
    rw [this] at hst
    cases hst

/-- C7: in every state reachable by the simulator's tick loop from the
initially loaded state, an order whose status is `completed` or `cancelled`
never changes status again, and every order's status only moves forward along
`waiting → assigned → picked_up → completed` or `waiting → cancelled` — even
though `change_orders_status` writes statuses unconditionally.  Stated as:
between any state `s` reachable from the loaded state and any state `s'`
reachable from `s`, the order list evolves pointwise along the forward order
`statusLe` (under which `completed` and `cancelled` are maximal, hence
terminal). -/
theorem C7_order_status_forward (g : RoadGraph) (rows : List OrderRow)
    (start_time time_window : Int) (positions : List Nat) (s s' : SimState)
    (hload : SimReach g (simInit rows start_time time_window positions) s)
    (hreach : SimReach g s s') :
    List.Forall₂ (fun o o' => statusLe o.status o'.status = true)
      s.order_manager.orders s'.order_manager.orders := by
  have hInv := (simReach_inv g _ s
    (simInit_inv rows start_time time_window positions) hload).1
  exact (simReach_inv g s s' hInv hreach).2

/-- Witness for C7: the theorem applied between the loaded state of a concrete
one-order, one-taxi scenario and the state after one tick under the nearest
strategy. -/
theorem C7_order_status_forward_witness :
    List.Forall₂ (fun o o' => statusLe o.status o'.status = true)
      (simInit [(10, 1, 0, 0)] 0 5 [4]).order_manager.orders
      (simStep discGraph
        ⟨MatchChoice.nearestPick, fun _ _ _ => [], fun _ _ _ => [], []⟩
        (simInit [(10, 1, 0, 0)] 0 5 [4])).order_manager.orders :=
  C7_order_status_forward discGraph [(10, 1, 0, 0)] 0 5 [4]
    (simInit [(10, 1, 0, 0)] 0 5 [4])
    (simStep discGraph
      ⟨MatchChoice.nearestPick, fun _ _ _ => [], fun _ _ _ => [], []⟩
      (simInit [(10, 1, 0, 0)] 0 5 [4]))
    Relation.ReflTransGen.refl
    (Relation.ReflTransGen.single
      ⟨⟨MatchChoice.nearestPick, fun _ _ _ => [], fun _ _ _ => [], []⟩,
        trivial, rfl⟩)

end TrafficSim
